import Mathlib

/-!
# A shallow embedding of `tiny_printf.c`

The model follows `src/tiny_printf.c` function by function.

* A `char` is a natural number (its byte value); `'%'` is `37`, `'-'` is `45`,
  `'0'` is `48`, `' '` is `32`, and so on.
* A `const char *` is the list of the bytes of its object from the pointer to
  the end of the object: `*p` is the head of the list, `++p` drops the head.
  Reading through a pointer that has run off the end of its object is the fault
  `Fault.readPastEnd`.  A NUL-terminated text `t` is therefore the list
  `t ++ [0]`.
* The output sink `printchar(ctx, c)` is a function `σ → Nat → σ` on the
  context it owns.
* `va_list` is a list of `Arg`; `va_arg` on a missing or differently typed
  argument is the fault `Fault.badArg`.
* Unsigned arithmetic and conversions between integer types are written with an
  explicit reduction modulo `2 ^ bits`.  The `int` variables `width` and
  `precision` that the scan accumulates from the digits of a directive wrap
  modulo `2 ^ 32` as in the compiled code (C leaves the overflow undefined).
  The other arithmetic on `int` variables (`pc`, `len`, `width - len`,
  `--width`) is exact.
* `FLOAT_TYPE`, the type that the macro `TINY_PRINTF_FLOAT` names, is a binary
  floating-point format given by the build (`float`: `binary32`, `double`:
  `binary64`).  A value of the type is a rational number, and every operation
  is the exact operation followed by rounding to the nearest value of the format,
  ties to even (`roundFloat`).
* The `s` conversion reads its pointer with `va_arg(args, int)`: see `va_arg_str`.
-/

namespace Printf

/-- Undefined behaviour of the C program that the model detects, and fuel exhaustion
of the scan loop of the model. -/
inductive Fault where
  /-- A read through a `char` pointer beyond the end of its object. -/
  | readPastEnd
  /-- A write outside `print_buf`. -/
  | writeOutsideBuf
  /-- The call `va_arg` on a missing or differently typed argument. -/
  | badArg
  /-- The operation `u % b` or `u / b` with `b == 0`. -/
  | divByZero
  /-- A floating point value that does not fit `unsigned int` or its floating-point format,
  or a division by `0.0`. -/
  | floatRange
  /-- A pointer wider than `int` that is read with `va_arg(args, int)`. -/
  | pointerThroughInt
  /-- The scan loop of the model ran out of fuel. -/
  | outOfFuel
  deriving DecidableEq, Repr

/-- Conversion of an integer to the unsigned type of `bits` bits. -/
def toUnsigned (bits : Nat) (x : Int) : Nat :=
  (x % (2 : Int) ^ bits).toNat

/-- Conversion of an integer to the signed (two's complement) type of `bits` bits. -/
def toSigned (bits : Nat) (x : Int) : Int :=
  if x % (2 : Int) ^ bits < (2 : Int) ^ (bits - 1) then x % (2 : Int) ^ bits
  else x % (2 : Int) ^ bits - (2 : Int) ^ bits

/-- Pad to the right: `(1 << 0)`. -/
def FORMAT_PAD_RIGHT : Nat := 1

/-- Pad with zeros: `(1 << 1)`. -/
def FORMAT_PAD_ZERO : Nat := 2

/-- Format as long long: `(1 << 2)`. -/
def FORMAT_LONG_LONG : Nat := 4

/-- The loop `for(ptr = string; *ptr; ++ptr) { ++len; }` of `TinyPrintString`. -/
def lenLoop : List Nat → Int → Except Fault Int
  | [], _ => .error .readPastEnd
  | c :: ptr, len => if c ≠ 0 then lenLoop ptr (len + 1) else .ok len

/-- The loop `for(; width > 0; --width) { printchar(ctx, padchar); ++pc; }` of
`TinyPrintString`; the first argument bounds the number of iterations and is
`width.toNat` at every call.  The result is `(ctx, pc, width)` after the loop. -/
def padLoop {σ : Type} (printchar : σ → Nat → σ) (padchar : Nat) :
    Nat → σ → Int → Int → σ × Int × Int
  | 0, ctx, pc, width => (ctx, pc, width)
  | n + 1, ctx, pc, width =>
    if width > 0 then padLoop printchar padchar n (printchar ctx padchar) (pc + 1) (width - 1)
    else (ctx, pc, width)

/-- The loop `for(; *string; ++string) { printchar(ctx, *string); ++pc; }` of
`TinyPrintString`. -/
def putsLoop {σ : Type} (printchar : σ → Nat → σ) : List Nat → σ → Int → Except Fault (σ × Int)
  | [], _, _ => .error .readPastEnd
  | c :: string, ctx, pc =>
    if c ≠ 0 then putsLoop printchar string (printchar ctx c) (pc + 1) else .ok (ctx, pc)

/-- The function `TinyPrintString`: the new sink context and the number of bytes printed. -/
def TinyPrintString {σ : Type} (printchar : σ → Nat → σ) (ctx : σ) (string : List Nat)
    (width : Int) (options : Nat) : Except Fault (σ × Int) :=
  let pc : Int := 0
  let padchar : Nat := 32
  -- if(width > 0) { ... }
  (if width > 0 then
      (lenLoop string 0).map fun len =>
        ((if len ≥ width then 0 else width - len),
         (if options &&& FORMAT_PAD_ZERO ≠ 0 then 48 else padchar))
    else .ok (width, padchar)) >>= fun wp =>
  let width : Int := wp.1
  let padchar : Nat := wp.2
  -- if(!(options & FORMAT_PAD_RIGHT)) { for(; width > 0; --width) ... }
  let st : σ × Int × Int :=
    if options &&& FORMAT_PAD_RIGHT = 0 then padLoop printchar padchar width.toNat ctx pc width
    else (ctx, pc, width)
  -- for(; *string; ++string) ...
  putsLoop printchar string st.1 st.2.1 >>= fun cp =>
  -- for(; width > 0; --width) ...
  let st2 := padLoop printchar padchar st.2.2.toNat cp.1 cp.2 st.2.2
  .ok (st2.1, st2.2.1)

/-- The byte stored for the remainder `r = u % b` in the loop of `TINY_PRINT_INTEGER`:
`t = r; if(t >= 10) t += letbase - '0' - 10;` and then the `char` value `t + '0'`. -/
def digitChar (letbase : Int) (r : Nat) : Nat :=
  let t : Int := toSigned 32 r
  let t : Int := if t ≥ 10 then t + (letbase - 48 - 10) else t
  toUnsigned 8 (t + 48)

/-- The loop `while(u) { t = u % b; if(t >= 10) t += letbase - '0' - 10; *--s = t + '0'; u /= b; }`
of `TINY_PRINT_INTEGER`.  The first argument is the index of `s` in `print_buf`, the
list `str` holds the bytes of `print_buf` from `s` to the end of the buffer, and `ub`
is `b` converted to the unsigned type of `u`.  The result is `s` and the bytes from `s`
after the loop. -/
def digitLoop (ub : Nat) (letbase : Int) : Nat → Nat → List Nat → Except Fault (Nat × List Nat)
  | 0, u, str => if u = 0 then .ok (0, str) else
      if ub = 0 then .error .divByZero else .error .writeOutsideBuf
  | s + 1, u, str => if u = 0 then .ok (s + 1, str) else
      if ub = 0 then .error .divByZero else
      digitLoop ub letbase s (u / ub) (digitChar letbase (u % ub) :: str)

/-- The function template `TINY_PRINT_INTEGER(FUNC_NAME, INT_TYPE, PRINT_BUF_SIZE)`, where
`bits` is the width of `INT_TYPE`: the new sink context and the number of bytes printed. -/
def TINY_PRINT_INTEGER {σ : Type} (bits PRINT_BUF_SIZE : Nat) (printchar : σ → Nat → σ) (ctx : σ)
    (i : Int) (b : Int) (sg : Int) (width : Int) (options : Nat) (letbase : Int) :
    Except Fault (σ × Int) :=
  -- unsigned INT_TYPE u = i;
  let u : Nat := toUnsigned bits i
  if i = 0 then
    -- print_buf[0] = '0'; print_buf[1] = '\0';
    if PRINT_BUF_SIZE < 2 then .error .writeOutsideBuf
    else TinyPrintString printchar ctx [48, 0] width options
  else
    -- if(sg && b == 10 && i < 0) { neg = 1; u = -i; }
    let neg : Bool := decide (sg ≠ 0 ∧ b = 10 ∧ i < 0)
    let u : Nat := if neg then toUnsigned bits (-i) else u
    -- s = print_buf + sizeof(print_buf) - 1; *s = '\0';
    if PRINT_BUF_SIZE = 0 then .error .writeOutsideBuf
    else
      digitLoop (toUnsigned bits b) letbase (PRINT_BUF_SIZE - 1) u [0] >>= fun sp =>
      if neg then
        if width ≠ 0 ∧ options &&& FORMAT_PAD_ZERO ≠ 0 then
          -- printchar(ctx, '-'); ++pc; --width;
          (TinyPrintString printchar (printchar ctx 45) sp.2 (width - 1) options).map
            fun r => (r.1, 1 + r.2)
        else
          -- *--s = '-';
          if sp.1 = 0 then .error .writeOutsideBuf
          else TinyPrintString printchar ctx (45 :: sp.2) width options
      else TinyPrintString printchar ctx sp.2 width options

/-- Integer print function 32 bit version: `print_buf` has `sizeof("-2147483648") = 12` bytes. -/
def TinyPrintInteger {σ : Type} (printchar : σ → Nat → σ) (ctx : σ)
    (i : Int) (b : Int) (sg : Int) (width : Int) (options : Nat) (letbase : Int) :
    Except Fault (σ × Int) :=
  TINY_PRINT_INTEGER 32 12 printchar ctx i b sg width options letbase

/-- Integer print function 64 bit version: `print_buf` has
`sizeof("-9223372036854775808") = 21` bytes. -/
def TinyPrintIntegerLongLong {σ : Type} (printchar : σ → Nat → σ) (ctx : σ)
    (i : Int) (b : Int) (sg : Int) (width : Int) (options : Nat) (letbase : Int) :
    Except Fault (σ × Int) :=
  TINY_PRINT_INTEGER 64 21 printchar ctx i b sg width options letbase

/-- The loop `for(i = 0, multiplier = 1; i < precision; i++) { multiplier *= 10; }` of
`TINY_PRINT_FLOAT`, in `unsigned int` arithmetic; the first argument is the number of
iterations left. -/
def multiplierLoop : Nat → Nat → Nat
  | 0, multiplier => multiplier
  | n + 1, multiplier => multiplierLoop n (multiplier * 10 % 2 ^ 32)

/-- A binary floating-point format: `precision` bits in the significand and the exponents
`emin` .. `emax` of the normal numbers. -/
structure FloatFormat where
  /-- The number of bits of the significand, the leading bit included. -/
  precision : Nat
  /-- The least exponent of a normal number. -/
  emin : Int
  /-- The greatest exponent of a finite number. -/
  emax : Int

/-- The format of `float`: IEEE 754 binary32. -/
def binary32 : FloatFormat := { precision := 24, emin := -126, emax := 127 }

/-- The format of `double`: IEEE 754 binary64. -/
def binary64 : FloatFormat := { precision := 53, emin := -1022, emax := 1023 }

/-- The integer nearest to `q`; a tie goes to the even one. -/
def roundHalfEven (q : ℚ) : Int :=
  if q - (Int.floor q : ℚ) < 1 / 2 then Int.floor q
  else if 1 / 2 < q - (Int.floor q : ℚ) then Int.floor q + 1
  else if Int.floor q % 2 = 0 then Int.floor q
  else Int.floor q + 1

/-- The power `2 ^ e` for an integer exponent `e`. -/
def pow2 (e : Int) : ℚ :=
  if 0 ≤ e then ((2 ^ e.toNat : Nat) : ℚ) else 1 / ((2 ^ (-e).toNat : Nat) : ℚ)

/-- The number of times `n` can be halved before it is below 2: the binary logarithm of
`n`, rounded down, when the first argument is at least `n`. -/
def log2Loop : Nat → Nat → Nat
  | 0, _ => 0
  | fuel + 1, n => if n < 2 then 0 else log2Loop fuel (n / 2) + 1

/-- The binade of a rational `x` other than 0: the exponent `e` with
`2 ^ e ≤ |x| < 2 ^ (e + 1)`, found from the binary logarithms of the numerator and of the
denominator. -/
def binade (x : ℚ) : Int :=
  if pow2 ((log2Loop x.num.natAbs x.num.natAbs : Int) - (log2Loop x.den x.den : Int)) ≤ |x| then
    (log2Loop x.num.natAbs x.num.natAbs : Int) - (log2Loop x.den x.den : Int)
  else (log2Loop x.num.natAbs x.num.natAbs : Int) - (log2Loop x.den x.den : Int) - 1

/-- The value of the format nearest to `x`, ties to even: a multiple of the unit in the last
place of the binade of `x` (of the subnormal numbers below `2 ^ emin`).  A result beyond the
finite numbers of the format (an infinity in C) is the fault `floatRange`. -/
def roundFloat (fmt : FloatFormat) (x : ℚ) : Except Fault ℚ :=
  if x = 0 then .ok 0
  else
    let ulp : ℚ := pow2 (max (binade x) fmt.emin - ((fmt.precision : Int) - 1))
    let y : ℚ := (roundHalfEven (x / ulp) : ℚ) * ulp
    if |y| ≥ pow2 (fmt.emax + 1) then .error .floatRange else .ok y

/-- The conversion `(unsigned int)x` of a floating-point value: the value is truncated
toward zero; the conversion is undefined when the result does not fit `unsigned int`. -/
def toUInt (x : ℚ) : Except Fault Nat :=
  if x ≥ (2 : ℚ) ^ 32 ∨ x ≤ -1 then .error .floatRange else .ok (Int.floor x).toNat

/-- The expression `(unsigned int)((number - (FLOAT_TYPE)intPart) * (FLOAT_TYPE)multiplier)` of
`TINY_PRINT_FLOAT`, where `mf` is `(FLOAT_TYPE)multiplier`. -/
def fracPart (fmt : FloatFormat) (number : ℚ) (intPart : Nat) (mf : ℚ) : Except Fault Nat :=
  roundFloat fmt (intPart : ℚ) >>= fun ip =>
  roundFloat fmt (number - ip) >>= fun d =>
  roundFloat fmt (d * mf) >>= fun x =>
  toUInt x

/-- The function template `TINY_PRINT_FLOAT` for the floating-point format `fmt` of
`FLOAT_TYPE`: the new sink context and the number of bytes printed (an `unsigned int`).  The
argument `number` is converted to `FLOAT_TYPE` first, as the call does. -/
def TinyPrintFloat {σ : Type} (fmt : FloatFormat) (printchar : σ → Nat → σ) (ctx : σ)
    (number : ℚ) (precision : Nat) : Except Fault (σ × Nat) :=
  roundFloat fmt number >>= fun number =>
  -- if(number < 0) { number = -number; printchar(ctx, '-'); pc++; }
  let st : ℚ × σ × Nat := if number < 0 then (-number, printchar ctx 45, 1) else (number, ctx, 0)
  let multiplier : Nat := multiplierLoop precision 1
  -- number += (FLOAT_TYPE)0.5 / (FLOAT_TYPE)multiplier;
  if multiplier = 0 then .error .floatRange
  else
    roundFloat fmt (multiplier : ℚ) >>= fun mf =>
    roundFloat fmt (1 / 2 : ℚ) >>= fun half =>
    roundFloat fmt (half / mf) >>= fun h =>
    roundFloat fmt (st.1 + h) >>= fun number =>
    -- intPart = (unsigned int)number;
    toUInt number >>= fun intPart =>
    TinyPrintInteger printchar st.2.1 (toSigned 32 intPart) 10 0 0 0 97 >>= fun r1 =>
    let pc : Nat := toUnsigned 32 ((st.2.2 : Int) + r1.2)
    if precision ≠ 0 then
      fracPart fmt number intPart mf >>= fun fracPart =>
      -- printchar(ctx, '.'); pc++;
      TinyPrintInteger printchar (printchar r1.1 46) (toSigned 32 fracPart) 10 0
          (toSigned 32 precision) FORMAT_PAD_ZERO 97 >>= fun r2 =>
      .ok (r2.1, toUnsigned 32 (((pc + 1) % 2 ^ 32 : Nat) + r2.2))
    else .ok (r1.1, pc)

/-- One argument of the variable argument list. -/
inductive Arg where
  /-- An argument read by `va_arg(args, int)`; the value is taken modulo `2 ^ 32`. -/
  | int (v : Int)
  /-- An argument read by `va_arg(args, long long int)`; the value is taken modulo `2 ^ 64`. -/
  | longlong (v : Int)
  /-- A `char *` argument: `none` is the null pointer, `some m` points to the bytes `m`. -/
  | str (s : Option (List Nat))
  /-- An argument read by `va_arg(args, double)`: the `double` nearest to `x`. -/
  | double (x : ℚ)

/-- The expression `va_arg(args, int)`: the value and the rest of the list. -/
def va_arg_int : List Arg → Except Fault (Int × List Arg)
  | Arg.int v :: args => .ok (toSigned 32 v, args)
  | _ => .error .badArg

/-- The expression `va_arg(args, long long int)`. -/
def va_arg_longlong : List Arg → Except Fault (Int × List Arg)
  | Arg.longlong v :: args => .ok (toSigned 64 v, args)
  | _ => .error .badArg

/-- What the build fixes: the two feature macros, the type that `TINY_PRINTF_FLOAT` names
and `sizeof(void *)`. -/
structure Config where
  /-- Whether `TINY_PRINTF_LONG_LONG` is defined. -/
  TINY_PRINTF_LONG_LONG : Bool
  /-- Whether `TINY_PRINTF_FLOAT` is defined. -/
  TINY_PRINTF_FLOAT : Bool
  /-- The format of the type `FLOAT_TYPE` that `TINY_PRINTF_FLOAT` is defined as. -/
  FLOAT_TYPE : FloatFormat
  /-- The value of `sizeof(void *)`. -/
  sizeofVoidPtr : Nat

/-- The expression `(char *)va_arg(args, int)` of the `s` directive: the pointer argument is
read as an `int` of 32 bits and converted back.  A null pointer is read as a null pointer.
Any other pointer is read whole when pointers are no wider than `int`; with wider pointers
only the low 32 bits are read, the pointer that results depends on the address, and the model
gives the fault `pointerThroughInt`. -/
def va_arg_str (cfg : Config) : List Arg → Except Fault (Option (List Nat) × List Arg)
  | Arg.str none :: args => .ok (none, args)
  | Arg.str (some s) :: args =>
    if cfg.sizeofVoidPtr ≤ 4 then .ok (some s, args) else .error .pointerThroughInt
  | _ => .error .badArg

/-- The expression `va_arg(args, double)`: the argument as a `double`, the value of
`binary64` nearest to `x`. -/
def va_arg_double : List Arg → Except Fault (ℚ × List Arg)
  | Arg.double x :: args => (roundFloat binary64 x).map fun d => (d, args)
  | _ => .error .badArg

/-- The string literal `"(null)"`. -/
def nullText : List Nat := [40, 110, 117, 108, 108, 41, 0]

/-- The statement `if(*format == '-') { ++format; options = FORMAT_PAD_RIGHT; }`, from
`options = 0`: the new `format` and `options`. -/
def parseMinus : List Nat → Except Fault (List Nat × Nat)
  | [] => .error .readPastEnd
  | c :: format => if c = 45 then .ok (format, FORMAT_PAD_RIGHT) else .ok (c :: format, 0)

/-- The loop `while(*format == '0') { ++format; options |= FORMAT_PAD_ZERO; }`. -/
def zeroLoop : List Nat → Nat → Except Fault (List Nat × Nat)
  | [], _ => .error .readPastEnd
  | c :: format, options =>
    if c = 48 then zeroLoop format (options ||| FORMAT_PAD_ZERO) else .ok (c :: format, options)

/-- The loop `for(; *format >= '0' && *format <= '9'; ++format) { width *= 10; width += *format - '0'; }`,
used for `width` and for `precision`: both statements in `int` arithmetic, which wraps
modulo `2 ^ 32`. -/
def numberLoop : List Nat → Int → Except Fault (List Nat × Int)
  | [], _ => .error .readPastEnd
  | c :: format, width =>
    if c ≥ 48 ∧ c ≤ 57 then
      numberLoop format (toSigned 32 (toSigned 32 (width * 10) + ((c : Int) - 48)))
    else .ok (c :: format, width)

/-- The statement `if(*format == '.') { ++format; precision = 0; for(...) {...} }`. -/
def parsePrecision : List Nat → Int → Except Fault (List Nat × Int)
  | [], _ => .error .readPastEnd
  | c :: format, precision =>
    if c = 46 then numberLoop format 0 else .ok (c :: format, precision)

/-- The statement
`if(*format == 'l') { ++format; if(*format == 'l') { ++format; options |= FORMAT_LONG_LONG; } }`. -/
def parseLength : List Nat → Nat → Except Fault (List Nat × Nat)
  | [], _ => .error .readPastEnd
  | c :: format, options =>
    if c = 108 then
      match format with
      | [] => .error .readPastEnd
      | c2 :: format2 =>
        if c2 = 108 then .ok (format2, options ||| FORMAT_LONG_LONG) else .ok (c2 :: format2, options)
    else .ok (c :: format, options)

/-- The integer directives `d`, `x`, `X`, `u`: the call
`(options & FORMAT_LONG_LONG) ? TinyPrintIntegerLongLong(.., va_arg(args, long long int), ..) :
TinyPrintInteger(.., va_arg(args, int), ..)`, where the first alternative is compiled only
with `TINY_PRINTF_LONG_LONG`.  The result is the new context, the bytes printed and the rest
of the arguments. -/
def printIntArg {σ : Type} (cfg : Config) (printchar : σ → Nat → σ) (ctx : σ) (args : List Arg)
    (b : Int) (sg : Int) (width : Int) (options : Nat) (letbase : Int) :
    Except Fault (σ × Int × List Arg) :=
  if cfg.TINY_PRINTF_LONG_LONG = true ∧ options &&& FORMAT_LONG_LONG ≠ 0 then
    va_arg_longlong args >>= fun a =>
    (TinyPrintIntegerLongLong printchar ctx a.1 b sg width options letbase).map
      fun r => (r.1, r.2, a.2)
  else
    va_arg_int args >>= fun a =>
    (TinyPrintInteger printchar ctx a.1 b sg width options letbase).map
      fun r => (r.1, r.2, a.2)

/-- The chain of `if(*format == ...)` statements of `TinyPrintf` that selects the conversion,
with `c = *format`: the new context, the bytes printed and the rest of the arguments.  When no
statement matches nothing is printed. -/
def dispatch {σ : Type} (cfg : Config) (printchar : σ → Nat → σ) (ctx : σ) (args : List Arg)
    (c : Nat) (width : Int) (options : Nat) (precision : Int) :
    Except Fault (σ × Int × List Arg) :=
  if c = 115 then
    -- char *s = (char *)va_arg(args, int); TinyPrintString(.., s ? s : "(null)", width, options)
    va_arg_str cfg args >>= fun a =>
    (TinyPrintString printchar ctx (a.1.getD nullText) width options).map
      fun r => (r.1, r.2, a.2)
  else if c = 100 then printIntArg cfg printchar ctx args 10 1 width options 97
  else if c = 120 then printIntArg cfg printchar ctx args 16 0 width options 97
  else if c = 88 then printIntArg cfg printchar ctx args 16 0 width options 65
  else if c = 112 then
    va_arg_int args >>= fun a =>
    (TinyPrintInteger printchar ctx a.1 16 0 ((cfg.sizeofVoidPtr : Int) * 2) FORMAT_PAD_ZERO 65).map
      fun r => (r.1, r.2, a.2)
  else if c = 117 then printIntArg cfg printchar ctx args 10 0 width options 97
  else if cfg.TINY_PRINTF_FLOAT = true ∧ c = 102 then
    va_arg_double args >>= fun a =>
    (TinyPrintFloat cfg.FLOAT_TYPE printchar ctx a.1 (toUnsigned 32 precision)).map
      fun r => (r.1, (r.2 : Int), a.2)
  else if c = 99 then
    -- printchar(ctx, (char)va_arg(args, int)); ++pc;
    (va_arg_int args).map fun a => (printchar ctx (toUnsigned 8 a.1), 1, a.2)
  else .ok (ctx, 0, args)

/-- The body of `if(*format == '%') { ... }` of `TinyPrintf` from the statement
`if(*format == '-')` on, where `format` points behind the `'%'`: the position of the
conversion character (which the loop header steps over), the new context, the bytes
printed and the rest of the arguments. -/
def directive {σ : Type} (cfg : Config) (printchar : σ → Nat → σ) (ctx : σ) (format : List Nat)
    (args : List Arg) : Except Fault (List Nat × σ × Int × List Arg) :=
  -- width = options = 0; precision = 4;
  parseMinus format >>= fun p1 =>
  zeroLoop p1.1 p1.2 >>= fun p2 =>
  numberLoop p2.1 0 >>= fun p3 =>
  parsePrecision p3.1 4 >>= fun p4 =>
  parseLength p4.1 p2.2 >>= fun p5 =>
  match p5.1 with
  | [] => .error .readPastEnd
  | c :: rest =>
    (dispatch cfg printchar ctx args c p3.2 p5.2 p4.2).map fun r => (c :: rest, r.1, r.2.1, r.2.2)

/-- The loop `for(; *format != 0; ++format) { ... }` of `TinyPrintf`, with the count `pc` so
far; the first argument bounds the number of iterations.  The result is the new context, the
count and the arguments left over. -/
def TinyPrintfLoop {σ : Type} (cfg : Config) (printchar : σ → Nat → σ) :
    Nat → List Nat → List Arg → σ → Int → Except Fault (σ × Int × List Arg)
  | 0, _, _, _, _ => .error .outOfFuel
  | _ + 1, [], _, _, _ => .error .readPastEnd
  | fuel + 1, c :: format, args, ctx, pc =>
    if c = 0 then .ok (ctx, pc, args)
    else if c = 37 then
      -- ++format;
      match format with
      | [] => .error .readPastEnd
      | c1 :: format1 =>
        -- if(*format == '\0') break;
        if c1 = 0 then .ok (ctx, pc, args)
        -- if(*format == '%') goto out;
        else if c1 = 37 then TinyPrintfLoop cfg printchar fuel format1 args (printchar ctx c1) (pc + 1)
        else
          match directive cfg printchar ctx (c1 :: format1) args with
          | .error e => .error e
          | .ok r => TinyPrintfLoop cfg printchar fuel r.1.tail r.2.2.2 r.2.1 (pc + r.2.2.1)
    else
      -- out: printchar(ctx, *format); ++pc;
      TinyPrintfLoop cfg printchar fuel format args (printchar ctx c) (pc + 1)

/-- The function `TinyPrintf`: the new sink context and the number of bytes printed. -/
def TinyPrintf {σ : Type} (cfg : Config) (printchar : σ → Nat → σ) (ctx : σ) (format : List Nat)
    (args : List Arg) : Except Fault (σ × Int) :=
  (TinyPrintfLoop cfg printchar (format.length + 1) format args ctx 0).map fun r => (r.1, r.2.1)

/-- Context for the `TinySNPrintChar()` function: the write pointer, as an index into the
caller's buffer, and the number of bytes left. -/
structure TinySNPrintCharContext where
  /-- Current string write pointer. -/
  string : Nat
  /-- Number of bytes left in the string buffer. -/
  length : Int

/-- The memory the write pointer of the context points into, indexed from the start of the
caller's buffer, together with the context. -/
structure SNState where
  /-- The bytes at and behind the start of the caller's buffer. -/
  mem : Nat → Nat
  /-- The context. -/
  context : TinySNPrintCharContext

/-- The function `TinySNPrintChar`: put one byte into the sized buffer. -/
def TinySNPrintChar (st : SNState) (c : Nat) : SNState :=
  if st.context.length ≠ 0 then
    { mem := Function.update st.mem st.context.string c,
      context := { string := st.context.string + 1, length := st.context.length - 1 } }
  else st

/-- The function `TinySNprintf` on the buffer `string` of `length` bytes: the memory and
context at the end of the call, and the returned value. -/
def TinySNprintf (cfg : Config) (string : Nat → Nat) (length : Int) (fmt : List Nat)
    (args : List Arg) : Except Fault (SNState × Int) :=
  -- context.string = string; context.length = length - 1;
  let st0 : SNState := { mem := string, context := { string := 0, length := length - 1 } }
  (TinyPrintf cfg TinySNPrintChar st0 fmt args).map fun r =>
    -- context.length++; TinySNPrintChar(&context, '\0');
    (TinySNPrintChar
      { mem := r.1.mem, context := { string := r.1.context.string, length := r.1.context.length + 1 } }
      0, r.2)

/-! ## Definitions used to state the properties -/

/-- A sink that appends every byte it receives to a list. -/
def logChar (log : List Nat) (c : Nat) : List Nat := log ++ [c]

/-- The bytes of a Lean string, as a C text without its terminator. -/
def bytes (s : String) : List Nat := s.toList.map Char.toNat

/-- The bytes of a Lean string followed by the terminator. -/
def cstr (s : String) : List Nat := bytes s ++ [0]

/-- The text of a C string: the bytes before the first terminator. -/
def ctext (string : List Nat) : List Nat := string.takeWhile (· ≠ 0)

/-- The text `t` padded to `width` as the Text Padder describes it: `width - length t` pad
characters, `'0'` with the zero-pad flag and `' '` without, before the text unless the
pad-right flag is set. -/
def paddedText (t : List Nat) (width : Int) (options : Nat) : List Nat :=
  let pad := List.replicate (width - t.length).toNat
    (if width > 0 ∧ options &&& FORMAT_PAD_ZERO ≠ 0 then 48 else 32)
  if options &&& FORMAT_PAD_RIGHT = 0 then pad ++ t else t ++ pad

/-- What a renderer that sends the bytes `out` to the sink returns: the context after the
calls and the number of calls. -/
def emit {σ : Type} (printchar : σ → Nat → σ) (ctx : σ) (out : List Nat) : σ × Int :=
  (out.foldl printchar ctx, (out.length : Int))

/-- What `TinyPrintString` sends to the sink for a terminated string. -/
def stringOut (string : List Nat) (width : Int) (options : Nat) : Except Fault (List Nat) :=
  if 0 ∈ string then .ok (paddedText (ctext string) width options) else .error .readPastEnd

/-- What `TINY_PRINT_INTEGER` sends to the sink. -/
def integerOut (bits PRINT_BUF_SIZE : Nat) (i : Int) (b : Int) (sg : Int) (width : Int)
    (options : Nat) (letbase : Int) : Except Fault (List Nat) :=
  (TINY_PRINT_INTEGER bits PRINT_BUF_SIZE logChar [] i b sg width options letbase).map Prod.fst

/-- What `TinyPrintFloat` sends to the sink. -/
def floatOut (fmt : FloatFormat) (number : ℚ) (precision : Nat) : Except Fault (List Nat) :=
  (TinyPrintFloat fmt logChar [] number precision).map Prod.fst

/-- The result of a renderer whose count is an `unsigned int`. -/
def emitU {σ : Type} (printchar : σ → Nat → σ) (ctx : σ) (out : List Nat) : σ × Nat :=
  (out.foldl printchar ctx, out.length)

/-- The result of a directive that sends the bytes `r.1` to the sink and leaves the
arguments `r.2`. -/
def emitA {σ : Type} (printchar : σ → Nat → σ) (ctx : σ) (r : List Nat × List Arg) :
    σ × Int × List Arg :=
  (r.1.foldl printchar ctx, (r.1.length : Int), r.2)

/-- What `printIntArg` sends to the sink, and the arguments it leaves. -/
def printIntArgOut (cfg : Config) (args : List Arg) (b : Int) (sg : Int) (width : Int)
    (options : Nat) (letbase : Int) : Except Fault (List Nat × List Arg) :=
  (printIntArg cfg logChar [] args b sg width options letbase).map fun r => (r.1, r.2.2)

/-- What `dispatch` sends to the sink, and the arguments it leaves. -/
def dispatchOut (cfg : Config) (args : List Arg) (c : Nat) (width : Int) (options : Nat)
    (precision : Int) : Except Fault (List Nat × List Arg) :=
  (dispatch cfg logChar [] args c width options precision).map fun r => (r.1, r.2.2)

/-- What `directive` sends to the sink, with the position it stops at and the arguments
it leaves. -/
def directiveOut (cfg : Config) (format : List Nat) (args : List Arg) :
    Except Fault (List Nat × List Nat × List Arg) :=
  (directive cfg logChar [] format args).map fun r => (r.1, r.2.1, r.2.2.2)

/-- The text of `u` in base `ub` as `TINY_PRINT_INTEGER` stores it: the digits of `u`, most
significant first, each mapped by `digitChar`. -/
def digitsText (ub : Nat) (letbase : Int) (u : Nat) : List Nat :=
  (Nat.digits ub u).reverse.map (digitChar letbase)

/-- The configuration of the examples: both features compiled in, `FLOAT_TYPE` is `double`,
4 byte pointers. -/
def cfg0 : Config :=
  { TINY_PRINTF_LONG_LONG := true, TINY_PRINTF_FLOAT := true, FLOAT_TYPE := binary64,
    sizeofVoidPtr := 4 }

/-- Equality of results is decidable. -/
instance instDecidableEqResult {α : Type} [DecidableEq α] : DecidableEq (Except Fault α)
  | .ok a, .ok b =>
    if h : a = b then isTrue (by rw [h]) else isFalse (fun e => h (Except.ok.inj e))
  | .error a, .error b =>
    if h : a = b then isTrue (by rw [h]) else isFalse (fun e => h (Except.error.inj e))
  | .ok _, .error _ => isFalse (fun e => by cases e)
  | .error _, .ok _ => isFalse (fun e => by cases e)

/-- The decimal digits of `n`, most significant first, as characters; empty for `0`. -/
def decimalDigits (n : Nat) : List Nat := (Nat.digits 10 n).reverse.map (· + 48)

/-- Whether the byte is one of `'0'` .. `'9'`. -/
def isDigit (c : Nat) : Bool := decide (48 ≤ c ∧ c ≤ 57)

/-- Canonical decimal text: an optional single `'-'`, then at least one digit, with no
leading `'0'` (the text `"0"` itself is canonical, `"-0"` is not). -/
def canonicalDecimal : List Nat → Bool
  | 45 :: ds => !ds.isEmpty && ds.all isDigit && ds.head? != some 48
  | ds => !ds.isEmpty && ds.all isDigit && (ds == [48] || ds.head? != some 48)

/-- Reading a nonempty run of decimal digits as a natural number. -/
def parseDigits (ds : List Nat) : Option Nat :=
  if ds ≠ [] ∧ ds.all isDigit = true then some (ds.foldl (fun acc c => acc * 10 + (c - 48)) 0)
  else none

/-- Reading a text as a signed decimal integer: an optional `'-'`, then digits. -/
def parseSignedDecimal : List Nat → Option Int
  | 45 :: ds =>
    match parseDigits ds with
    | some n => some (-(n : Int))
    | none => none
  | ds =>
    match parseDigits ds with
    | some n => some (n : Int)
    | none => none

/-- The text of the signed integer `v`: `"0"`, or an optional `'-'` and the digits of `|v|`. -/
def signedText (v : Int) : List Nat :=
  if v = 0 then [48] else if v < 0 then 45 :: decimalDigits v.natAbs else decimalDigits v.natAbs

/-! ### Unsigned texts, directive syntax and the scan with enough fuel -/

/-- The value of a digit character in a base up to 16 whose letters start at `letbase`. -/
def digitValue (letbase : Nat) (c : Nat) : Option Nat :=
  if 48 ≤ c ∧ c ≤ 57 then some (c - 48)
  else if letbase ≤ c ∧ c < letbase + 6 then some (c - letbase + 10)
  else none

/-- Reading a nonempty text as a natural number in base `b`, most significant digit first;
`none` when a character is not a digit of the base. -/
def parseBase (b letbase : Nat) : List Nat → Option Nat
  | [] => none
  | c :: cs =>
    (c :: cs).foldl
      (fun acc c =>
        match acc, digitValue letbase c with
        | some n, some d => if d < b then some (n * b + d) else none
        | _, _ => none)
      (some 0)

/-- The text of the unsigned value `n` in base `b`: `"0"`, or the digits of `n` without a
leading zero, with `'0'`..`'9'` and the letters from `letbase` on. -/
def unsignedText (b letbase : Nat) (n : Nat) : List Nat :=
  if n = 0 then [48]
  else (Nat.digits b n).reverse.map fun d => if d < 10 then d + 48 else d - 10 + letbase

/-- No leading zero: the text is `"0"` or does not start with `'0'`. -/
def noLeadingZero (out : List Nat) : Prop := out = [48] ∨ out.head? ≠ some 48

/-- The scan loop of `TinyPrintf` started at `format` with the arguments `args`, the sink
context `ctx` and the count `pc`, with the fuel `TinyPrintf` gives it.  The result is the
context, the count and the arguments left over at the end of the scan. -/
def scan {σ : Type} (cfg : Config) (printchar : σ → Nat → σ) (format : List Nat)
    (args : List Arg) (ctx : σ) (pc : Int) : Except Fault (σ × Int × List Arg) :=
  TinyPrintfLoop cfg printchar (format.length + 1) format args ctx pc

/-- The flags, width, precision and length modifier of a directive as `TinyPrintf` reads them
from `format`, the text behind the `'%'`: the position of the conversion character, the
width, the options and the precision. -/
def parseDirective (format : List Nat) : Except Fault (List Nat × Int × Nat × Int) :=
  parseMinus format >>= fun p1 =>
  zeroLoop p1.1 p1.2 >>= fun p2 =>
  numberLoop p2.1 0 >>= fun p3 =>
  parsePrecision p3.1 4 >>= fun p4 =>
  parseLength p4.1 p2.2 >>= fun p5 =>
  match p5.1 with
  | [] => .error .readPastEnd
  | c :: rest => .ok (c :: rest, p3.2, p5.2, p4.2)

/-- The flags, width and precision of a directive as `TinyPrintf` reads them from `format`,
before the length modifier: the position reached, the width, the options and the
precision. -/
def parseFlags (format : List Nat) : Except Fault (List Nat × Int × Nat × Int) :=
  parseMinus format >>= fun p1 =>
  zeroLoop p1.1 p1.2 >>= fun p2 =>
  numberLoop p2.1 0 >>= fun p3 =>
  parsePrecision p3.1 4 >>= fun p4 =>
  .ok (p4.1, p3.2, p2.2, p4.2)

/-- The text of the precision of a directive: nothing, or `'.'` and digits. -/
def precisionText : Option (List Nat) → List Nat
  | none => []
  | some p => 46 :: p

/-- The text of the flags, width and precision of a directive: an optional `'-'`, `zeros`
characters `'0'`, the digits of the width, and an optional `'.'` with the digits of the
precision. -/
def flagsText (minus : Bool) (zeros : Nat) (width : List Nat) (precision : Option (List Nat)) :
    List Nat :=
  (if minus then [45] else []) ++
    (List.replicate zeros 48 ++ (width ++ precisionText precision))

/-- The width and precision of `flagsText` are written with digits, and the width does not
start with `'0'` (a `'0'` there is a flag). -/
def flagsWellFormed (width : List Nat) (precision : Option (List Nat)) : Prop :=
  width.all isDigit = true ∧ width.head? ≠ some 48 ∧
    ∀ p, precision = some p → p.all isDigit = true

/-- The number that the digits `ds` leave in an `int` variable of the scan, which starts at 0
and takes `10 * width + digit` modulo `2 ^ 32` at every digit: the number written when it is
below `2 ^ 31`. -/
def decimalValue (ds : List Nat) : Int :=
  List.foldl
    (fun (a : Int) (d : Nat) => toSigned 32 (toSigned 32 (a * 10) + ((d : Int) - 48))) 0 ds

/-- The options that the flags of `flagsText` set. -/
def flagsOptions (minus : Bool) (zeros : Nat) : Nat :=
  if zeros = 0 then (if minus then FORMAT_PAD_RIGHT else 0)
  else (if minus then FORMAT_PAD_RIGHT else 0) ||| FORMAT_PAD_ZERO

/-- The precision that `flagsText` sets: the number written, or 4 without a `'.'`. -/
def flagsPrecision (precision : Option (List Nat)) : Int :=
  match precision with
  | none => 4
  | some p => decimalValue p

/-- A character that can follow the flags, width and precision of a directive without being
read as one of them: not `'-'`, not `'.'` and not a digit. -/
def endsFlags (x : Nat) : Prop := x ≠ 45 ∧ x ≠ 46 ∧ isDigit x = false

/-- The text behind the conversion character of the directive that starts at `format`, the
text behind a `'%'`; `none` when the text ends inside the directive or the directive ends
with the terminator. -/
def skipDirective (format : List Nat) : Option (List Nat) :=
  match parseDirective format with
  | .ok (c :: rest, _) => if c = 0 then none else some rest
  | _ => none

/-- Whether the scan of the text `p`, a part of a format without a terminator, stops at the
end of `p` between two items: `p` is made of characters other than `'%'`, of `"%%"`, and of
directives that are complete, up to their conversion character.  The first argument bounds
the number of items. -/
def endsAtBoundary : Nat → List Nat → Bool
  | 0, _ => false
  | _ + 1, [] => true
  | fuel + 1, c :: format =>
    if c = 0 then false
    else if c = 37 then
      match format with
      | [] => false
      | c1 :: format1 =>
        if c1 = 0 then false
        else if c1 = 37 then endsAtBoundary fuel format1
        else
          match skipDirective (c1 :: format1) with
          | none => false
          | some rest => endsAtBoundary fuel rest
    else endsAtBoundary fuel format

/-- The text `p` does not end inside a directive. -/
def completeFormat (p : List Nat) : Prop := endsAtBoundary (p.length + 1) p = true

/-- The exponent of the unit in the last place of `x` in the format `fmt`: the values of the
format near `x` are the multiples of `2 ^ ulpExp fmt x`. -/
def ulpExp (fmt : FloatFormat) (x : ℚ) : Int :=
  max (binade x) fmt.emin - ((fmt.precision : Int) - 1)

/-- The sign, the integer part and the fractional part that the Float Renderer prints, in
the arithmetic of the format `fmt`, where `fl` rounds to the format: with `m = 10 ^ p` and
`r = fl (|fl v| + fl (0.5 / m))`, the integer part is `floor r` and the fractional part is
`floor (fl (fl (r - floor r) * m))`, or 0 when `p = 0`; the sign is that of `fl v`.  The result
is a fault when a value leaves the format or when `r` or the fraction do not fit
`unsigned int`. -/
def floatParts (fmt : FloatFormat) (v : ℚ) (p : Nat) : Except Fault (Bool × Nat × Nat) :=
  roundFloat fmt v >>= fun v1 =>
  roundFloat fmt ((10 ^ p : Nat) : ℚ) >>= fun m =>
  roundFloat fmt (1 / 2 : ℚ) >>= fun half =>
  roundFloat fmt (half / m) >>= fun h =>
  roundFloat fmt (|v1| + h) >>= fun r =>
  toUInt r >>= fun i =>
  if p = 0 then .ok (decide (v1 < 0), i, 0)
  else
    roundFloat fmt (i : ℚ) >>= fun ip =>
    roundFloat fmt (r - ip) >>= fun d =>
    roundFloat fmt (d * m) >>= fun x =>
    toUInt x >>= fun f =>
    .ok (decide (v1 < 0), i, f)

/-- The fractional digits: the decimal text of `f` left-padded with `'0'` to `p` characters. -/
def fractionText (f p : Nat) : List Nat :=
  List.replicate (p - (unsignedText 10 97 f).length) 48 ++ unsignedText 10 97 f

/-- The text of a value with the sign `neg`, the integer part `i` and the fractional part `f`,
with `p` fractional digits: a `'-'` if `neg`, the decimal digits of `i` and, if `p > 0`, a
`'.'` and the fractional digits. -/
def floatText (neg : Bool) (i f p : Nat) : List Nat :=
  (if neg then [45] else []) ++ (unsignedText 10 97 i ++
    (if p = 0 then [] else 46 :: fractionText f p))

/-! ### Stripped texts and the trace of the buffer counter -/

/-- The text `t` without its leading and trailing spaces. -/
def stripSpaces (t : List Nat) : List Nat :=
  ((t.dropWhile (· == 32)).reverse.dropWhile (· == 32)).reverse

/-- The sink `TinySNPrintChar` with a record of the counter `length` after every call. -/
def traceChar (st : SNState × List Int) (c : Nat) : SNState × List Int :=
  (TinySNPrintChar st.1 c, st.2 ++ [(TinySNPrintChar st.1 c).context.length])

/-! ## Theorems

Every renderer is first shown to act on any sink as on the logging sink `logChar`
(`TinyPrintString_eq` .. `TinyPrintf_eq`): the context it returns is the fold of the sink
over the bytes logged, and the count it returns is their number. -/

@[simp] theorem ok_bind {α β : Type} (a : α) (f : α → Except Fault β) :
    (Except.ok a >>= f) = f a := rfl

@[simp] theorem error_bind {α β : Type} (e : Fault) (f : α → Except Fault β) :
    ((Except.error e : Except Fault α) >>= f) = Except.error e := rfl

@[simp] theorem map_ok {α β : Type} (a : α) (f : α → β) :
    (Except.ok a : Except Fault α).map f = Except.ok (f a) := rfl

@[simp] theorem map_error {α β : Type} (e : Fault) (f : α → β) :
    (Except.error e : Except Fault α).map f = Except.error e := rfl

theorem foldl_logChar (l w : List Nat) : w.foldl logChar l = l ++ w := by
  induction w generalizing l with
  | nil => simp
  | cons c w ih => simp [ih, logChar]

theorem lenLoop_eq (string : List Nat) (len : Int) :
    lenLoop string len =
      if 0 ∈ string then .ok (len + (ctext string).length) else .error .readPastEnd := by
  induction string generalizing len with
  | nil => simp [lenLoop]
  | cons c s ih =>
    by_cases hc : c = 0
    · simp [lenLoop, hc, ctext]
    · have hc' : ¬ (0 = c) := fun h => hc h.symm
      simp [lenLoop, hc, hc', ih, ctext, List.takeWhile_cons]
      split <;> simp; omega

theorem putsLoop_eq {σ : Type} (printchar : σ → Nat → σ) (string : List Nat) (ctx : σ) (pc : Int) :
    putsLoop printchar string ctx pc =
      if 0 ∈ string then .ok ((ctext string).foldl printchar ctx, pc + (ctext string).length)
      else .error .readPastEnd := by
  induction string generalizing ctx pc with
  | nil => simp [putsLoop]
  | cons c s ih =>
    by_cases hc : c = 0
    · simp [putsLoop, hc, ctext]
    · have hc' : ¬ (0 = c) := fun h => hc h.symm
      simp [putsLoop, hc, hc', ih, ctext, List.takeWhile_cons]
      split <;> simp; omega

theorem padLoop_eq {σ : Type} (printchar : σ → Nat → σ) (padchar : Nat) (n : Nat) (ctx : σ)
    (pc width : Int) (hn : n = width.toNat) :
    padLoop printchar padchar n ctx pc width =
      ((List.replicate n padchar).foldl printchar ctx, pc + n, min width 0) := by
  induction n generalizing ctx pc width with
  | zero =>
    have : width ≤ 0 := by omega
    simp [padLoop, this]
  | succ n ih =>
    have hw : width > 0 := by omega
    have hmin : min width 0 = 0 := by omega
    have hmin2 : min (width - 1) 0 = 0 := by omega
    simp [padLoop, hw, List.replicate_succ, ih _ _ (width - 1) (by omega), hmin, hmin2]
    omega

theorem TinyPrintString_eq {σ : Type} (printchar : σ → Nat → σ) (ctx : σ) (string : List Nat)
    (width : Int) (options : Nat) :
    TinyPrintString printchar ctx string width options =
      (stringOut string width options).map (emit printchar ctx) := by
  unfold TinyPrintString stringOut
  by_cases h0 : 0 ∈ string
  · by_cases hw : width > 0
    · simp only [hw, if_true, lenLoop_eq, h0, map_ok, ok_bind, putsLoop_eq, zero_add, ge_iff_le]
      by_cases hl : width ≤ ((ctext string).length : Int)
      · have e1 : (width - ((ctext string).length : Int)).toNat = 0 := by omega
        by_cases hr : options &&& FORMAT_PAD_RIGHT = 0
        · simp only [hr, if_true]
          rw [padLoop_eq _ _ _ _ _ _ rfl, padLoop_eq _ _ _ _ _ _ rfl]
          simp [emit, paddedText, hr, hw, hl, e1]
        · simp only [hr, if_false]
          rw [padLoop_eq _ _ _ _ _ _ rfl]
          simp [emit, paddedText, hr, hw, hl, e1]
      · have e2 : (min (width - ((ctext string).length : Int)) 0).toNat = 0 := by omega
        by_cases hr : options &&& FORMAT_PAD_RIGHT = 0
        · simp only [hr, if_true]
          rw [padLoop_eq _ _ _ _ _ _ rfl, padLoop_eq _ _ _ _ _ _ rfl]
          simp [emit, paddedText, hr, hw, hl, e2]
        · simp only [hr, if_false]
          rw [padLoop_eq _ _ _ _ _ _ rfl]
          simp [emit, paddedText, hr, hw, hl]
    · have e0 : width.toNat = 0 := by omega
      have e1 : (width - ((ctext string).length : Int)).toNat = 0 := by omega
      have e2 : (min width 0).toNat = 0 := by omega
      simp only [hw, if_false, ok_bind, putsLoop_eq, h0, if_true, map_ok]
      by_cases hr : options &&& FORMAT_PAD_RIGHT = 0
      · simp only [hr, if_true]
        rw [padLoop_eq _ _ _ _ _ _ rfl, padLoop_eq _ _ _ _ _ _ rfl]
        simp [emit, paddedText, hr, hw, e0, e1, e2]
      · simp only [hr, if_false]
        rw [padLoop_eq _ _ _ _ _ _ rfl]
        simp [emit, paddedText, hr, hw, e0, e1]
  · by_cases hw : width > 0
    · simp [hw, lenLoop_eq, h0]
    · simp [hw, putsLoop_eq, h0]

theorem map_map {α β γ : Type} (x : Except Fault α) (f : α → β) (g : β → γ) :
    (x.map f).map g = x.map (fun a => g (f a)) := by
  cases x <;> rfl

theorem bind_map {α β γ : Type} (x : Except Fault α) (f : α → Except Fault β) (g : β → γ) :
    (x >>= f).map g = (x >>= fun a => (f a).map g) := by
  cases x <;> rfl

theorem emit_logChar (out : List Nat) : emit logChar [] out = (out, (out.length : Int)) := by
  simp [emit, foldl_logChar]

theorem TINY_PRINT_INTEGER_eq {σ : Type} (bits PRINT_BUF_SIZE : Nat) (printchar : σ → Nat → σ)
    (ctx : σ) (i : Int) (b : Int) (sg : Int) (width : Int) (options : Nat) (letbase : Int) :
    TINY_PRINT_INTEGER bits PRINT_BUF_SIZE printchar ctx i b sg width options letbase =
      (integerOut bits PRINT_BUF_SIZE i b sg width options letbase).map (emit printchar ctx) := by
  unfold integerOut TINY_PRINT_INTEGER
  generalize decide (sg ≠ 0 ∧ b = 10 ∧ i < 0) = neg
  simp only [TinyPrintString_eq, map_map, bind_map]
  by_cases hi : i = 0
  · simp only [hi, if_true]
    by_cases hs : PRINT_BUF_SIZE < 2
    · simp [hs]
    · simp only [hs, if_false, map_map, emit_logChar]
  · simp only [hi, if_false]
    by_cases hs : PRINT_BUF_SIZE = 0
    · simp [hs]
    · simp only [hs, if_false]
      cases hd : digitLoop (toUnsigned bits b) letbase (PRINT_BUF_SIZE - 1)
          (if neg = true then toUnsigned bits (-i) else toUnsigned bits i) [0] with
      | error e => simp
      | ok sp =>
        simp only [ok_bind]
        by_cases hn : neg = true
        · rw [if_pos hn, if_pos hn]
          by_cases hz : width ≠ 0 ∧ options &&& FORMAT_PAD_ZERO ≠ 0
          · rw [if_pos hz, if_pos hz]
            simp only [map_map]
            congr 1
            funext out
            simp [emit, foldl_logChar, logChar]
            omega
          · rw [if_neg hz, if_neg hz]
            by_cases h1 : sp.1 = 0
            · simp [h1]
            · rw [if_neg h1, if_neg h1]
              simp only [map_map, emit_logChar]
        · rw [if_neg hn, if_neg hn]
          simp only [map_map, emit_logChar]

theorem digitLoop_inv (ub : Nat) (letbase : Int) (s u : Nat) (str : List Nat) (sp : Nat × List Nat)
    (h : digitLoop ub letbase s u str = .ok sp) :
    ∃ ds : List Nat, sp.2 = ds ++ str ∧ sp.1 + ds.length = s := by
  induction s generalizing u str with
  | zero =>
    by_cases hu : u = 0
    · simp [digitLoop, hu] at h
      exact ⟨[], by simp [← h]⟩
    · by_cases hb : ub = 0 <;> simp [digitLoop, hu, hb] at h
  | succ s ih =>
    by_cases hu : u = 0
    · simp [digitLoop, hu] at h
      exact ⟨[], by simp [← h]⟩
    · by_cases hb : ub = 0
      · simp [digitLoop, hu, hb] at h
      · simp only [digitLoop, hu, hb, if_false] at h
        obtain ⟨ds, h1, h2⟩ := ih _ _ h
        exact ⟨ds ++ [digitChar letbase (u % ub)], by simp [h1], by simp; omega⟩

theorem ctext_length_lt (string : List Nat) (h : 0 ∈ string) :
    (ctext string).length < string.length := by
  induction string with
  | nil => simp at h
  | cons c s ih =>
    by_cases hc : c = 0
    · simp [ctext, hc]
    · have hc' : ¬ (0 = c) := fun h => hc h.symm
      simp [hc'] at h
      have := ih h
      simp [ctext, List.takeWhile_cons, hc] at this ⊢
      omega

theorem paddedText_length (t : List Nat) (width : Int) (options : Nat) :
    ((paddedText t width options).length : Int) = max width t.length := by
  unfold paddedText
  by_cases hr : options &&& FORMAT_PAD_RIGHT = 0 <;> simp [hr] <;> omega

theorem stringOut_length_le (string : List Nat) (width : Int) (options : Nat) (out : List Nat)
    (h : stringOut string width options = .ok out) :
    (out.length : Int) ≤ max width ((string.length : Int) - 1) := by
  unfold stringOut at h
  by_cases h0 : 0 ∈ string
  · simp [h0] at h
    have := ctext_length_lt string h0
    rw [← h, paddedText_length]
    omega
  · simp [h0] at h

theorem integerOut_length_le (bits PRINT_BUF_SIZE : Nat) (i : Int) (b : Int) (sg : Int)
    (width : Int) (options : Nat) (letbase : Int) (out : List Nat)
    (h : integerOut bits PRINT_BUF_SIZE i b sg width options letbase = .ok out) :
    (out.length : Int) ≤ max width PRINT_BUF_SIZE := by
  unfold integerOut TINY_PRINT_INTEGER at h
  generalize decide (sg ≠ 0 ∧ b = 10 ∧ i < 0) = neg at h
  simp only [TinyPrintString_eq, map_map, bind_map, emit_logChar] at h
  by_cases hi : i = 0
  · simp only [hi, if_true] at h
    by_cases hs : PRINT_BUF_SIZE < 2
    · simp [hs] at h
    · simp only [hs, if_false] at h
      cases ho : stringOut [48, 0] width options with
      | error e => simp [ho] at h
      | ok o =>
        have := stringOut_length_le _ _ _ _ ho
        simp [ho, emit_logChar] at h
        subst h
        simp at this
        omega
  · simp only [hi, if_false] at h
    by_cases hs : PRINT_BUF_SIZE = 0
    · simp [hs] at h
    · simp only [hs, if_false] at h
      cases hd : digitLoop (toUnsigned bits b) letbase (PRINT_BUF_SIZE - 1)
          (if neg = true then toUnsigned bits (-i) else toUnsigned bits i) [0] with
      | error e => simp [hd] at h
      | ok sp =>
        obtain ⟨ds, h1, h2⟩ := digitLoop_inv _ _ _ _ _ _ hd
        simp only [hd, ok_bind] at h
        by_cases hn : neg = true
        · rw [if_pos hn] at h
          by_cases hz : width ≠ 0 ∧ options &&& FORMAT_PAD_ZERO ≠ 0
          · rw [if_pos hz] at h
            cases ho : stringOut sp.2 (width - 1) options with
            | error e => simp [ho] at h
            | ok o =>
              have := stringOut_length_le _ _ _ _ ho
              simp [ho, logChar, emit, foldl_logChar] at h
              subst h
              simp [h1] at this ⊢
              omega
          · rw [if_neg hz] at h
            by_cases h0 : sp.1 = 0
            · simp [h0] at h
            · rw [if_neg h0] at h
              cases ho : stringOut (45 :: sp.2) width options with
              | error e => simp [ho] at h
              | ok o =>
                have := stringOut_length_le _ _ _ _ ho
                simp [ho, emit_logChar] at h
                subst h
                simp [h1] at this ⊢
                omega
        · rw [if_neg hn] at h
          cases ho : stringOut sp.2 width options with
          | error e => simp [ho] at h
          | ok o =>
            have := stringOut_length_le _ _ _ _ ho
            simp [ho, emit_logChar] at h
            subst h
            simp [h1] at this ⊢
            omega

theorem toUnsigned_of_lt (bits : Nat) (x : Int) (h0 : 0 ≤ x) (h1 : x < 2 ^ bits) :
    toUnsigned bits x = x.toNat := by
  unfold toUnsigned
  rw [Int.emod_eq_of_lt h0 h1]

theorem toSigned_le (x : Int) : toSigned 32 x < 2 ^ 31 := by
  unfold toSigned
  have := Int.emod_lt_of_pos x (show (0 : Int) < 2 ^ 32 by norm_num)
  split <;> omega

theorem floatTail_eq {σ α : Type} (printchar : σ → Nat → σ) (ctx : σ) (pre : List Nat)
    (hpre : pre.length ≤ 1) (precision : Nat) (i1 : Int) (fr : Except Fault α) (g : α → Int)
    (w : Int) (hw : w < 2 ^ 31) :
    ((integerOut 32 12 i1 10 0 0 0 97).map (emit printchar (pre.foldl printchar ctx)) >>= fun r1 =>
      if precision ≠ 0 then
        fr >>= fun f =>
        (integerOut 32 12 (g f) 10 0 w FORMAT_PAD_ZERO 97).map (emit printchar (printchar r1.1 46))
          >>= fun r2 =>
        Except.ok (r2.1, toUnsigned 32
          ((((toUnsigned 32 ((pre.length : Int) + r1.2) + 1) % 2 ^ 32 : Nat) : Int) + r2.2))
      else Except.ok (r1.1, toUnsigned 32 ((pre.length : Int) + r1.2))) =
    (((integerOut 32 12 i1 10 0 0 0 97).map (emit logChar pre) >>= fun r1 =>
      if precision ≠ 0 then
        fr >>= fun f =>
        (integerOut 32 12 (g f) 10 0 w FORMAT_PAD_ZERO 97).map (emit logChar (logChar r1.1 46))
          >>= fun r2 =>
        Except.ok (r2.1, toUnsigned 32
          ((((toUnsigned 32 ((pre.length : Int) + r1.2) + 1) % 2 ^ 32 : Nat) : Int) + r2.2))
      else Except.ok (r1.1, toUnsigned 32 ((pre.length : Int) + r1.2))).map Prod.fst).map
      (emitU printchar ctx) := by
  cases ho1 : integerOut 32 12 i1 10 0 0 0 97 with
  | error e => simp
  | ok o1 =>
    have hb1 := integerOut_length_le _ _ _ _ _ _ _ _ _ ho1
    have hb1' : o1.length ≤ 12 := by simp at hb1; omega
    simp only [ok_bind, emit, map_ok]
    rw [toUnsigned_of_lt 32 ((pre.length : Int) + o1.length) (by omega) (by norm_num; omega)]
    by_cases hp0 : precision = 0
    · simp [hp0, emitU, foldl_logChar]
      omega
    · simp only [hp0, ne_eq, not_false_eq_true, if_true]
      cases fr with
      | error e => simp
      | ok f =>
        simp only [ok_bind]
        cases ho2 : integerOut 32 12 (g f) 10 0 w FORMAT_PAD_ZERO 97 with
        | error e => simp
        | ok o2 =>
          have hb2 := integerOut_length_le _ _ _ _ _ _ _ _ _ ho2
          have hb2' : (o2.length : Int) ≤ 2 ^ 31 := by simp at hb2; omega
          simp only [ok_bind, map_ok, emitU, emit]
          have e1 : ((((pre.length : Int) + (o1.length : Int)).toNat + 1) % 2 ^ 32 : Nat)
              = pre.length + o1.length + 1 := by omega
          rw [e1, toUnsigned_of_lt _ _ (by omega) (by norm_num; omega)]
          simp [foldl_logChar, logChar]
          omega

theorem TinyPrintFloat_eq {σ : Type} (fmt : FloatFormat) (printchar : σ → Nat → σ) (ctx : σ)
    (number : ℚ) (precision : Nat) :
    TinyPrintFloat fmt printchar ctx number precision =
      (floatOut fmt number precision).map (emitU printchar ctx) := by
  unfold floatOut TinyPrintFloat TinyPrintInteger
  simp only [TINY_PRINT_INTEGER_eq]
  cases roundFloat fmt number with
  | error e => simp only [error_bind, map_error]
  | ok n1 =>
    simp only [ok_bind]
    by_cases hm : multiplierLoop precision 1 = 0
    · simp [hm]
    · simp only [hm, if_false]
      cases roundFloat fmt (multiplierLoop precision 1 : ℚ) with
      | error e => simp only [error_bind, map_error]
      | ok mf =>
        simp only [ok_bind]
        cases roundFloat fmt (1 / 2 : ℚ) with
        | error e => simp only [error_bind, map_error]
        | ok half =>
          simp only [ok_bind]
          cases roundFloat fmt (half / mf) with
          | error e => simp only [error_bind, map_error]
          | ok h =>
            simp only [ok_bind]
            have hp := toSigned_le precision
            by_cases hneg : n1 < 0
            · simp only [hneg, if_true]
              cases roundFloat fmt (-n1 + h) with
              | error e => simp only [error_bind, map_error]
              | ok n2 =>
                simp only [ok_bind]
                cases toUInt n2 with
                | error e => simp only [error_bind, map_error]
                | ok intPart =>
                  rw [ok_bind, ok_bind]
                  exact floatTail_eq printchar ctx [45] (by simp) precision _
                    (fracPart fmt n2 intPart mf) (fun f => toSigned 32 (f : Int)) _ hp
            · simp only [hneg, if_false]
              cases roundFloat fmt (n1 + h) with
              | error e => simp only [error_bind, map_error]
              | ok n2 =>
                simp only [ok_bind]
                cases toUInt n2 with
                | error e => simp only [error_bind, map_error]
                | ok intPart =>
                  rw [ok_bind, ok_bind]
                  exact floatTail_eq printchar ctx [] (by simp) precision _
                    (fracPart fmt n2 intPart mf) (fun f => toSigned 32 (f : Int)) _ hp

theorem printIntArg_eq {σ : Type} (cfg : Config) (printchar : σ → Nat → σ) (ctx : σ)
    (args : List Arg) (b : Int) (sg : Int) (width : Int) (options : Nat) (letbase : Int) :
    printIntArg cfg printchar ctx args b sg width options letbase =
      (printIntArgOut cfg args b sg width options letbase).map (emitA printchar ctx) := by
  unfold printIntArgOut printIntArg TinyPrintInteger TinyPrintIntegerLongLong
  simp only [TINY_PRINT_INTEGER_eq]
  split
  · cases va_arg_longlong args with
    | error e => simp
    | ok a =>
      simp only [ok_bind, map_map]
      cases integerOut 64 21 a.1 b sg width options letbase <;> simp [emit, emitA, foldl_logChar]
  · cases va_arg_int args with
    | error e => simp
    | ok a =>
      simp only [ok_bind, map_map]
      cases integerOut 32 12 a.1 b sg width options letbase <;> simp [emit, emitA, foldl_logChar]

theorem dispatch_eq {σ : Type} (cfg : Config) (printchar : σ → Nat → σ) (ctx : σ)
    (args : List Arg) (c : Nat) (width : Int) (options : Nat) (precision : Int) :
    dispatch cfg printchar ctx args c width options precision =
      (dispatchOut cfg args c width options precision).map (emitA printchar ctx) := by
  unfold dispatchOut dispatch TinyPrintInteger
  simp only [TINY_PRINT_INTEGER_eq, TinyPrintString_eq, TinyPrintFloat_eq, printIntArg_eq]
  split
  · cases va_arg_str cfg args with
    | error e => simp
    | ok a =>
      simp only [ok_bind, map_map]
      cases stringOut (a.1.getD nullText) width options <;> simp [emit, emitA, foldl_logChar]
  split
  · cases printIntArgOut cfg args 10 1 width options 97 <;> simp [emitA, foldl_logChar]
  split
  · cases printIntArgOut cfg args 16 0 width options 97 <;> simp [emitA, foldl_logChar]
  split
  · cases printIntArgOut cfg args 16 0 width options 65 <;> simp [emitA, foldl_logChar]
  split
  · cases va_arg_int args with
    | error e => simp
    | ok a =>
      simp only [ok_bind, map_map]
      cases integerOut 32 12 a.1 16 0 ((cfg.sizeofVoidPtr : Int) * 2) FORMAT_PAD_ZERO 65 <;>
        simp [emit, emitA, foldl_logChar]
  split
  · cases printIntArgOut cfg args 10 0 width options 97 <;> simp [emitA, foldl_logChar]
  split
  · cases va_arg_double args with
    | error e => simp
    | ok a =>
      simp only [ok_bind, map_map]
      cases floatOut cfg.FLOAT_TYPE a.1 (toUnsigned 32 precision) <;>
        simp [emitU, emitA, foldl_logChar]
  split
  · cases va_arg_int args with
    | error e => simp
    | ok a => simp [emitA, logChar]
  · simp [emitA]

theorem directive_eq {σ : Type} (cfg : Config) (printchar : σ → Nat → σ) (ctx : σ)
    (format : List Nat) (args : List Arg) :
    directive cfg printchar ctx format args =
      (directiveOut cfg format args).map
        fun r => (r.1, r.2.1.foldl printchar ctx, (r.2.1.length : Int), r.2.2) := by
  unfold directiveOut directive
  simp only [dispatch_eq]
  cases parseMinus format with
  | error e => simp
  | ok p1 =>
    simp only [ok_bind]
    cases zeroLoop p1.1 p1.2 with
    | error e => simp
    | ok p2 =>
      simp only [ok_bind]
      cases numberLoop p2.1 0 with
      | error e => simp
      | ok p3 =>
        simp only [ok_bind]
        cases parsePrecision p3.1 4 with
        | error e => simp
        | ok p4 =>
          simp only [ok_bind]
          cases parseLength p4.1 p2.2 with
          | error e => simp
          | ok p5 =>
            simp only [ok_bind]
            cases p5.1 with
            | nil => simp
            | cons c rest =>
              simp only [map_map]
              cases dispatchOut cfg args c p3.2 p5.2 p4.2 <;> simp [emitA, foldl_logChar]

theorem TinyPrintfLoop_eq (cfg : Config) (fuel : Nat) :
    ∀ {σ : Type} (printchar : σ → Nat → σ) (format : List Nat) (args : List Arg) (ctx : σ)
      (pc : Int),
      TinyPrintfLoop cfg printchar fuel format args ctx pc =
        (TinyPrintfLoop cfg logChar fuel format args [] 0).map
          fun r => (r.1.foldl printchar ctx, pc + (r.1.length : Int), r.2.2) := by
  induction fuel with
  | zero => intros; simp [TinyPrintfLoop]
  | succ fuel ih =>
    intro σ printchar format args ctx pc
    cases format with
    | nil => simp [TinyPrintfLoop]
    | cons c format =>
      simp only [TinyPrintfLoop]
      by_cases h0 : c = 0
      · simp [h0]
      · simp only [h0, if_false]
        by_cases h37 : c = 37
        · simp only [h37, if_true]
          cases format with
          | nil => simp
          | cons c1 format1 =>
            simp only []
            by_cases h10 : c1 = 0
            · simp [h10]
            · simp only [h10, if_false]
              by_cases h137 : c1 = 37
              · simp only [h137, if_true]
                rw [ih printchar, ih logChar format1 args (logChar [] 37) (0 + 1), map_map]
                cases TinyPrintfLoop cfg logChar fuel format1 args [] 0 <;>
                  simp [foldl_logChar, logChar]
                omega
              · simp only [h137, if_false]
                rw [directive_eq cfg printchar, directive_eq cfg logChar]
                cases directiveOut cfg (c1 :: format1) args with
                | error e => simp
                | ok r =>
                  simp only [map_ok]
                  rw [ih printchar, ih logChar r.1.tail r.2.2 (List.foldl logChar [] r.2.1)
                    (0 + (r.2.1.length : Int)), map_map]
                  cases TinyPrintfLoop cfg logChar fuel r.1.tail r.2.2 [] 0 <;>
                    simp [foldl_logChar, logChar]
                  omega
        · simp only [h37, if_false]
          rw [ih printchar, ih logChar format args (logChar [] c) (0 + 1), map_map]
          cases TinyPrintfLoop cfg logChar fuel format args [] 0 <;>
            simp [foldl_logChar, logChar]
          omega

theorem TinyPrintf_eq {σ : Type} (cfg : Config) (printchar : σ → Nat → σ) (ctx : σ)
    (format : List Nat) (args : List Arg) :
    TinyPrintf cfg printchar ctx format args =
      (TinyPrintf cfg logChar [] format args).map (fun r => emit printchar ctx r.1) := by
  unfold TinyPrintf
  rw [TinyPrintfLoop_eq cfg _ printchar, map_map, map_map]
  cases TinyPrintfLoop cfg logChar (format.length + 1) format args [] 0 <;> simp [emit]

theorem digits_length_le (b : Nat) (hb : 2 ≤ b) (k n : Nat) (h : n < b ^ k) :
    (Nat.digits b n).length ≤ k := by
  induction k generalizing n with
  | zero =>
    have : n = 0 := by simpa using h
    simp [this]
  | succ k ih =>
    by_cases hn : n = 0
    · simp [hn]
    · rw [Nat.digits_def' (by omega) (by omega)]
      have : n / b < b ^ k := by
        rw [Nat.div_lt_iff_lt_mul (by omega)]
        rwa [pow_succ] at h
      simpa using ih _ this

theorem digitLoop_eq (ub : Nat) (hb : 2 ≤ ub) (letbase : Int) (s u : Nat) (str : List Nat) :
    digitLoop ub letbase s u str =
      if (Nat.digits ub u).length ≤ s then
        .ok (s - (Nat.digits ub u).length, digitsText ub letbase u ++ str)
      else .error .writeOutsideBuf := by
  have hb0 : ub ≠ 0 := by omega
  induction s generalizing u str with
  | zero =>
    by_cases hu : u = 0
    · simp [digitLoop, hu, digitsText]
    · have : Nat.digits ub u ≠ [] := Nat.digits_ne_nil_iff_ne_zero.mpr hu
      simp [digitLoop, hu, hb0, this]
  | succ s ih =>
    by_cases hu : u = 0
    · simp [digitLoop, hu, digitsText]
    · simp only [digitLoop, hu, hb0, if_false, ih, digitsText]
      have hd : Nat.digits ub u = u % ub :: Nat.digits ub (u / ub) :=
        Nat.digits_def' (by omega) (by omega)
      rw [hd]
      simp

theorem digitChar_of_lt_ten (letbase : Int) (d : Nat) (hd : d < 10) :
    digitChar letbase d = d + 48 := by
  have h1 : toSigned 32 (d : Int) = d := by
    unfold toSigned
    have : (d : Int) % 2 ^ 32 = d := Int.emod_eq_of_lt (by omega) (by norm_num; omega)
    rw [this]
    simp
    omega
  unfold digitChar
  simp only [h1]
  have h2 : ¬ ((d : Int) ≥ 10) := by omega
  simp only [h2, if_false]
  rw [toUnsigned_of_lt _ _ (by omega) (by norm_num; omega)]
  omega

theorem digitsText_ten (letbase : Int) (u : Nat) :
    digitsText 10 letbase u = (Nat.digits 10 u).reverse.map (· + 48) := by
  unfold digitsText
  apply List.map_congr_left
  intro d hd
  exact digitChar_of_lt_ten letbase d (Nat.digits_lt_base (by norm_num) (List.mem_reverse.mp hd))

theorem ctext_append_zero (t rest : List Nat) (h : 0 ∉ t) : ctext (t ++ 0 :: rest) = t := by
  induction t with
  | nil => simp [ctext]
  | cons c t ih =>
    simp at h
    have hc : ¬ c = 0 := fun e => h.1 e.symm
    simp [ctext, List.takeWhile_cons, hc] at ih ⊢
    exact ih h.2

theorem stringOut_text (t rest : List Nat) (h : 0 ∉ t) (width : Int) (options : Nat) :
    stringOut (t ++ 0 :: rest) width options = .ok (paddedText t width options) := by
  simp [stringOut, ctext_append_zero t rest h]

/-- The closed form of the output of `TINY_PRINT_INTEGER` for a value other than `0`, when
the digits and the sign fit `print_buf` and no digit is stored as a NUL byte. -/
theorem integerOut_eq (bits PRINT_BUF_SIZE : Nat) (i : Int) (b : Int) (sg : Int) (width : Int)
    (options : Nat) (letbase : Int) (neg : Bool) (u : Nat) (hi : i ≠ 0)
    (hb : 2 ≤ toUnsigned bits b)
    (hneg : neg = decide (sg ≠ 0 ∧ b = 10 ∧ i < 0))
    (hu : u = if neg then toUnsigned bits (-i) else toUnsigned bits i)
    (hlen : (Nat.digits (toUnsigned bits b) u).length + 2 ≤ PRINT_BUF_SIZE)
    (h0 : 0 ∉ digitsText (toUnsigned bits b) letbase u) :
    integerOut bits PRINT_BUF_SIZE i b sg width options letbase =
      .ok (if neg then
            if width ≠ 0 ∧ options &&& FORMAT_PAD_ZERO ≠ 0 then
              45 :: paddedText (digitsText (toUnsigned bits b) letbase u) (width - 1) options
            else paddedText (45 :: digitsText (toUnsigned bits b) letbase u) width options
          else paddedText (digitsText (toUnsigned bits b) letbase u) width options) := by
  unfold integerOut TINY_PRINT_INTEGER
  rw [← hneg]
  simp only [← hu]
  have hs0 : ¬ PRINT_BUF_SIZE = 0 := by omega
  have hl : (Nat.digits (toUnsigned bits b) u).length ≤ PRINT_BUF_SIZE - 1 := by omega
  simp only [hi, hs0, if_false, digitLoop_eq _ hb, hl, if_true, ok_bind, TinyPrintString_eq]
  have h0' : 0 ∉ 45 :: digitsText (toUnsigned bits b) letbase u := by simp [h0]
  have e1 := stringOut_text _ [] h0
  have e2 := stringOut_text _ [] h0'
  simp only [List.cons_append] at e2
  cases neg
  · simp [e1, emit_logChar]
  · by_cases hz : width ≠ 0 ∧ options &&& FORMAT_PAD_ZERO ≠ 0
    · simp only [if_true, hz, and_self, e1, map_ok, if_pos hz]
      simp [emit, foldl_logChar, logChar]
    · have hs1 : ¬ (PRINT_BUF_SIZE - 1 - (Nat.digits (toUnsigned bits b) u).length = 0) := by omega
      simp only [if_true, if_neg hz, hs1, if_false, e2, map_ok, emit_logChar]

theorem parseMinus_length (format : List Nat) (r : List Nat × Nat)
    (h : parseMinus format = .ok r) : r.1.length ≤ format.length := by
  cases format with
  | nil => simp [parseMinus] at h
  | cons c f =>
    simp only [parseMinus] at h
    split at h <;> simp at h <;> subst h <;> simp

theorem zeroLoop_length (format : List Nat) (options : Nat) (r : List Nat × Nat)
    (h : zeroLoop format options = .ok r) : r.1.length ≤ format.length := by
  induction format generalizing options with
  | nil => simp [zeroLoop] at h
  | cons c f ih =>
    simp only [zeroLoop] at h
    split at h
    · have := ih _ h
      simp; omega
    · simp at h; subst h; simp

theorem numberLoop_length (format : List Nat) (width : Int) (r : List Nat × Int)
    (h : numberLoop format width = .ok r) : r.1.length ≤ format.length := by
  induction format generalizing width with
  | nil => simp [numberLoop] at h
  | cons c f ih =>
    simp only [numberLoop] at h
    split at h
    · have := ih _ h
      simp; omega
    · simp at h; subst h; simp

theorem parsePrecision_length (format : List Nat) (precision : Int) (r : List Nat × Int)
    (h : parsePrecision format precision = .ok r) : r.1.length ≤ format.length := by
  cases format with
  | nil => simp [parsePrecision] at h
  | cons c f =>
    simp only [parsePrecision] at h
    split at h
    · have := numberLoop_length _ _ _ h
      simp; omega
    · simp at h; subst h; simp

theorem parseLength_length (format : List Nat) (options : Nat) (r : List Nat × Nat)
    (h : parseLength format options = .ok r) : r.1.length ≤ format.length := by
  cases format with
  | nil => simp [parseLength] at h
  | cons c f =>
    simp only [parseLength] at h
    split at h
    · cases f with
      | nil => simp at h
      | cons c2 f2 =>
        simp only [] at h
        split at h <;> simp at h <;> subst h <;> simp; omega
    · simp at h; subst h; simp

theorem directive_length {σ : Type} (cfg : Config) (printchar : σ → Nat → σ) (ctx : σ)
    (format : List Nat) (args : List Arg) (r : List Nat × σ × Int × List Arg)
    (h : directive cfg printchar ctx format args = .ok r) :
    r.1 ≠ [] ∧ r.1.length ≤ format.length := by
  unfold directive at h
  cases h1 : parseMinus format with
  | error e => simp [h1] at h
  | ok p1 =>
    have l1 := parseMinus_length _ _ h1
    simp only [h1, ok_bind] at h
    cases h2 : zeroLoop p1.1 p1.2 with
    | error e => simp [h2] at h
    | ok p2 =>
      have l2 := zeroLoop_length _ _ _ h2
      simp only [h2, ok_bind] at h
      cases h3 : numberLoop p2.1 0 with
      | error e => simp [h3] at h
      | ok p3 =>
        have l3 := numberLoop_length _ _ _ h3
        simp only [h3, ok_bind] at h
        cases h4 : parsePrecision p3.1 4 with
        | error e => simp [h4] at h
        | ok p4 =>
          have l4 := parsePrecision_length _ _ _ h4
          simp only [h4, ok_bind] at h
          cases h5 : parseLength p4.1 p2.2 with
          | error e => simp [h5] at h
          | ok p5 =>
            have l5 := parseLength_length _ _ _ h5
            simp only [h5, ok_bind] at h
            cases h6 : p5.1 with
            | nil => simp [h6] at h
            | cons c rest =>
              simp only [h6] at h
              rw [h6] at l5
              cases h7 : dispatch cfg printchar ctx args c p3.2 p5.2 p4.2 with
              | error e => simp [h7] at h
              | ok d =>
                simp [h7] at h
                subst h
                simp at l5 ⊢
                omega

theorem bind_noFuel {α β : Type} (x : Except Fault α) (f : α → Except Fault β)
    (hx : x ≠ .error .outOfFuel) (hf : ∀ a, f a ≠ .error .outOfFuel) :
    (x >>= f) ≠ .error .outOfFuel := by
  cases x with
  | error e => simpa using hx
  | ok a => simpa using hf a

theorem map_noFuel {α β : Type} (x : Except Fault α) (f : α → β)
    (hx : x ≠ .error .outOfFuel) : x.map f ≠ .error .outOfFuel := by
  cases x with
  | error e => simpa using hx
  | ok a => simp

theorem stringOut_noFuel (string : List Nat) (width : Int) (options : Nat) :
    stringOut string width options ≠ .error .outOfFuel := by
  unfold stringOut
  split <;> simp

theorem TinyPrintString_noFuel {σ : Type} (printchar : σ → Nat → σ) (ctx : σ)
    (string : List Nat) (width : Int) (options : Nat) :
    TinyPrintString printchar ctx string width options ≠ .error .outOfFuel := by
  rw [TinyPrintString_eq]
  exact map_noFuel _ _ (stringOut_noFuel _ _ _)

theorem digitLoop_noFuel (ub : Nat) (letbase : Int) (s u : Nat) (str : List Nat) :
    digitLoop ub letbase s u str ≠ .error .outOfFuel := by
  induction s generalizing u str with
  | zero => simp only [digitLoop]; split <;> [simp; (split <;> simp)]
  | succ s ih => simp only [digitLoop]; split <;> [simp; (split <;> [simp; exact ih _ _])]

theorem TINY_PRINT_INTEGER_noFuel {σ : Type} (bits PRINT_BUF_SIZE : Nat)
    (printchar : σ → Nat → σ) (ctx : σ) (i : Int) (b : Int) (sg : Int) (width : Int)
    (options : Nat) (letbase : Int) :
    TINY_PRINT_INTEGER bits PRINT_BUF_SIZE printchar ctx i b sg width options letbase ≠
      .error .outOfFuel := by
  unfold TINY_PRINT_INTEGER
  split
  · split
    · simp
    · exact TinyPrintString_noFuel _ _ _ _ _
  · split
    · simp
    · refine bind_noFuel _ _ (digitLoop_noFuel _ _ _ _ _) ?_
      intro sp
      split
      · split
        · exact map_noFuel _ _ (TinyPrintString_noFuel _ _ _ _ _)
        · split
          · simp
          · exact TinyPrintString_noFuel _ _ _ _ _
      · exact TinyPrintString_noFuel _ _ _ _ _

theorem pow2_eq_zpow (e : Int) : pow2 e = (2 : ℚ) ^ e := by
  unfold pow2
  by_cases h : 0 ≤ e
  · rw [if_pos h]
    obtain ⟨n, rfl⟩ := Int.eq_ofNat_of_zero_le h
    simp
  · rw [if_neg h]
    obtain ⟨n, hn⟩ := Int.eq_ofNat_of_zero_le (show 0 ≤ -e by omega)
    have he : e = -(n : Int) := by omega
    subst he
    simp

theorem log2Loop_spec (fuel : Nat) :
    ∀ n : Nat, n ≤ fuel → n ≠ 0 → 2 ^ log2Loop fuel n ≤ n ∧ n < 2 ^ (log2Loop fuel n + 1) := by
  induction fuel with
  | zero => intro n h h0; omega
  | succ fuel ih =>
    intro n h h0
    unfold log2Loop
    by_cases h2 : n < 2
    · rw [if_pos h2]
      have : n = 1 := by omega
      subst this
      simp
    · rw [if_neg h2]
      obtain ⟨i1, i2⟩ := ih (n / 2) (by omega) (by omega)
      have e := Nat.div_add_mod n 2
      have hm : n % 2 < 2 := Nat.mod_lt _ (by norm_num)
      constructor
      · rw [pow_succ]; omega
      · rw [pow_succ]; omega

theorem binade_spec (x : ℚ) (hx : x ≠ 0) :
    (2 : ℚ) ^ binade x ≤ |x| ∧ |x| < (2 : ℚ) ^ (binade x + 1) := by
  have hn0 : x.num.natAbs ≠ 0 := by
    intro h
    apply hx
    rw [Int.natAbs_eq_zero] at h
    exact Rat.zero_of_num_zero h
  obtain ⟨n1, n2⟩ := log2Loop_spec _ x.num.natAbs le_rfl hn0
  obtain ⟨d1, d2⟩ := log2Loop_spec _ x.den le_rfl x.den_nz
  have hxe : |x| = (x.num.natAbs : ℚ) / (x.den : ℚ) := by
    have := Rat.num_div_den x
    conv_lhs => rw [← this]
    rw [abs_div, Nat.abs_cast]
    congr 1
    rw [← Int.cast_abs, Int.abs_eq_natAbs, Int.cast_natCast]
  have hdpos : (0 : ℚ) < (x.den : ℚ) := by exact_mod_cast x.den_pos
  unfold binade
  have n1q : (2 : ℚ) ^ (log2Loop x.num.natAbs x.num.natAbs) ≤ (x.num.natAbs : ℚ) := by
    exact_mod_cast n1
  have n2q : (x.num.natAbs : ℚ) < (2 : ℚ) ^ (log2Loop x.num.natAbs x.num.natAbs + 1) := by
    exact_mod_cast n2
  have d1q : (2 : ℚ) ^ (log2Loop x.den x.den) ≤ (x.den : ℚ) := by exact_mod_cast d1
  have d2q : (x.den : ℚ) < (2 : ℚ) ^ (log2Loop x.den x.den + 1) := by exact_mod_cast d2
  generalize log2Loop x.num.natAbs x.num.natAbs = a at *
  generalize log2Loop x.den x.den = b at *
  have hlow : (2 : ℚ) ^ ((a : Int) - (b : Int) - 1) ≤ |x| := by
    rw [hxe, le_div_iff₀ hdpos]
    have : (2 : ℚ) ^ ((a : Int) - (b : Int) - 1) * (2 : ℚ) ^ (b + 1) = (2 : ℚ) ^ a := by
      rw [← zpow_natCast (2 : ℚ) (b + 1), ← zpow_add₀ (by norm_num : (2 : ℚ) ≠ 0),
        ← zpow_natCast (2 : ℚ) a]
      congr 1
      push_cast
      ring
    calc (2 : ℚ) ^ ((a : Int) - (b : Int) - 1) * (x.den : ℚ)
        ≤ (2 : ℚ) ^ ((a : Int) - (b : Int) - 1) * (2 : ℚ) ^ (b + 1) :=
          mul_le_mul_of_nonneg_left d2q.le (by positivity)
      _ = (2 : ℚ) ^ a := this
      _ ≤ (x.num.natAbs : ℚ) := n1q
  have hhigh : |x| < (2 : ℚ) ^ ((a : Int) - (b : Int) + 1) := by
    rw [hxe, div_lt_iff₀ hdpos]
    have : (2 : ℚ) ^ ((a : Int) - (b : Int) + 1) * (2 : ℚ) ^ b = (2 : ℚ) ^ (a + 1) := by
      rw [← zpow_natCast (2 : ℚ) b, ← zpow_add₀ (by norm_num : (2 : ℚ) ≠ 0),
        ← zpow_natCast (2 : ℚ) (a + 1)]
      congr 1
      push_cast
      ring
    calc (x.num.natAbs : ℚ) < (2 : ℚ) ^ (a + 1) := n2q
      _ = (2 : ℚ) ^ ((a : Int) - (b : Int) + 1) * (2 : ℚ) ^ b := this.symm
      _ ≤ (2 : ℚ) ^ ((a : Int) - (b : Int) + 1) * (x.den : ℚ) :=
          mul_le_mul_of_nonneg_left d1q (by positivity)
  by_cases hc : pow2 ((a : Int) - (b : Int)) ≤ |x|
  · rw [if_pos hc]
    rw [pow2_eq_zpow] at hc
    exact ⟨hc, hhigh⟩
  · rw [if_neg hc]
    rw [pow2_eq_zpow] at hc
    refine ⟨hlow, ?_⟩
    have e : (a : Int) - (b : Int) - 1 + 1 = (a : Int) - (b : Int) := by ring
    rw [e]
    exact lt_of_not_ge hc

theorem roundHalfEven_near (q : ℚ) : |q - (roundHalfEven q : ℚ)| ≤ 1 / 2 := by
  have h1 := Int.floor_le q
  have h2 := Int.lt_floor_add_one q
  unfold roundHalfEven
  split
  · rw [abs_le]; constructor <;> linarith
  · split
    · rw [abs_le]; push_cast; constructor <;> linarith
    · have hd : q - (Int.floor q : ℚ) = 1 / 2 := by
        rename_i h3 h4
        linarith [not_lt.mp h3, not_lt.mp h4]
      split
      · rw [abs_le]; constructor <;> linarith
      · rw [abs_le]; push_cast; constructor <;> linarith

theorem roundFloat_near (fmt : FloatFormat) (x y : ℚ) (h : roundFloat fmt x = .ok y) :
    ∃ k : Int, y = (k : ℚ) * (2 : ℚ) ^ (max (binade x) fmt.emin - ((fmt.precision : Int) - 1)) ∧
      |x - y| ≤ (2 : ℚ) ^ (max (binade x) fmt.emin - ((fmt.precision : Int) - 1)) / 2 ∧
      |y| < (2 : ℚ) ^ (fmt.emax + 1) := by
  unfold roundFloat at h
  by_cases hx : x = 0
  · rw [if_pos hx] at h
    have hy : y = 0 := (Except.ok.inj h).symm
    subst hx
    subst hy
    refine ⟨0, by simp, ?_, ?_⟩
    · simp only [sub_zero, abs_zero]; positivity
    · simp only [abs_zero]; positivity
  · rw [if_neg hx] at h
    simp only [pow2_eq_zpow] at h
    split at h
    · exact absurd h (by simp)
    · rename_i hlt
      have hy := (Except.ok.inj h).symm
      have hu : (0 : ℚ) < (2 : ℚ) ^ (max (binade x) fmt.emin - ((fmt.precision : Int) - 1)) := by
        positivity
      generalize (2 : ℚ) ^ (max (binade x) fmt.emin - ((fmt.precision : Int) - 1)) = u at *
      refine ⟨roundHalfEven (x / u), hy, ?_, ?_⟩
      · have hn := roundHalfEven_near (x / u)
        have e : x - y = (x / u - (roundHalfEven (x / u) : ℚ)) * u := by
          rw [hy]; field_simp; ring
        rw [e, abs_mul, abs_of_pos hu]
        calc |x / u - (roundHalfEven (x / u) : ℚ)| * u ≤ 1 / 2 * u :=
              mul_le_mul_of_nonneg_right hn hu.le
          _ = u / 2 := by ring
      · rw [hy]; exact lt_of_not_ge hlt

theorem roundHalfEven_int (n : Int) : roundHalfEven (n : ℚ) = n := by
  unfold roundHalfEven
  rw [Int.floor_intCast, sub_self, if_pos (by norm_num)]

theorem roundHalfEven_nonneg (q : ℚ) (h : 0 ≤ q) : 0 ≤ roundHalfEven q := by
  have hf : 0 ≤ Int.floor q := Int.floor_nonneg.mpr h
  unfold roundHalfEven
  split
  · exact hf
  · split
    · omega
    · split
      · exact hf
      · omega

theorem roundHalfEven_le (q : ℚ) (N : Int) (h : q ≤ N) : roundHalfEven q ≤ N := by
  have h1 := Int.floor_le q
  have hfl : Int.floor q ≤ N := by
    have : ((Int.floor q : Int) : ℚ) ≤ (N : ℚ) := le_trans h1 h
    exact_mod_cast this
  have hlt : (Int.floor q : ℚ) < q → Int.floor q + 1 ≤ N := by
    intro h2
    have : ((Int.floor q : Int) : ℚ) < (N : ℚ) := lt_of_lt_of_le h2 h
    have : Int.floor q < N := by exact_mod_cast this
    omega
  unfold roundHalfEven
  split
  · exact hfl
  · rename_i h3
    have h4 : (Int.floor q : ℚ) < q := by linarith [not_lt.mp h3]
    split
    · exact hlt h4
    · split
      · exact hfl
      · exact hlt h4

theorem roundHalfEven_ge (q : ℚ) (N : Int) (h : (N : ℚ) ≤ q) : N ≤ roundHalfEven q := by
  have hfl : N ≤ Int.floor q := Int.le_floor.mpr h
  unfold roundHalfEven
  split
  · exact hfl
  · split
    · omega
    · split
      · exact hfl
      · omega

theorem binade_le_of_lt (x : ℚ) (e : Int) (hx : x ≠ 0) (h : |x| < (2 : ℚ) ^ (e + 1)) :
    binade x ≤ e := by
  have h1 := (binade_spec x hx).1
  have h2 : (2 : ℚ) ^ binade x < (2 : ℚ) ^ (e + 1) := lt_of_le_of_lt h1 h
  have h3 := (zpow_lt_zpow_iff_right₀ (by norm_num : (1 : ℚ) < 2)).mp h2
  omega

theorem le_binade (x : ℚ) (e : Int) (hx : x ≠ 0) (h : (2 : ℚ) ^ e ≤ |x|) : e ≤ binade x := by
  have h1 := (binade_spec x hx).2
  have h2 : (2 : ℚ) ^ e < (2 : ℚ) ^ (binade x + 1) := lt_of_le_of_lt h h1
  have h3 := (zpow_lt_zpow_iff_right₀ (by norm_num : (1 : ℚ) < 2)).mp h2
  omega

theorem binade_mono (x y : ℚ) (hx : x ≠ 0) (h : |x| ≤ |y|) : binade x ≤ binade y := by
  have hy : y ≠ 0 := by
    intro h0
    rw [h0, abs_zero] at h
    exact hx (abs_eq_zero.mp (le_antisymm h (abs_nonneg x)))
  exact binade_le_of_lt x _ hx (lt_of_le_of_lt h (binade_spec y hy).2)

theorem ulpExp_mono (fmt : FloatFormat) (x y : ℚ) (hx : x ≠ 0) (h : |x| ≤ |y|) :
    ulpExp fmt x ≤ ulpExp fmt y := by
  have := binade_mono x y hx h
  unfold ulpExp
  omega

theorem zpow_split (g e : Int) (h : e ≤ g) :
    (2 : ℚ) ^ g = (((2 : Int) ^ (g - e).toNat : Int) : ℚ) * (2 : ℚ) ^ e := by
  have h1 : g = ((g - e).toNat : Int) + e := by omega
  conv_lhs => rw [h1]
  rw [zpow_add₀ (by norm_num : (2 : ℚ) ≠ 0), zpow_natCast]
  push_cast
  rfl

/-- A number on a grid at least as coarse as that of its own units in the last place, and
within the range of the format, is a value of the format: rounding leaves it as it is. -/
theorem roundFloat_of_grid (fmt : FloatFormat) (y : ℚ) (K g : Int)
    (hy : y = (K : ℚ) * (2 : ℚ) ^ g)
    (hg : y ≠ 0 → ulpExp fmt y ≤ g) (hr : |y| < (2 : ℚ) ^ (fmt.emax + 1)) :
    roundFloat fmt y = .ok y := by
  unfold roundFloat
  by_cases h0 : y = 0
  · rw [if_pos h0, h0]
  · rw [if_neg h0]
    simp only [pow2_eq_zpow]
    have hg2 := hg h0
    unfold ulpExp at hg2
    have hu : (0 : ℚ) < (2 : ℚ) ^ (max (binade y) fmt.emin - ((fmt.precision : Int) - 1)) := by
      positivity
    have e1 : y / (2 : ℚ) ^ (max (binade y) fmt.emin - ((fmt.precision : Int) - 1)) =
        ((K * (2 : Int) ^ (g - (max (binade y) fmt.emin - ((fmt.precision : Int) - 1))).toNat
          : Int) : ℚ) := by
      rw [div_eq_iff hu.ne.symm]
      conv_lhs => rw [hy, zpow_split g _ hg2]
      push_cast
      ring
    rw [e1, roundHalfEven_int, ← e1, div_mul_cancel₀ _ hu.ne.symm, if_neg (not_le.mpr hr)]

theorem roundFloat_zero_iff (fmt : FloatFormat) (s r : ℚ) (h : roundFloat fmt s = .ok r)
    (hs : s = 0) : r = 0 := by
  unfold roundFloat at h
  rw [if_pos hs] at h
  exact (Except.ok.inj h).symm

theorem roundFloat_nonneg (fmt : FloatFormat) (s r : ℚ) (h : roundFloat fmt s = .ok r)
    (hs : 0 ≤ s) : 0 ≤ r := by
  unfold roundFloat at h
  by_cases h0 : s = 0
  · rw [if_pos h0] at h
    exact le_of_eq (Except.ok.inj h)
  · rw [if_neg h0] at h
    simp only [pow2_eq_zpow] at h
    split at h
    · exact absurd h (by simp)
    · rw [← Except.ok.inj h]
      have hu : (0 : ℚ) < (2 : ℚ) ^ (max (binade s) fmt.emin - ((fmt.precision : Int) - 1)) := by
        positivity
      have hq := roundHalfEven_nonneg _ (div_nonneg hs hu.le)
      have : (0 : ℚ) ≤ (roundHalfEven
          (s / (2 : ℚ) ^ (max (binade s) fmt.emin - ((fmt.precision : Int) - 1))) : ℚ) := by
        exact_mod_cast hq
      exact mul_nonneg this hu.le

/-- The rounded value is a multiple of the unit in the last place of the argument and at most
the next power of two. -/
theorem roundFloat_bound (fmt : FloatFormat) (s r : ℚ) (h : roundFloat fmt s = .ok r)
    (hs : s ≠ 0) :
    (∃ k : Int, r = (k : ℚ) * (2 : ℚ) ^ ulpExp fmt s) ∧
      |r| ≤ (2 : ℚ) ^ (max (binade s) fmt.emin + 1) ∧ |r| < (2 : ℚ) ^ (fmt.emax + 1) := by
  obtain ⟨k, hk, -, hr⟩ := roundFloat_near fmt s r h
  refine ⟨⟨k, hk⟩, ?_, hr⟩
  unfold roundFloat at h
  rw [if_neg hs] at h
  simp only [pow2_eq_zpow] at h
  split at h
  · exact absurd h (by simp)
  · have hy := (Except.ok.inj h).symm
    have hu : (0 : ℚ) < (2 : ℚ) ^ (max (binade s) fmt.emin - ((fmt.precision : Int) - 1)) := by
      positivity
    have hsplit : (2 : ℚ) ^ (max (binade s) fmt.emin + 1) =
        (((2 : Int) ^ fmt.precision : Int) : ℚ) *
          (2 : ℚ) ^ (max (binade s) fmt.emin - ((fmt.precision : Int) - 1)) := by
      have := zpow_split (max (binade s) fmt.emin + 1)
        (max (binade s) fmt.emin - ((fmt.precision : Int) - 1)) (by omega)
      rw [this]
      congr 3
      omega
    have hq : |s / (2 : ℚ) ^ (max (binade s) fmt.emin - ((fmt.precision : Int) - 1))| ≤
        (((2 : Int) ^ fmt.precision : Int) : ℚ) := by
      rw [abs_div, abs_of_pos hu, div_le_iff₀ hu, ← hsplit]
      have h1 := (binade_spec s hs).2
      have h2 : (2 : ℚ) ^ (binade s + 1) ≤ (2 : ℚ) ^ (max (binade s) fmt.emin + 1) :=
        zpow_le_zpow_right₀ (by norm_num) (by omega)
      linarith
    rw [abs_le] at hq
    have hle := roundHalfEven_le _ _ hq.2
    have hge := roundHalfEven_ge _ (-((2 : Int) ^ fmt.precision))
      (by push_cast; push_cast at hq; exact hq.1)
    have habs : |(roundHalfEven
        (s / (2 : ℚ) ^ (max (binade s) fmt.emin - ((fmt.precision : Int) - 1))) : ℚ)| ≤
        (((2 : Int) ^ fmt.precision : Int) : ℚ) := by
      rw [abs_le]
      constructor
      · exact_mod_cast hge
      · exact_mod_cast hle
    rw [hy, abs_mul, abs_of_pos hu, hsplit]
    exact mul_le_mul_of_nonneg_right habs hu.le

/-- A value that rounding returns is on the grid of its own units in the last place. -/
theorem roundFloat_grid (fmt : FloatFormat) (s r : ℚ) (h : roundFloat fmt s = .ok r)
    (hP : 1 ≤ fmt.precision) (hr0 : r ≠ 0) :
    ∃ K : Int, r = (K : ℚ) * (2 : ℚ) ^ ulpExp fmt r := by
  have hs : s ≠ 0 := fun h0 => hr0 (roundFloat_zero_iff fmt s r h h0)
  obtain ⟨⟨k, hk⟩, hle, -⟩ := roundFloat_bound fmt s r h hs
  by_cases hlt : |r| < (2 : ℚ) ^ (max (binade s) fmt.emin + 1)
  · have hb := binade_le_of_lt r _ hr0 hlt
    have hu : ulpExp fmt r ≤ ulpExp fmt s := by
      unfold ulpExp
      omega
    refine ⟨k * (2 : Int) ^ (ulpExp fmt s - ulpExp fmt r).toNat, ?_⟩
    conv_lhs => rw [hk, zpow_split _ _ hu]
    push_cast
    ring
  · have heq : |r| = (2 : ℚ) ^ (max (binade s) fmt.emin + 1) := le_antisymm hle (not_lt.mp hlt)
    have hb1 : max (binade s) fmt.emin + 1 ≤ binade r := le_binade r _ hr0 (le_of_eq heq.symm)
    have hb2 : binade r ≤ max (binade s) fmt.emin + 1 := by
      apply binade_le_of_lt r _ hr0
      rw [heq]
      exact zpow_lt_zpow_right₀ (by norm_num) (by omega)
    have hu : ulpExp fmt r ≤ max (binade s) fmt.emin + 1 := by
      unfold ulpExp
      omega
    rcases abs_choice r with hc | hc
    · refine ⟨(2 : Int) ^ (max (binade s) fmt.emin + 1 - ulpExp fmt r).toNat, ?_⟩
      rw [← zpow_split _ _ hu, ← heq, hc]
    · refine ⟨-(2 : Int) ^ (max (binade s) fmt.emin + 1 - ulpExp fmt r).toNat, ?_⟩
      have : r = -|r| := by rw [hc]; ring
      rw [Int.cast_neg, neg_mul, ← zpow_split _ _ hu, ← heq]
      exact this

/-- Rounding a value of the format returns it. -/
theorem roundFloat_idem (fmt : FloatFormat) (s r : ℚ) (h : roundFloat fmt s = .ok r)
    (hP : 1 ≤ fmt.precision) : roundFloat fmt r = .ok r := by
  by_cases hr0 : r = 0
  · rw [hr0]; rfl
  · obtain ⟨K, hK⟩ := roundFloat_grid fmt s r h hP hr0
    exact roundFloat_of_grid fmt r K _ hK (fun _ => le_rfl)
      (roundFloat_near fmt s r h).choose_spec.2.2

theorem bind_eq_ok {α β : Type} (x : Except Fault α) (f : α → Except Fault β) (b : β)
    (h : (x >>= f) = .ok b) : ∃ a, x = .ok a ∧ f a = .ok b := by
  cases x with
  | error e => simp at h
  | ok a => exact ⟨a, rfl, by simpa using h⟩

theorem toUInt_eq (x : ℚ) (n : Nat) (h : toUInt x = .ok n) (hx : 0 ≤ x) :
    (n : ℚ) = (Int.floor x : ℚ) ∧ (n : ℚ) ≤ x ∧ x < (n : ℚ) + 1 := by
  unfold toUInt at h
  split at h
  · exact absurd h (by simp)
  · have hn := (Except.ok.inj h).symm
    have hf : 0 ≤ Int.floor x := Int.floor_nonneg.mpr hx
    have e : ((n : Int) : ℚ) = (Int.floor x : ℚ) := by
      rw [hn, Int.toNat_of_nonneg hf]
    have e2 : (n : ℚ) = (Int.floor x : ℚ) := by exact_mod_cast e
    refine ⟨e2, ?_, ?_⟩
    · rw [e2]; exact Int.floor_le x
    · rw [e2]; exact Int.lt_floor_add_one x

/-- The integer part of a value of the format is a value of the format. -/
theorem roundFloat_floor (fmt : FloatFormat) (r : ℚ) (i : Nat)
    (hgrid : r ≠ 0 → ∃ K : Int, r = (K : ℚ) * (2 : ℚ) ^ ulpExp fmt r)
    (hr : |r| < (2 : ℚ) ^ (fmt.emax + 1)) (hi : (i : ℚ) = (Int.floor r : ℚ)) (hi1 : (i : ℚ) ≤ r) :
    roundFloat fmt (i : ℚ) = .ok (i : ℚ) := by
  by_cases hi0 : i = 0
  · rw [hi0]; simp [roundFloat]
  · have hipos : (1 : ℚ) ≤ (i : ℚ) := by exact_mod_cast Nat.one_le_iff_ne_zero.mpr hi0
    have hrpos : 0 < r := by linarith
    have habs : |(i : ℚ)| ≤ |r| := by
      rw [abs_of_pos hrpos, abs_of_nonneg (by linarith)]
      exact hi1
    obtain ⟨K, hK⟩ := hgrid hrpos.ne.symm
    by_cases hue : 0 ≤ ulpExp fmt r
    · have e1 : r = (((K * (2 : Int) ^ (ulpExp fmt r).toNat : Int)) : ℚ) := by
        conv_lhs => rw [hK]
        have := zpow_split (ulpExp fmt r) 0 hue
        rw [this]
        push_cast
        simp
      have e2 : (i : ℚ) = r := by
        rw [hi]
        conv_lhs => rw [e1, Int.floor_intCast]
        exact e1.symm
      rw [e2]
      exact roundFloat_of_grid fmt r K _ hK (fun _ => le_rfl) hr
    · have hi0q : (i : ℚ) ≠ 0 := by linarith
      have hm := ulpExp_mono fmt (i : ℚ) r hi0q habs
      refine roundFloat_of_grid fmt (i : ℚ) (i : Int) 0 (by simp) (fun _ => by omega)
        (lt_of_le_of_lt habs hr)

/-- The difference of a value of the format and its integer part is a value of the format. -/
theorem roundFloat_sub_floor (fmt : FloatFormat) (r : ℚ) (i : Nat)
    (hgrid : r ≠ 0 → ∃ K : Int, r = (K : ℚ) * (2 : ℚ) ^ ulpExp fmt r)
    (hr : |r| < (2 : ℚ) ^ (fmt.emax + 1)) (hi : (i : ℚ) = (Int.floor r : ℚ)) (hi1 : (i : ℚ) ≤ r) :
    roundFloat fmt (r - (i : ℚ)) = .ok (r - (i : ℚ)) := by
  by_cases hd0 : r - (i : ℚ) = 0
  · rw [hd0]; simp [roundFloat]
  · have hi0 : (0 : ℚ) ≤ (i : ℚ) := Nat.cast_nonneg i
    have hr0 : r ≠ 0 := by
      intro h0
      rw [h0] at hi1
      have : (i : ℚ) = 0 := le_antisymm hi1 hi0
      apply hd0
      rw [h0, this]
      ring
    have hrpos : 0 < r := lt_of_le_of_ne (le_trans hi0 hi1) (Ne.symm hr0)
    have habs : |r - (i : ℚ)| ≤ |r| := by
      rw [abs_of_pos hrpos, abs_of_nonneg (by linarith)]
      linarith
    obtain ⟨K, hK⟩ := hgrid hr0
    have hue : ulpExp fmt r ≤ 0 := by
      by_contra hue
      have hue2 : 0 ≤ ulpExp fmt r := by omega
      have e1 : r = (((K * (2 : Int) ^ (ulpExp fmt r).toNat : Int)) : ℚ) := by
        conv_lhs => rw [hK]
        have := zpow_split (ulpExp fmt r) 0 hue2
        rw [this]
        push_cast
        simp
      apply hd0
      rw [hi]
      conv_lhs => rw [e1, Int.floor_intCast]
      ring
    have e2 : r - (i : ℚ) =
        (((K - (i : Int) * (2 : Int) ^ (0 - ulpExp fmt r).toNat : Int)) : ℚ) *
          (2 : ℚ) ^ ulpExp fmt r := by
      have h1 : (1 : ℚ) = (((2 : Int) ^ (0 - ulpExp fmt r).toNat : Int) : ℚ) *
          (2 : ℚ) ^ ulpExp fmt r := by
        have := zpow_split 0 (ulpExp fmt r) hue
        rw [zpow_zero] at this
        exact this
      push_cast
      push_cast at h1
      conv_lhs => rw [hK]
      linear_combination (-(i : ℚ)) * h1
    exact roundFloat_of_grid fmt _ _ _ e2 (fun h => ulpExp_mono fmt _ r h habs)
      (lt_of_le_of_lt habs hr)

/-- A value of the format below 1 is at most `1 - 2 ^ (-precision)`. -/
theorem grid_lt_one (fmt : FloatFormat) (d : ℚ)
    (hgrid : d ≠ 0 → ∃ K : Int, d = (K : ℚ) * (2 : ℚ) ^ ulpExp fmt d)
    (hP : 1 ≤ fmt.precision) (hemin : fmt.emin ≤ -1) (hd0 : 0 ≤ d) (hd1 : d < 1) :
    d ≤ 1 - (2 : ℚ) ^ (-(fmt.precision : Int)) := by
  have ht1 : (2 : ℚ) ^ (-(fmt.precision : Int)) ≤ (2 : ℚ) ^ (-1 : Int) :=
    zpow_le_zpow_right₀ (by norm_num) (by omega)
  have ht2 : (2 : ℚ) ^ (-1 : Int) = 1 / 2 := by norm_num
  have ht3 : (2 : ℚ) ^ (-(fmt.precision : Int)) ≤ 1 / 2 := le_trans ht1 (le_of_eq ht2)
  by_cases h0 : d = 0
  · rw [h0]; linarith
  · have habs : |d| = d := abs_of_nonneg hd0
    have hb : binade d ≤ -1 := by
      apply binade_le_of_lt d _ h0
      rw [habs]
      simpa using hd1
    by_cases hb1 : binade d = -1
    · obtain ⟨K, hK⟩ := hgrid h0
      have hu : ulpExp fmt d = -(fmt.precision : Int) := by
        unfold ulpExp
        rw [hb1]
        omega
      rw [hu] at hK
      have hpos : (0 : ℚ) < (2 : ℚ) ^ (-(fmt.precision : Int)) := by positivity
      have hone : (1 : ℚ) = (((2 : Int) ^ fmt.precision : Int) : ℚ) *
          (2 : ℚ) ^ (-(fmt.precision : Int)) := by
        have := zpow_split 0 (-(fmt.precision : Int)) (by omega)
        rw [zpow_zero] at this
        rw [this]
        congr 3
        omega
      have hKlt : (K : ℚ) < (((2 : Int) ^ fmt.precision : Int) : ℚ) := by
        by_contra hc
        have hc2 := not_lt.mp hc
        have := mul_le_mul_of_nonneg_right hc2 hpos.le
        rw [← hone, ← hK] at this
        linarith
      have hKlt2 : K < (2 : Int) ^ fmt.precision := by exact_mod_cast hKlt
      have hKle : (K : ℚ) ≤ (((2 : Int) ^ fmt.precision : Int) : ℚ) - 1 := by
        have : K ≤ (2 : Int) ^ fmt.precision - 1 := by omega
        exact_mod_cast this
      have := mul_le_mul_of_nonneg_right hKle hpos.le
      rw [sub_mul, ← hone, one_mul, ← hK] at this
      exact this
    · have hb2 : binade d + 1 ≤ -1 := by omega
      have h1 := (binade_spec d h0).2
      rw [habs] at h1
      have h2 : (2 : ℚ) ^ (binade d + 1) ≤ 1 / 2 :=
        le_trans (zpow_le_zpow_right₀ (by norm_num) hb2) (le_of_eq ht2)
      linarith

/-- The product of a value of the format below 1 and of a number `a` that is not a power of
two is below `a` after rounding. -/
theorem roundFloat_mul_lt (fmt : FloatFormat) (d x a : ℚ) (e : Nat)
    (hd0 : 0 ≤ d) (hd : d ≤ 1 - (2 : ℚ) ^ (-(fmt.precision : Int)))
    (hlow : (2 : ℚ) ^ e < a) (hhigh : a < (2 : ℚ) ^ (e + 1)) (hemin : fmt.emin ≤ 0)
    (h : roundFloat fmt (d * a) = .ok x) : x < a := by
  have ha : 0 < a := lt_trans (by positivity) hlow
  by_cases hy0 : d * a = 0
  · have := roundFloat_zero_iff fmt _ x h hy0
    rw [this]
    exact ha
  · obtain ⟨k, -, hnear, -⟩ := roundFloat_near fmt _ x h
    have ht : (0 : ℚ) < (2 : ℚ) ^ (-(fmt.precision : Int)) := by positivity
    have hylt : d * a < a := by
      have : d * a ≤ (1 - (2 : ℚ) ^ (-(fmt.precision : Int))) * a :=
        mul_le_mul_of_nonneg_right hd ha.le
      nlinarith
    have hyabs : |d * a| = d * a := abs_of_nonneg (mul_nonneg hd0 ha.le)
    have hb : binade (d * a) ≤ (e : Int) := by
      apply binade_le_of_lt _ _ hy0
      rw [hyabs]
      have : (2 : ℚ) ^ ((e : Int) + 1) = (2 : ℚ) ^ (e + 1) := by
        rw [← zpow_natCast]
        push_cast
        rfl
      rw [this]
      exact lt_trans hylt hhigh
    have hu : max (binade (d * a)) fmt.emin - ((fmt.precision : Int) - 1) ≤
        (e : Int) + 1 + -(fmt.precision : Int) := by omega
    have hu2 : (2 : ℚ) ^ (max (binade (d * a)) fmt.emin - ((fmt.precision : Int) - 1)) ≤
        2 * (2 : ℚ) ^ e * (2 : ℚ) ^ (-(fmt.precision : Int)) := by
      have := zpow_le_zpow_right₀ (by norm_num : (1 : ℚ) ≤ 2) hu
      rw [zpow_add₀ (by norm_num : (2 : ℚ) ≠ 0), zpow_add₀ (by norm_num : (2 : ℚ) ≠ 0),
        zpow_natCast, zpow_one] at this
      linarith
    have h1 : d * a ≤ (1 - (2 : ℚ) ^ (-(fmt.precision : Int))) * a :=
      mul_le_mul_of_nonneg_right hd ha.le
    have h2 : (2 : ℚ) ^ e * (2 : ℚ) ^ (-(fmt.precision : Int)) <
        a * (2 : ℚ) ^ (-(fmt.precision : Int)) := mul_lt_mul_of_pos_right hlow ht
    have h3 := (abs_le.mp hnear).1
    linarith

theorem pow10_between (p : Nat) (hp1 : 1 ≤ p) (hp : p ≤ 9) :
    ∃ e : Nat, (2 : ℚ) ^ e < ((10 ^ p : Nat) : ℚ) ∧ ((10 ^ p : Nat) : ℚ) < (2 : ℚ) ^ (e + 1) := by
  interval_cases p
  · exact ⟨3, by norm_num, by norm_num⟩
  · exact ⟨6, by norm_num, by norm_num⟩
  · exact ⟨9, by norm_num, by norm_num⟩
  · exact ⟨13, by norm_num, by norm_num⟩
  · exact ⟨16, by norm_num, by norm_num⟩
  · exact ⟨19, by norm_num, by norm_num⟩
  · exact ⟨23, by norm_num, by norm_num⟩
  · exact ⟨26, by norm_num, by norm_num⟩
  · exact ⟨29, by norm_num, by norm_num⟩

/-- The powers of ten up to `10 ^ 9` are values of `float` and of `double`. -/
theorem roundFloat_pow10 (fmt : FloatFormat) (hfmt : fmt = binary32 ∨ fmt = binary64) (p : Nat)
    (hp : p ≤ 9) : roundFloat fmt ((10 ^ p : Nat) : ℚ) = .ok ((10 ^ p : Nat) : ℚ) := by
  rcases hfmt with rfl | rfl <;> interval_cases p <;> decide!

/-- The fractional part that the Float Renderer computes has at most `p` digits: in a format
with a precision of at least 1 bit, with `emin ≤ -1`, in which `10 ^ p` is a value, the
fractional part of `floatParts` is below `10 ^ p`. -/
theorem floatParts_frac_lt (fmt : FloatFormat) (v : ℚ) (p : Nat) (neg : Bool) (i f : Nat)
    (hP : 1 ≤ fmt.precision) (hemin : fmt.emin ≤ -1) (hp : p ≤ 9)
    (hm : roundFloat fmt ((10 ^ p : Nat) : ℚ) = .ok ((10 ^ p : Nat) : ℚ))
    (h : floatParts fmt v p = .ok (neg, i, f)) : f < 10 ^ p := by
  unfold floatParts at h
  obtain ⟨v1, hv1, h⟩ := bind_eq_ok _ _ _ h
  obtain ⟨m, hm1, h⟩ := bind_eq_ok _ _ _ h
  obtain ⟨half, hhalf, h⟩ := bind_eq_ok _ _ _ h
  obtain ⟨hh, hhh, h⟩ := bind_eq_ok _ _ _ h
  obtain ⟨r, hr, h⟩ := bind_eq_ok _ _ _ h
  obtain ⟨i1, hi, h⟩ := bind_eq_ok _ _ _ h
  by_cases hp0 : p = 0
  · rw [if_pos hp0] at h
    have := Except.ok.inj h
    simp only [Prod.mk.injEq] at this
    rw [← this.2.2]
    positivity
  · rw [if_neg hp0] at h
    obtain ⟨ip, hip, h⟩ := bind_eq_ok _ _ _ h
    obtain ⟨d, hd, h⟩ := bind_eq_ok _ _ _ h
    obtain ⟨x, hx, h⟩ := bind_eq_ok _ _ _ h
    obtain ⟨f1, hf, h⟩ := bind_eq_ok _ _ _ h
    have hff : f1 = f := by
      have := Except.ok.inj h
      simp only [Prod.mk.injEq] at this
      exact this.2.2
    have hmeq : m = ((10 ^ p : Nat) : ℚ) := by
      rw [hm] at hm1
      exact (Except.ok.inj hm1).symm
    have hmpos : (0 : ℚ) < m := by
      rw [hmeq]
      positivity
    have hhalf0 : 0 ≤ half := roundFloat_nonneg fmt _ _ hhalf (by norm_num)
    have hh0 : 0 ≤ hh := roundFloat_nonneg fmt _ _ hhh (div_nonneg hhalf0 hmpos.le)
    have hr0 : 0 ≤ r := roundFloat_nonneg fmt _ _ hr (add_nonneg (abs_nonneg v1) hh0)
    have hrgrid := roundFloat_grid fmt _ r hr hP
    have hrrange := (roundFloat_near fmt _ r hr).choose_spec.2.2
    obtain ⟨hi1, hi2, hi3⟩ := toUInt_eq r i1 hi hr0
    have hipeq : ip = (i1 : ℚ) := by
      rw [roundFloat_floor fmt r i1 hrgrid hrrange hi1 hi2] at hip
      exact (Except.ok.inj hip).symm
    rw [hipeq] at hd
    have hdeq : d = r - (i1 : ℚ) := by
      have := roundFloat_sub_floor fmt r i1 hrgrid hrrange hi1 hi2
      rw [this] at hd
      exact (Except.ok.inj hd).symm
    have hd0 : 0 ≤ d := by rw [hdeq]; linarith
    have hd1 : d < 1 := by rw [hdeq]; linarith
    have hdgrid := roundFloat_grid fmt _ d hd hP
    have hdle := grid_lt_one fmt d hdgrid hP hemin hd0 hd1
    obtain ⟨e, he1, he2⟩ := pow10_between p (by omega) hp
    rw [hmeq] at hx
    have hxlt := roundFloat_mul_lt fmt d x _ e hd0 hdle he1 he2 (by omega) hx
    have hx0 : 0 ≤ x := roundFloat_nonneg fmt _ _ hx
      (mul_nonneg hd0 (by exact_mod_cast Nat.zero_le _))
    obtain ⟨-, hf2, -⟩ := toUInt_eq x f1 hf hx0
    have : (f1 : ℚ) < ((10 ^ p : Nat) : ℚ) := lt_of_le_of_lt hf2 hxlt
    rw [← hff]
    exact_mod_cast this

theorem roundFloat_noFuel (fmt : FloatFormat) (x : ℚ) :
    roundFloat fmt x ≠ .error .outOfFuel := by
  unfold roundFloat
  split
  · simp
  · simp only []
    split <;> simp

theorem toUInt_noFuel (x : ℚ) : toUInt x ≠ .error .outOfFuel := by
  unfold toUInt
  split <;> simp

theorem fracPart_noFuel (fmt : FloatFormat) (number : ℚ) (intPart : Nat) (mf : ℚ) :
    fracPart fmt number intPart mf ≠ .error .outOfFuel := by
  unfold fracPart
  exact bind_noFuel _ _ (roundFloat_noFuel _ _) fun ip =>
    bind_noFuel _ _ (roundFloat_noFuel _ _) fun d =>
      bind_noFuel _ _ (roundFloat_noFuel _ _) fun x => toUInt_noFuel x

theorem TinyPrintFloat_noFuel {σ : Type} (fmt : FloatFormat) (printchar : σ → Nat → σ)
    (ctx : σ) (number : ℚ) (precision : Nat) :
    TinyPrintFloat fmt printchar ctx number precision ≠ .error .outOfFuel := by
  unfold TinyPrintFloat TinyPrintInteger
  refine bind_noFuel _ _ (roundFloat_noFuel _ _) fun n1 => ?_
  simp only []
  generalize (if n1 < 0 then (-n1, printchar ctx 45, 1) else (n1, ctx, 0)) = st
  by_cases hm : multiplierLoop precision 1 = 0
  · simp [hm]
  · simp only [hm, if_false]
    refine bind_noFuel _ _ (roundFloat_noFuel _ _) fun mf => ?_
    refine bind_noFuel _ _ (roundFloat_noFuel _ _) fun half => ?_
    refine bind_noFuel _ _ (roundFloat_noFuel _ _) fun h => ?_
    refine bind_noFuel _ _ (roundFloat_noFuel _ _) fun n2 => ?_
    refine bind_noFuel _ _ (toUInt_noFuel _) fun intPart => ?_
    refine bind_noFuel _ _ (TINY_PRINT_INTEGER_noFuel _ _ _ _ _ _ _ _ _ _) ?_
    intro r1
    by_cases hp : precision ≠ 0
    · rw [if_pos hp]
      refine bind_noFuel _ _ (fracPart_noFuel _ _ _ _) fun f => ?_
      refine bind_noFuel _ _ (TINY_PRINT_INTEGER_noFuel _ _ _ _ _ _ _ _ _ _) ?_
      intro r2
      simp
    · rw [if_neg hp]; simp

theorem va_arg_int_noFuel (args : List Arg) : va_arg_int args ≠ .error .outOfFuel := by
  unfold va_arg_int
  split <;> simp

theorem va_arg_longlong_noFuel (args : List Arg) :
    va_arg_longlong args ≠ .error .outOfFuel := by
  unfold va_arg_longlong
  split <;> simp

theorem va_arg_str_noFuel (cfg : Config) (args : List Arg) :
    va_arg_str cfg args ≠ .error .outOfFuel := by
  unfold va_arg_str
  split
  · simp
  · split <;> simp
  · simp

theorem va_arg_double_noFuel (args : List Arg) : va_arg_double args ≠ .error .outOfFuel := by
  unfold va_arg_double
  split
  · exact map_noFuel _ _ (roundFloat_noFuel _ _)
  · simp

theorem printIntArg_noFuel {σ : Type} (cfg : Config) (printchar : σ → Nat → σ) (ctx : σ)
    (args : List Arg) (b : Int) (sg : Int) (width : Int) (options : Nat) (letbase : Int) :
    printIntArg cfg printchar ctx args b sg width options letbase ≠ .error .outOfFuel := by
  unfold printIntArg TinyPrintInteger TinyPrintIntegerLongLong
  split
  · exact bind_noFuel _ _ (va_arg_longlong_noFuel _)
      fun a => map_noFuel _ _ (TINY_PRINT_INTEGER_noFuel _ _ _ _ _ _ _ _ _ _)
  · exact bind_noFuel _ _ (va_arg_int_noFuel _)
      fun a => map_noFuel _ _ (TINY_PRINT_INTEGER_noFuel _ _ _ _ _ _ _ _ _ _)

theorem dispatch_noFuel {σ : Type} (cfg : Config) (printchar : σ → Nat → σ) (ctx : σ)
    (args : List Arg) (c : Nat) (width : Int) (options : Nat) (precision : Int) :
    dispatch cfg printchar ctx args c width options precision ≠ .error .outOfFuel := by
  unfold dispatch TinyPrintInteger
  split
  · exact bind_noFuel _ _ (va_arg_str_noFuel _ _)
      fun a => map_noFuel _ _ (TinyPrintString_noFuel _ _ _ _ _)
  split
  · exact printIntArg_noFuel _ _ _ _ _ _ _ _ _
  split
  · exact printIntArg_noFuel _ _ _ _ _ _ _ _ _
  split
  · exact printIntArg_noFuel _ _ _ _ _ _ _ _ _
  split
  · exact bind_noFuel _ _ (va_arg_int_noFuel _)
      fun a => map_noFuel _ _ (TINY_PRINT_INTEGER_noFuel _ _ _ _ _ _ _ _ _ _)
  split
  · exact printIntArg_noFuel _ _ _ _ _ _ _ _ _
  split
  · exact bind_noFuel _ _ (va_arg_double_noFuel _)
      fun a => map_noFuel _ _ (TinyPrintFloat_noFuel _ _ _ _ _)
  split
  · exact map_noFuel _ _ (va_arg_int_noFuel _)
  · simp

theorem parseMinus_noFuel (format : List Nat) : parseMinus format ≠ .error .outOfFuel := by
  unfold parseMinus
  split <;> [simp; (split <;> simp)]

theorem zeroLoop_noFuel (format : List Nat) (options : Nat) :
    zeroLoop format options ≠ .error .outOfFuel := by
  induction format generalizing options with
  | nil => simp [zeroLoop]
  | cons c f ih => simp only [zeroLoop]; split <;> [exact ih _; simp]

theorem numberLoop_noFuel (format : List Nat) (width : Int) :
    numberLoop format width ≠ .error .outOfFuel := by
  induction format generalizing width with
  | nil => simp [numberLoop]
  | cons c f ih => simp only [numberLoop]; split <;> [exact ih _; simp]

theorem parsePrecision_noFuel (format : List Nat) (precision : Int) :
    parsePrecision format precision ≠ .error .outOfFuel := by
  unfold parsePrecision
  split <;> [simp; (split <;> [exact numberLoop_noFuel _ _; simp])]

theorem parseLength_noFuel (format : List Nat) (options : Nat) :
    parseLength format options ≠ .error .outOfFuel := by
  unfold parseLength
  split
  · simp
  · split
    · split
      · simp
      · split <;> simp
    · simp

theorem directive_noFuel {σ : Type} (cfg : Config) (printchar : σ → Nat → σ) (ctx : σ)
    (format : List Nat) (args : List Arg) :
    directive cfg printchar ctx format args ≠ .error .outOfFuel := by
  unfold directive
  refine bind_noFuel _ _ (parseMinus_noFuel _) fun p1 => ?_
  refine bind_noFuel _ _ (zeroLoop_noFuel _ _) fun p2 => ?_
  refine bind_noFuel _ _ (numberLoop_noFuel _ _) fun p3 => ?_
  refine bind_noFuel _ _ (parsePrecision_noFuel _ _) fun p4 => ?_
  refine bind_noFuel _ _ (parseLength_noFuel _ _) fun p5 => ?_
  split
  · simp
  · exact map_noFuel _ _ (dispatch_noFuel _ _ _ _ _ _ _ _)

/-- The scan loop of the model never runs out of fuel when it starts with more fuel than
the format has bytes, as `TinyPrintf` starts it. -/
theorem TinyPrintfLoop_fuel {σ : Type} (cfg : Config) (printchar : σ → Nat → σ) (fuel : Nat) :
    ∀ (format : List Nat) (args : List Arg) (ctx : σ) (pc : Int), format.length < fuel →
      TinyPrintfLoop cfg printchar fuel format args ctx pc ≠ .error .outOfFuel := by
  induction fuel with
  | zero => intro format args ctx pc h; omega
  | succ fuel ih =>
    intro format args ctx pc h
    cases format with
    | nil => simp [TinyPrintfLoop]
    | cons c format =>
      simp only [List.length_cons] at h
      simp only [TinyPrintfLoop]
      split
      · simp
      split
      · cases format with
        | nil => simp
        | cons c1 format1 =>
          simp only [List.length_cons] at h
          simp only []
          split
          · simp
          split
          · exact ih _ _ _ _ (by omega)
          · cases hd : directive cfg printchar ctx (c1 :: format1) args with
            | error e =>
              simp only [ne_eq, Except.error.injEq]
              intro he
              subst he
              exact directive_noFuel _ _ _ _ _ hd
            | ok r =>
              have := directive_length _ _ _ _ _ _ hd
              simp only [List.length_cons] at this
              refine ih _ _ _ _ ?_
              rw [List.length_tail]
              omega
      · exact ih _ _ _ _ (by omega)

/-- The scan of `TinyPrintf` always comes to an end in the model: the result is a value or
a fault of the C program, never fuel exhaustion. -/
theorem TinyPrintf_terminates {σ : Type} (cfg : Config) (printchar : σ → Nat → σ) (ctx : σ)
    (format : List Nat) (args : List Arg) :
    TinyPrintf cfg printchar ctx format args ≠ .error .outOfFuel :=
  map_noFuel _ _ (TinyPrintfLoop_fuel cfg printchar _ format args ctx 0 (Nat.lt_succ_self _))

theorem foldl_TinySNPrintChar (out : List Nat) (st : SNState) (h : 0 ≤ st.context.length) :
    (out.foldl TinySNPrintChar st).context.string =
        st.context.string + min out.length st.context.length.toNat ∧
    (out.foldl TinySNPrintChar st).context.length =
        st.context.length - (min out.length st.context.length.toNat : Nat) ∧
    ∀ i, (out.foldl TinySNPrintChar st).mem i =
      if st.context.string ≤ i ∧ i < st.context.string + min out.length st.context.length.toNat
      then out.getD (i - st.context.string) 0 else st.mem i := by
  induction out generalizing st with
  | nil =>
    refine ⟨by simp, by simp, fun i => ?_⟩
    have : ¬ (st.context.string ≤ i ∧ i < st.context.string + min ([] : List Nat).length
        st.context.length.toNat) := by simp
    rw [if_neg this]; rfl
  | cons c out ih =>
    simp only [List.foldl_cons]
    by_cases hl : st.context.length = 0
    · have e : TinySNPrintChar st c = st := by simp [TinySNPrintChar, hl]
      obtain ⟨h1, h2, h3⟩ := ih st h
      rw [e]
      simp only [hl, Int.toNat_zero, Nat.min_zero, Nat.add_zero] at h1 h2 h3 ⊢
      refine ⟨h1, h2, fun i => ?_⟩
      have : ¬ (st.context.string ≤ i ∧ i < st.context.string) := by omega
      rw [h3 i, if_neg this, if_neg this]
    · have hl' : st.context.length ≠ 0 := hl
      obtain ⟨h1, h2, h3⟩ := ih (TinySNPrintChar st c) (by simp [TinySNPrintChar, hl']; omega)
      simp only [TinySNPrintChar, hl', ne_eq, not_false_eq_true, if_true] at h1 h2 h3 ⊢
      have hk : min (out.length + 1) st.context.length.toNat
          = min out.length (st.context.length - 1).toNat + 1 := by omega
      refine ⟨?_, ?_, ?_⟩
      · rw [h1, List.length_cons, hk]; omega
      · rw [h2, List.length_cons, hk]; push_cast; omega
      · intro i
        rw [h3 i, List.length_cons, hk]
        by_cases hi : i = st.context.string
        · subst hi
          simp
        · by_cases hi2 : st.context.string + 1 ≤ i ∧
              i < st.context.string + 1 + min out.length (st.context.length - 1).toNat
          · have hi3 : st.context.string ≤ i ∧
                i < st.context.string + (min out.length (st.context.length - 1).toNat + 1) := by
              omega
            rw [if_pos hi2, if_pos hi3]
            have : i - st.context.string = (i - (st.context.string + 1)) + 1 := by omega
            rw [this, List.getD_cons_succ]
          · have hi3 : ¬ (st.context.string ≤ i ∧
                i < st.context.string + (min out.length (st.context.length - 1).toNat + 1)) := by
              omega
            rw [if_neg hi2, if_neg hi3, Function.update_noteq hi]

theorem TinyPrintf_log_count (cfg : Config) (fmt : List Nat) (args : List Arg) (out : List Nat)
    (n : Int) (h : TinyPrintf cfg logChar [] fmt args = .ok (out, n)) : n = out.length := by
  have e := TinyPrintf_eq cfg logChar [] fmt args
  rw [h] at e
  simp [emit_logChar] at e
  exact e

/-- C1: for every buffer, capacity `>= 1`, format and argument list for which `TinyPrintf`
emits the bytes `out`, with `k = min (length out) (capacity - 1)`: after `TinySNprintf` the
buffer holds the first `k` bytes of `out` at the indices `0 .. k-1`, the terminator at index
`k`, and every byte at an index `> k` is unchanged. -/
theorem C1_snprintf_buffer (cfg : Config) (buffer : Nat → Nat) (capacity : Int)
    (fmt : List Nat) (args : List Arg) (out : List Nat) (n : Int) (hcap : 1 ≤ capacity)
    (hout : TinyPrintf cfg logChar [] fmt args = .ok (out, n)) :
    ∃ st ret, TinySNprintf cfg buffer capacity fmt args = .ok (st, ret) ∧
      (∀ i, i < min out.length (capacity - 1).toNat → out[i]? = some (st.mem i)) ∧
      st.mem (min out.length (capacity - 1).toNat) = 0 ∧
      (∀ i, min out.length (capacity - 1).toNat < i → st.mem i = buffer i) := by
  have e : TinySNprintf cfg buffer capacity fmt args = .ok
      (TinySNPrintChar
        { mem := (out.foldl TinySNPrintChar
            { mem := buffer, context := { string := 0, length := capacity - 1 } }).mem,
          context :=
            { string := (out.foldl TinySNPrintChar
                { mem := buffer, context := { string := 0, length := capacity - 1 } }).context.string,
              length := (out.foldl TinySNPrintChar
                { mem := buffer, context := { string := 0, length := capacity - 1 } }).context.length
                  + 1 } } 0, (out.length : Int)) := by
    unfold TinySNprintf
    simp only [TinyPrintf_eq cfg TinySNPrintChar, hout, map_ok, emit]
  refine ⟨_, _, e, ?_⟩
  obtain ⟨h1, h2, h3⟩ := foldl_TinySNPrintChar out
    { mem := buffer, context := { string := 0, length := capacity - 1 } } (by simp; omega)
  simp only [Nat.zero_add, Nat.zero_le, true_and, Nat.sub_zero] at h1 h2 h3
  have hne : ((capacity - 1 : Int) - (min out.length (capacity - 1).toNat : Nat)) + 1 ≠ 0 := by
    omega
  simp only [TinySNPrintChar, h1, h2, ne_eq, hne, not_false_eq_true, if_true]
  refine ⟨?_, ?_, ?_⟩
  · intro i hi
    rw [Function.update_noteq (by omega), h3 i, if_pos hi]
    have : i < out.length := by omega
    simp [List.getD, List.getElem?_eq_getElem this]
  · simp
  · intro i hi
    rw [Function.update_noteq (by omega), h3 i, if_neg (by omega)]

/-- The witness of C1: capacity 5 and the format `"hello world"` leave `"hell\0"` in the
buffer and the bytes behind it untouched. -/
theorem C1_snprintf_buffer_witness :
    (TinySNprintf cfg0 (fun _ => 255) 5 (cstr "hello world") []).map
      (fun r => (List.range 7).map r.1.mem) = .ok (bytes "hell" ++ [0, 255, 255]) ∧
    ∃ st ret, TinySNprintf cfg0 (fun _ => 255) 5 (cstr "hello world") [] = .ok (st, ret) ∧
      (∀ i, i < min (bytes "hello world").length ((5 : Int) - 1).toNat →
        (bytes "hello world")[i]? = some (st.mem i)) ∧
      st.mem (min (bytes "hello world").length ((5 : Int) - 1).toNat) = 0 ∧
      (∀ i, min (bytes "hello world").length ((5 : Int) - 1).toNat < i →
        st.mem i = (fun _ => 255) i) :=
  ⟨rfl,
    C1_snprintf_buffer cfg0 (fun _ => 255) 5 (cstr "hello world") [] (bytes "hello world") 11
      (by decide) rfl⟩

/-- C3: with capacity 0 the code writes into the buffer and its counter is negative during
the whole call.  `TinySNprintf(buffer, 0, "a")` starts the counter at `-1`, stores `'a'` at
index 0 (counter `-2`), and stores the terminator at index 1. -/
theorem C3_capacity_zero_writes (cfg : Config) :
    (TinyPrintf cfg TinySNPrintChar
        { mem := fun _ => 255, context := { string := 0, length := 0 - 1 } } (cstr "a") []).map
      (fun r => ((List.range 3).map r.1.mem, r.1.context.string, r.1.context.length)) =
      .ok ([97, 255, 255], 1, -2) ∧
    (TinySNprintf cfg (fun _ => 255) 0 (cstr "a") []).map
      (fun r => ((List.range 3).map r.1.mem, r.1.context.string, r.1.context.length, r.2)) =
      .ok ([97, 0, 255], 2, -2, 1) :=
  ⟨rfl, rfl⟩

/-- C4: a format that ends inside a directive, after a `'-'` flag, a `'0'` flag, width
digits, a `'.'`, precision digits, `'l'` or `'ll'`, makes the scan step over the terminator
and read the byte behind it; when further bytes follow the terminator in memory they are
printed. -/
theorem C4_scan_reads_past_terminator (cfg : Config) :
    TinyPrintf cfg logChar [] (cstr "%-") [] = .error .readPastEnd ∧
    TinyPrintf cfg logChar [] (cstr "%0") [] = .error .readPastEnd ∧
    TinyPrintf cfg logChar [] (cstr "%5") [] = .error .readPastEnd ∧
    TinyPrintf cfg logChar [] (cstr "%.") [] = .error .readPastEnd ∧
    TinyPrintf cfg logChar [] (cstr "%.2") [] = .error .readPastEnd ∧
    TinyPrintf cfg logChar [] (cstr "%l") [] = .error .readPastEnd ∧
    TinyPrintf cfg logChar [] (cstr "%ll") [] = .error .readPastEnd ∧
    TinyPrintf cfg logChar [] (cstr "%-" ++ cstr "XY") [] = .ok (bytes "XY", 2) ∧
    TinyPrintf cfg logChar [] (cstr "%") [] = .ok ([], 0) := by
  obtain ⟨ll, fl, sz⟩ := cfg
  cases fl <;> exact ⟨rfl, rfl, rfl, rfl, rfl, rfl, rfl, rfl, rfl⟩

theorem decimalDigits_all_isDigit (n : Nat) : (decimalDigits n).all isDigit = true := by
  simp only [decimalDigits, List.all_eq_true, List.mem_map, List.mem_reverse]
  rintro c ⟨d, hd, rfl⟩
  have := Nat.digits_lt_base (show 1 < 10 by norm_num) hd
  simp [isDigit]
  omega

theorem decimalDigits_ne_nil (n : Nat) (hn : n ≠ 0) : decimalDigits n ≠ [] := by
  simp [decimalDigits, Nat.digits_ne_nil_iff_ne_zero, hn]

theorem decimalDigits_head (n : Nat) : (decimalDigits n).head? ≠ some 48 := by
  by_cases hn : n = 0
  · simp [hn, decimalDigits]
  · have h1 := Nat.getLast_digit_ne_zero 10 hn
    have h2 : Nat.digits 10 n ≠ [] := Nat.digits_ne_nil_iff_ne_zero.mpr hn
    simp only [decimalDigits, List.head?_map, List.head?_reverse]
    rw [List.getLast?_eq_getLast _ h2]
    simp
    exact h1

theorem foldl_decimal (L : List Nat) :
    (L.reverse.map (· + 48)).foldl (fun acc c => acc * 10 + (c - 48)) 0 = Nat.ofDigits 10 L := by
  induction L with
  | nil => simp [Nat.ofDigits]
  | cons d L ih =>
    simp only [List.reverse_cons, List.map_append, List.foldl_append, ih, List.map_cons,
      List.map_nil, List.foldl_cons, List.foldl_nil, Nat.ofDigits_cons]
    omega

theorem parseDigits_decimalDigits (n : Nat) (hn : n ≠ 0) :
    parseDigits (decimalDigits n) = some n := by
  unfold parseDigits
  rw [if_pos ⟨decimalDigits_ne_nil n hn, decimalDigits_all_isDigit n⟩]
  simp only [decimalDigits, foldl_decimal, Nat.ofDigits_digits]

theorem not_mem_decimalDigits (c : Nat) (hc : c < 48) (n : Nat) : c ∉ decimalDigits n := by
  simp only [decimalDigits, List.mem_map, List.mem_reverse, not_exists, not_and]
  intro d _ h
  omega

theorem digitsText_ten_eq (letbase : Int) (u : Nat) :
    digitsText 10 letbase u = decimalDigits u := digitsText_ten letbase u

theorem signedText_canonical (v : Int) : canonicalDecimal (signedText v) = true := by
  unfold signedText
  by_cases h0 : v = 0
  · simp [h0, canonicalDecimal, isDigit]
  · have hn : v.natAbs ≠ 0 := by omega
    have h1 := decimalDigits_ne_nil _ hn
    have h2 := decimalDigits_all_isDigit v.natAbs
    have h3 := decimalDigits_head v.natAbs
    have h4 := not_mem_decimalDigits 45 (by norm_num) v.natAbs
    simp only [h0, if_false]
    by_cases hneg : v < 0
    · simp only [hneg, if_true, canonicalDecimal]
      simp [h1, h2, h3]
    · simp only [hneg, if_false]
      cases hd : decimalDigits v.natAbs with
      | nil => exact absurd hd h1
      | cons c ds =>
        rw [hd] at h2 h3 h4
        have hc : c ≠ 45 := by
          intro e; apply h4; simp [e]
        unfold canonicalDecimal
        split
        · rename_i heq
          simp at heq
          exact absurd heq.1 hc
        · simp at h2 h3 ⊢
          exact ⟨⟨h2.1, h2.2⟩, Or.inr h3⟩

theorem signedText_parse (v : Int) : parseSignedDecimal (signedText v) = some v := by
  unfold signedText
  by_cases h0 : v = 0
  · simp [h0, parseSignedDecimal, parseDigits, isDigit]
  · have hn : v.natAbs ≠ 0 := by omega
    have h4 := not_mem_decimalDigits 45 (by norm_num) v.natAbs
    simp only [h0, if_false]
    by_cases hneg : v < 0
    · simp only [hneg, if_true, parseSignedDecimal, parseDigits_decimalDigits _ hn]
      show some (-((v.natAbs : Nat) : Int)) = some v
      congr 1
      omega
    · simp only [hneg, if_false]
      cases hd : decimalDigits v.natAbs with
      | nil => exact absurd hd (decimalDigits_ne_nil _ hn)
      | cons c ds =>
        rw [hd] at h4
        have hc : c ≠ 45 := by
          intro e; apply h4; simp [e]
        unfold parseSignedDecimal
        split
        · rename_i heq
          simp at heq
          exact absurd heq.1 hc
        · rw [← hd, parseDigits_decimalDigits _ hn]
          show some ((v.natAbs : Nat) : Int) = some v
          congr 1
          omega

theorem toSigned_of_range (bits : Nat) (hb : 0 < bits) (v : Int)
    (h1 : -(2 : Int) ^ (bits - 1) ≤ v) (h2 : v < (2 : Int) ^ (bits - 1)) :
    toSigned bits v = v := by
  have hp : (2 : Int) ^ bits = 2 * 2 ^ (bits - 1) := by
    conv_lhs => rw [show bits = (bits - 1) + 1 by omega]
    rw [pow_succ]; ring
  have hpos : (0 : Int) < 2 ^ (bits - 1) := by positivity
  unfold toSigned
  rw [hp]
  generalize (2 : Int) ^ (bits - 1) = P at *
  by_cases hv : 0 ≤ v
  · have : v % (2 * P) = v := Int.emod_eq_of_lt hv (by omega)
    rw [this, if_pos h2]
  · have : v % (2 * P) = v + 2 * P := by
      rw [← Int.add_mul_emod_self_left v (2 * P) 1]
      simp only [mul_one]
      exact Int.emod_eq_of_lt (by omega) (by omega)
    rw [this, if_neg (by omega)]
    omega

theorem toUnsigned_natAbs_neg (bits : Nat) (hb : 0 < bits) (v : Int) (hv : v < 0)
    (h1 : -(2 : Int) ^ (bits - 1) ≤ v) : toUnsigned bits (-v) = v.natAbs := by
  have hp : (2 : Int) ^ bits = 2 * 2 ^ (bits - 1) := by
    conv_lhs => rw [show bits = (bits - 1) + 1 by omega]
    rw [pow_succ]; ring
  have hpos : (0 : Int) < 2 ^ (bits - 1) := by positivity
  rw [toUnsigned_of_lt _ _ (by omega) (by rw [hp]; omega)]
  omega

theorem toUnsigned_natAbs_pos (bits : Nat) (hb : 0 < bits) (v : Int) (hv : 0 < v)
    (h2 : v < (2 : Int) ^ (bits - 1)) : toUnsigned bits v = v.natAbs := by
  have hp : (2 : Int) ^ bits = 2 * 2 ^ (bits - 1) := by
    conv_lhs => rw [show bits = (bits - 1) + 1 by omega]
    rw [pow_succ]; ring
  rw [toUnsigned_of_lt _ _ (by omega) (by rw [hp]; omega)]
  omega

theorem natAbs_le_pow (bits : Nat) (v : Int)
    (h1 : -(2 : Int) ^ (bits - 1) ≤ v) (h2 : v < (2 : Int) ^ (bits - 1)) :
    v.natAbs ≤ 2 ^ (bits - 1) := by
  have : (v.natAbs : Int) ≤ 2 ^ (bits - 1) := by omega
  exact_mod_cast this

/-- The output of the signed base 10 conversion of a value other than `0` that is in the
range of `INT_TYPE`, when `print_buf` holds the digits of `2 ^ (bits - 1)`, a sign and the
terminator. -/
theorem integerOut_signed_decimal (bits PRINT_BUF_SIZE : Nat) (hb : 4 ≤ bits)
    (hs : 2 ^ (bits - 1) < 10 ^ (PRINT_BUF_SIZE - 2)) (hs2 : 2 ≤ PRINT_BUF_SIZE)
    (v : Int) (hv : v ≠ 0) (h1 : -(2 : Int) ^ (bits - 1) ≤ v) (h2 : v < (2 : Int) ^ (bits - 1))
    (sg : Int) (hsg : sg ≠ 0) (width : Int) (options : Nat) (letbase : Int) :
    integerOut bits PRINT_BUF_SIZE v 10 sg width options letbase =
      .ok (if v < 0 then
            if width ≠ 0 ∧ options &&& FORMAT_PAD_ZERO ≠ 0 then
              45 :: paddedText (decimalDigits v.natAbs) (width - 1) options
            else paddedText (45 :: decimalDigits v.natAbs) width options
          else paddedText (decimalDigits v.natAbs) width options) := by
  have h10 : toUnsigned bits 10 = 10 := by
    rw [toUnsigned_of_lt _ _ (by norm_num)]
    · rfl
    · calc (10 : Int) < 2 ^ 4 := by norm_num
        _ ≤ 2 ^ bits := pow_le_pow_right₀ (by norm_num) hb
  have hu : v.natAbs = if decide (sg ≠ 0 ∧ (10 : Int) = 10 ∧ v < 0) = true
      then toUnsigned bits (-v) else toUnsigned bits v := by
    by_cases hneg : v < 0
    · simp [hsg, hneg, toUnsigned_natAbs_neg bits (by omega) v hneg h1]
    · simp [hsg, hneg, toUnsigned_natAbs_pos bits (by omega) v (by omega) h2]
  have hlen : (Nat.digits 10 v.natAbs).length ≤ PRINT_BUF_SIZE - 2 :=
    digits_length_le 10 (by norm_num) _ _
      (lt_of_le_of_lt (natAbs_le_pow bits v h1 h2) hs)
  have h := integerOut_eq bits PRINT_BUF_SIZE v 10 sg width options letbase
    (decide (sg ≠ 0 ∧ (10 : Int) = 10 ∧ v < 0)) v.natAbs hv (by rw [h10]; norm_num) rfl hu
    (by rw [h10]; omega)
    (by rw [h10, digitsText_ten_eq]; exact not_mem_decimalDigits 0 (by norm_num) _)
  rw [h, h10, digitsText_ten_eq]
  by_cases hneg : v < 0 <;> simp [hsg, hneg]

theorem paddedText_of_le (t : List Nat) (width : Int) (options : Nat)
    (h : width ≤ t.length) : paddedText t width options = t := by
  unfold paddedText
  have : (width - (t.length : Int)).toNat = 0 := by omega
  simp [this]

theorem TinyPrintf_percent_d (cfg : Config) (v : Int) :
    TinyPrintf cfg logChar [] (cstr "%d") [Arg.int v] =
      (integerOut 32 12 (toSigned 32 v) 10 1 0 0 97).map fun out => (out, (out.length : Int)) := by
  have e : cstr "%d" = [37, 100, 0] := rfl
  rw [e]
  simp [TinyPrintf, TinyPrintfLoop, directive, parseMinus, zeroLoop, numberLoop,
    parsePrecision, parseLength, dispatch, printIntArg, va_arg_int,
    FORMAT_LONG_LONG, TinyPrintInteger, TINY_PRINT_INTEGER_eq, map_map, bind_map]
  cases integerOut 32 12 (toSigned 32 v) 10 1 0 0 97 <;> simp [emit_logChar, TinyPrintfLoop]

theorem TinyPrintf_percent_lld (cfg : Config) (hll : cfg.TINY_PRINTF_LONG_LONG = true) (v : Int) :
    TinyPrintf cfg logChar [] (cstr "%lld") [Arg.longlong v] =
      (integerOut 64 21 (toSigned 64 v) 10 1 0 FORMAT_LONG_LONG 97).map
        fun out => (out, (out.length : Int)) := by
  have e : cstr "%lld" = [37, 108, 108, 100, 0] := rfl
  rw [e]
  simp [TinyPrintf, TinyPrintfLoop, directive, parseMinus, zeroLoop, numberLoop,
    parsePrecision, parseLength, dispatch, printIntArg, va_arg_longlong,
    FORMAT_LONG_LONG, hll, TinyPrintIntegerLongLong, TINY_PRINT_INTEGER_eq, map_map, bind_map]
  cases integerOut 64 21 (toSigned 64 v) 10 1 0 4 97 <;> simp [emit_logChar, TinyPrintfLoop]

theorem integerOut_signedText (bits PRINT_BUF_SIZE : Nat) (hb : 4 ≤ bits)
    (hs : 2 ^ (bits - 1) < 10 ^ (PRINT_BUF_SIZE - 2)) (hs2 : 2 ≤ PRINT_BUF_SIZE)
    (v : Int) (h1 : -(2 : Int) ^ (bits - 1) ≤ v) (h2 : v < (2 : Int) ^ (bits - 1))
    (options : Nat) (letbase : Int) :
    integerOut bits PRINT_BUF_SIZE v 10 1 0 options letbase = .ok (signedText v) := by
  by_cases hv : v = 0
  · subst hv
    have hs3 : ¬ PRINT_BUF_SIZE < 2 := by omega
    simp only [integerOut, TINY_PRINT_INTEGER, if_true, hs3, if_false, TinyPrintString_eq]
    rw [show ([48, 0] : List Nat) = [48] ++ 0 :: [] from rfl, stringOut_text _ _ (by simp)]
    simp [emit_logChar, signedText, paddedText_of_le]
  · rw [integerOut_signed_decimal bits PRINT_BUF_SIZE hb hs hs2 v hv h1 h2 1 (by norm_num)]
    simp only [ne_eq, not_true_eq_false, false_and, if_false, signedText, hv]
    rw [paddedText_of_le _ _ _ (by simp; omega), paddedText_of_le _ _ _ (by simp)]

/-- C6: for every signed 32 bit integer `v`, `INT_MIN` included, `"%d"` emits a canonical
decimal text (an optional `'-'`, then digits with no leading zero) that parses as `v`; and
with `TINY_PRINTF_LONG_LONG` the same holds for every signed 64 bit integer and `"%lld"`. -/
theorem C6_signed_decimal_roundtrip (cfg : Config) (v : Int) :
    (-(2 : Int) ^ 31 ≤ v → v < (2 : Int) ^ 31 →
      ∃ out, TinyPrintf cfg logChar [] (cstr "%d") [Arg.int v] = .ok (out, (out.length : Int)) ∧
        canonicalDecimal out = true ∧ parseSignedDecimal out = some v) ∧
    (cfg.TINY_PRINTF_LONG_LONG = true → -(2 : Int) ^ 63 ≤ v → v < (2 : Int) ^ 63 →
      ∃ out, TinyPrintf cfg logChar [] (cstr "%lld") [Arg.longlong v] =
          .ok (out, (out.length : Int)) ∧
        canonicalDecimal out = true ∧ parseSignedDecimal out = some v) := by
  refine ⟨fun h1 h2 => ⟨signedText v, ?_, signedText_canonical v, signedText_parse v⟩,
    fun hll h1 h2 => ⟨signedText v, ?_, signedText_canonical v, signedText_parse v⟩⟩
  · rw [TinyPrintf_percent_d, toSigned_of_range 32 (by norm_num) v h1 h2,
      integerOut_signedText 32 12 (by norm_num) (by norm_num) (by norm_num) v h1 h2]
    rfl
  · rw [TinyPrintf_percent_lld cfg hll, toSigned_of_range 64 (by norm_num) v h1 h2,
      integerOut_signedText 64 21 (by norm_num) (by norm_num) (by norm_num) v h1 h2]
    rfl

/-- The witness of C6: the minimum values of the two types. -/
theorem C6_signed_decimal_roundtrip_witness :
    (TinyPrintf cfg0 logChar [] (cstr "%d") [Arg.int (-2147483648)] =
        .ok (bytes "-2147483648", 11) ∧
      ∃ out, TinyPrintf cfg0 logChar [] (cstr "%d") [Arg.int (-2147483648)] =
          .ok (out, (out.length : Int)) ∧
        canonicalDecimal out = true ∧ parseSignedDecimal out = some (-2147483648)) ∧
    (TinyPrintf cfg0 logChar [] (cstr "%lld") [Arg.longlong (-9223372036854775808)] =
        .ok (bytes "-9223372036854775808", 20) ∧
      ∃ out, TinyPrintf cfg0 logChar [] (cstr "%lld") [Arg.longlong (-9223372036854775808)] =
          .ok (out, (out.length : Int)) ∧
        canonicalDecimal out = true ∧ parseSignedDecimal out = some (-9223372036854775808)) :=
  ⟨⟨rfl, (C6_signed_decimal_roundtrip cfg0 (-2147483648)).1 (by norm_num) (by norm_num)⟩,
    ⟨rfl, (C6_signed_decimal_roundtrip cfg0 (-9223372036854775808)).2 rfl (by norm_num)
      (by norm_num)⟩⟩

theorem toUnsigned_lt (bits : Nat) (x : Int) : toUnsigned bits x < 2 ^ bits := by
  unfold toUnsigned
  have h1 : (0 : Int) < 2 ^ bits := by positivity
  have h2 := Int.emod_lt_of_pos x h1
  have h3 := Int.emod_nonneg x (ne_of_gt h1)
  have : ((x % 2 ^ bits).toNat : Int) < ((2 ^ bits : Nat) : Int) := by
    rw [Int.toNat_of_nonneg h3]; exact_mod_cast h2
  exact_mod_cast this

/-- The conversion succeeds when the base is at least 2 and `print_buf` has room for the
digits, the sign stored in it, and the terminator. -/
theorem integerOut_ok (bits PRINT_BUF_SIZE : Nat) (i : Int) (b : Int) (sg : Int) (width : Int)
    (options : Nat) (letbase : Int) (neg : Bool) (u : Nat)
    (hb : 2 ≤ toUnsigned bits b)
    (hneg : neg = decide (sg ≠ 0 ∧ b = 10 ∧ i < 0))
    (hu : u = if neg then toUnsigned bits (-i) else toUnsigned bits i)
    (hlen : (Nat.digits (toUnsigned bits b) u).length + (if neg then 1 else 0) + 1
      ≤ PRINT_BUF_SIZE) (hs2 : 2 ≤ PRINT_BUF_SIZE) :
    ∃ out, integerOut bits PRINT_BUF_SIZE i b sg width options letbase = .ok out := by
  unfold integerOut TINY_PRINT_INTEGER
  rw [← hneg]
  simp only [← hu, TinyPrintString_eq]
  have hs0 : ¬ PRINT_BUF_SIZE = 0 := by omega
  have hs1 : ¬ PRINT_BUF_SIZE < 2 := by omega
  have hl : (Nat.digits (toUnsigned bits b) u).length ≤ PRINT_BUF_SIZE - 1 := by omega
  have hso : ∀ (s : List Nat) (w : Int), 0 ∈ s →
      ∃ out, stringOut s w options = .ok out := by
    intro s w h0
    exact ⟨paddedText (ctext s) w options, by simp [stringOut, h0]⟩
  by_cases hi : i = 0
  · obtain ⟨out, ho⟩ := hso [48, 0] width (by simp)
    exact ⟨out, by simp [hi, hs1, ho, emit_logChar]⟩
  · simp only [hi, hs0, if_false, digitLoop_eq _ hb, hl, if_true, ok_bind]
    cases neg
    · obtain ⟨out, ho⟩ := hso (digitsText (toUnsigned bits b) letbase u ++ [0]) width (by simp)
      exact ⟨out, by simp [ho, emit_logChar]⟩
    · by_cases hz : width ≠ 0 ∧ options &&& FORMAT_PAD_ZERO ≠ 0
      · obtain ⟨out, ho⟩ := hso (digitsText (toUnsigned bits b) letbase u ++ [0]) (width - 1)
          (by simp)
        exact ⟨45 :: out, by simp [if_pos hz, ho, emit, foldl_logChar, logChar]⟩
      · obtain ⟨out, ho⟩ := hso (45 :: (digitsText (toUnsigned bits b) letbase u ++ [0])) width
          (by simp)
        have hs3 : ¬ (PRINT_BUF_SIZE - 1 - (Nat.digits (toUnsigned bits b) u).length = 0) := by
          simp at hlen; omega
        exact ⟨out, by simp [if_neg hz, hs3, ho, emit_logChar]⟩

theorem TinyPrintInteger_ok {σ : Type} (printchar : σ → Nat → σ) (ctx : σ) (i : Int) (b : Int)
    (sg : Int) (width : Int) (options : Nat) (letbase : Int) (hb : b = 10 ∨ b = 16) :
    ∃ r, TinyPrintInteger printchar ctx i b sg width options letbase = .ok r := by
  have key : ∃ out, integerOut 32 12 i b sg width options letbase = .ok out := by
    rcases hb with rfl | rfl
    · refine integerOut_ok 32 12 i 10 sg width options letbase _ _ (by decide) rfl rfl ?_
        (by norm_num)
      have h10 : toUnsigned 32 10 = 10 := by decide
      rw [h10]
      have h1 := digits_length_le 10 (by norm_num) 10 (toUnsigned 32 (-i))
        (lt_of_lt_of_le (toUnsigned_lt 32 (-i)) (by norm_num))
      have h2 := digits_length_le 10 (by norm_num) 10 (toUnsigned 32 i)
        (lt_of_lt_of_le (toUnsigned_lt 32 i) (by norm_num))
      generalize decide (sg ≠ 0 ∧ (10 : Int) = 10 ∧ i < 0) = neg
      cases neg <;> simp <;> omega
    · refine integerOut_ok 32 12 i 16 sg width options letbase _ _ (by decide) rfl rfl ?_
        (by norm_num)
      have h16 : toUnsigned 32 16 = 16 := by decide
      rw [h16]
      have := digits_length_le 16 (by norm_num) 8 (toUnsigned 32 i)
        (lt_of_lt_of_le (toUnsigned_lt 32 i) (by norm_num))
      simp
      omega
  obtain ⟨out, ho⟩ := key
  exact ⟨_, by rw [TinyPrintInteger, TINY_PRINT_INTEGER_eq, ho]; rfl⟩

theorem TinyPrintIntegerLongLong_ok {σ : Type} (printchar : σ → Nat → σ) (ctx : σ) (i : Int)
    (b : Int) (sg : Int) (width : Int) (options : Nat) (letbase : Int) (hb : b = 10 ∨ b = 16)
    (h1 : -(2 : Int) ^ 63 ≤ i) :
    ∃ r, TinyPrintIntegerLongLong printchar ctx i b sg width options letbase = .ok r := by
  have key : ∃ out, integerOut 64 21 i b sg width options letbase = .ok out := by
    rcases hb with rfl | rfl
    · refine integerOut_ok 64 21 i 10 sg width options letbase _ _ (by decide) rfl rfl ?_
        (by norm_num)
      have h10 : toUnsigned 64 10 = 10 := by decide
      rw [h10]
      have h2 := digits_length_le 10 (by norm_num) 20 (toUnsigned 64 i)
        (lt_of_lt_of_le (toUnsigned_lt 64 i) (by norm_num))
      have h1' : (-9223372036854775808 : Int) ≤ i := by norm_num at h1; exact h1
      generalize hn : decide (sg ≠ 0 ∧ (10 : Int) = 10 ∧ i < 0) = neg
      cases neg
      · simp
        omega
      · simp at hn
        have hu : toUnsigned 64 (-i) < 10 ^ 19 := by
          rw [toUnsigned_natAbs_neg 64 (by norm_num) i hn.2 h1]
          have : i.natAbs < 10000000000000000000 := by omega
          exact this
        have h3 := digits_length_le 10 (by norm_num) 19 _ hu
        simp
        omega
    · refine integerOut_ok 64 21 i 16 sg width options letbase _ _ (by decide) rfl rfl ?_
        (by norm_num)
      have h16 : toUnsigned 64 16 = 16 := by decide
      rw [h16]
      have := digits_length_le 16 (by norm_num) 16 (toUnsigned 64 i)
        (lt_of_lt_of_le (toUnsigned_lt 64 i) (by norm_num))
      simp
      omega
  obtain ⟨out, ho⟩ := key
  exact ⟨_, by rw [TinyPrintIntegerLongLong, TINY_PRINT_INTEGER_eq, ho]; rfl⟩

/-- C7: for every value, base 10 or 16, signedness, width, flag set and letter base, the
32 bit Integer Renderer returns without a write outside its 12 byte `print_buf`, and for
every `long long` value so does the 64 bit instantiation with its 21 byte buffer. -/
theorem C7_print_buf_bounds {σ : Type} (printchar : σ → Nat → σ) (ctx : σ) (i : Int) (b : Int)
    (sg : Int) (width : Int) (options : Nat) (letbase : Int) (hb : b = 10 ∨ b = 16) :
    (∃ r, TinyPrintInteger printchar ctx i b sg width options letbase = .ok r) ∧
    (-(2 : Int) ^ 63 ≤ i → i < (2 : Int) ^ 63 →
      ∃ r, TinyPrintIntegerLongLong printchar ctx i b sg width options letbase = .ok r) :=
  ⟨TinyPrintInteger_ok printchar ctx i b sg width options letbase hb,
    fun h1 _ => TinyPrintIntegerLongLong_ok printchar ctx i b sg width options letbase hb h1⟩

/-- The witness of C7: the minimum values in base 10, which fill the buffers; in base 2 the
same buffer is too small and the model reports the write outside it. -/
theorem C7_print_buf_bounds_witness :
    TinyPrintInteger logChar [] (-2147483648) 10 1 0 0 97 = .ok (bytes "-2147483648", 11) ∧
    TinyPrintIntegerLongLong logChar [] (-9223372036854775808) 10 1 0 0 97 =
      .ok (bytes "-9223372036854775808", 20) ∧
    TinyPrintInteger logChar [] 4096 2 0 0 0 97 = .error .writeOutsideBuf ∧
    (∃ r, TinyPrintInteger logChar [] (-2147483648) 10 1 0 0 97 = .ok r) ∧
    (∃ r, TinyPrintIntegerLongLong logChar [] (-9223372036854775808) 10 1 0 0 97 = .ok r) :=
  ⟨rfl, rfl, rfl,
    (C7_print_buf_bounds logChar [] (-2147483648) 10 1 0 0 97 (Or.inl rfl)).1,
    (C7_print_buf_bounds logChar [] (-9223372036854775808) 10 1 0 0 97 (Or.inl rfl)).2
      (by norm_num) (by norm_num)⟩

/-- C8: for every text `t` without a terminator in it, every width `w > length t` and every
flag set, `TinyPrintString` sends exactly `w` bytes: `w - length t` pad bytes, `'0'` with the
zero-pad flag and `' '` without, and the text; the pad bytes come first unless the pad-right
flag is set. -/
theorem C8_padding {σ : Type} (printchar : σ → Nat → σ) (ctx : σ) (t rest : List Nat)
    (width : Int) (options : Nat) (ht : 0 ∉ t) (hw : (t.length : Int) < width) :
    TinyPrintString printchar ctx (t ++ 0 :: rest) width options =
      .ok (List.foldl printchar ctx
        (if options &&& FORMAT_PAD_RIGHT = 0 then
          List.replicate (width.toNat - t.length)
            (if options &&& FORMAT_PAD_ZERO ≠ 0 then 48 else 32) ++ t
        else
          t ++ List.replicate (width.toNat - t.length)
            (if options &&& FORMAT_PAD_ZERO ≠ 0 then 48 else 32)), width) := by
  rw [TinyPrintString_eq, stringOut_text t rest ht, map_ok, emit, paddedText_length]
  have hpos : width > 0 := by omega
  have e1 : (width - (t.length : Int)).toNat = width.toNat - t.length := by omega
  have e2 : max width (t.length : Int) = width := by omega
  simp only [paddedText, hpos, true_and, e1, e2]

/-- The witness of C8: `"ab"` in a field of 5, with the four flag combinations. -/
theorem C8_padding_witness :
    TinyPrintString logChar [] (cstr "ab") 5 0 = .ok (bytes "   ab", 5) ∧
    TinyPrintString logChar [] (cstr "ab") 5 FORMAT_PAD_ZERO = .ok (bytes "000ab", 5) ∧
    TinyPrintString logChar [] (cstr "ab") 5 FORMAT_PAD_RIGHT = .ok (bytes "ab   ", 5) ∧
    TinyPrintString logChar [] (cstr "ab") 5 (FORMAT_PAD_RIGHT ||| FORMAT_PAD_ZERO) =
      .ok (bytes "ab000", 5) ∧
    TinyPrintString logChar [] (bytes "ab" ++ 0 :: []) 5 FORMAT_PAD_ZERO =
      .ok (List.foldl logChar []
        (if FORMAT_PAD_ZERO &&& FORMAT_PAD_RIGHT = 0 then
          List.replicate ((5 : Int).toNat - (bytes "ab").length)
            (if FORMAT_PAD_ZERO &&& FORMAT_PAD_ZERO ≠ 0 then 48 else 32) ++ bytes "ab"
        else
          bytes "ab" ++ List.replicate ((5 : Int).toNat - (bytes "ab").length)
            (if FORMAT_PAD_ZERO &&& FORMAT_PAD_ZERO ≠ 0 then 48 else 32)), 5) :=
  ⟨rfl, rfl, rfl, rfl,
    C8_padding logChar [] (bytes "ab") [] 5 FORMAT_PAD_ZERO (by decide) (by decide)⟩

/-- C9: for every text `t` without a terminator in it, every width `w <= length t`, zero and
negative widths included, and every flag set, `TinyPrintString` sends exactly `t` and returns
`length t`. -/
theorem C9_no_padding {σ : Type} (printchar : σ → Nat → σ) (ctx : σ) (t rest : List Nat)
    (width : Int) (options : Nat) (ht : 0 ∉ t) (hw : width ≤ (t.length : Int)) :
    TinyPrintString printchar ctx (t ++ 0 :: rest) width options =
      .ok (List.foldl printchar ctx t, (t.length : Int)) := by
  rw [TinyPrintString_eq, stringOut_text t rest ht, map_ok, emit, paddedText_of_le t _ _ hw]

/-- The witness of C9: `"hello"` with the widths 5, 3, 0 and -7. -/
theorem C9_no_padding_witness :
    TinyPrintString logChar [] (cstr "hello") 3 FORMAT_PAD_ZERO = .ok (bytes "hello", 5) ∧
    TinyPrintString logChar [] (cstr "hello") 5 FORMAT_PAD_RIGHT = .ok (bytes "hello", 5) ∧
    TinyPrintString logChar [] (cstr "hello") 0 0 = .ok (bytes "hello", 5) ∧
    TinyPrintString logChar [] (bytes "hello" ++ 0 :: []) (-7) FORMAT_PAD_ZERO =
      .ok (List.foldl logChar [] (bytes "hello"), ((bytes "hello").length : Int)) :=
  ⟨rfl, rfl, rfl,
    C9_no_padding logChar [] (bytes "hello") [] (-7) FORMAT_PAD_ZERO (by decide) (by decide)⟩

/-- The signed base 10 conversion of a negative 32 bit `v` with width `>= 1` and without the
pad-right flag: with the zero-pad flag the sign comes first and the padding is `'0'`,
without it the padding is `' '` and comes before the sign. -/
theorem TinyPrintInteger_negative_padding (v : Int) (width : Int) (options : Nat) (hv : v < 0)
    (hr : -(2 : Int) ^ 31 ≤ v) (hw : 1 ≤ width) (hright : options &&& FORMAT_PAD_RIGHT = 0) :
    (options &&& FORMAT_PAD_ZERO ≠ 0 →
      integerOut 32 12 v 10 1 width options 97 =
        .ok (45 :: (List.replicate (width - 1 - (decimalDigits v.natAbs).length).toNat 48 ++
          decimalDigits v.natAbs))) ∧
    (options &&& FORMAT_PAD_ZERO = 0 →
      integerOut 32 12 v 10 1 width options 97 =
        .ok (List.replicate (width - 1 - (decimalDigits v.natAbs).length).toNat 32 ++
          45 :: decimalDigits v.natAbs)) := by
  have h := integerOut_signed_decimal 32 12 (by norm_num) (by norm_num) (by norm_num) v
    (by omega) hr (by norm_num; omega) 1 (by norm_num) width options 97
  rw [h]
  have hw0 : width ≠ 0 := by omega
  refine ⟨fun hz => ?_, fun hz => ?_⟩
  · simp only [hv, if_true, hw0, hz, ne_eq, not_false_eq_true, and_self, paddedText, hright]
    by_cases h1 : width - 1 > 0
    · simp [h1]
    · have : (width - 1 - ((decimalDigits v.natAbs).length : Int)).toNat = 0 := by omega
      simp [this]
  · have e : (width - ((45 :: decimalDigits v.natAbs).length : Int)).toNat
        = (width - 1 - ((decimalDigits v.natAbs).length : Int)).toNat := by
      simp only [List.length_cons]; push_cast; omega
    simp only [hv, if_true, hw0, hz, ne_eq, not_true_eq_false, and_false, if_false, paddedText,
      hright, e]

theorem numberLoop_digits (ds : List Nat) (c : Nat) (rest : List Nat) (acc : Int)
    (hds : ds.all isDigit = true) (hc : isDigit c = false) :
    numberLoop (ds ++ c :: rest) acc =
      .ok (c :: rest, List.foldl
        (fun (a : Int) (d : Nat) => toSigned 32 (toSigned 32 (a * 10) + ((d : Int) - 48))) acc ds) := by
  induction ds generalizing acc with
  | nil =>
    have : ¬ (c ≥ 48 ∧ c ≤ 57) := by simpa [isDigit] using hc
    simp [numberLoop, this]
  | cons d ds ih =>
    simp only [List.all_cons, Bool.and_eq_true] at hds
    have hd : d ≥ 48 ∧ d ≤ 57 := by simpa [isDigit] using hds.1
    rw [List.cons_append, numberLoop, if_pos hd, List.foldl_cons]
    exact ih _ hds.2

theorem foldl_decimal_int (L : List Nat) (hL : Nat.ofDigits 10 L < 2 ^ 31) :
    (List.map (fun x : Nat => x + 48) L.reverse).foldl
        (fun (a : Int) (d : Nat) => toSigned 32 (toSigned 32 (a * 10) + ((d : Int) - 48))) 0 =
      ((Nat.ofDigits 10 L : Nat) : Int) := by
  induction L with
  | nil => simp [Nat.ofDigits]
  | cons d L ih =>
    rw [Nat.ofDigits_cons] at hL
    have hq : Nat.ofDigits 10 L < 2 ^ 31 := by omega
    rw [List.reverse_cons, List.map_append, List.foldl_append, ih hq, List.map_cons,
      List.map_nil, List.foldl_cons, List.foldl_nil, Nat.ofDigits_cons]
    have h1 : toSigned 32 (((Nat.ofDigits 10 L : Nat) : Int) * 10) =
        ((Nat.ofDigits 10 L : Nat) : Int) * 10 :=
      toSigned_of_range 32 (by norm_num) _ (by norm_num; omega) (by norm_num; omega)
    rw [h1]
    have h2 : ((Nat.ofDigits 10 L : Nat) : Int) * 10 + ((((d + 48 : Nat)) : Int) - 48) =
        ((d + 10 * Nat.ofDigits 10 L : Nat) : Int) := by
      push_cast
      ring
    rw [h2]
    exact toSigned_of_range 32 (by norm_num) _ (by norm_num; omega) (by norm_num; omega)

theorem numberLoop_decimalDigits (n : Nat) (c : Nat) (rest : List Nat)
    (hc : isDigit c = false) (hn : n < 2 ^ 31) :
    numberLoop (decimalDigits n ++ c :: rest) 0 = .ok (c :: rest, (n : Int)) := by
  rw [numberLoop_digits _ _ _ _ (decimalDigits_all_isDigit n) hc]
  have h := foldl_decimal_int (Nat.digits 10 n) (by rw [Nat.ofDigits_digits]; exact hn)
  rw [Nat.ofDigits_digits] at h
  simp only [decimalDigits, h]

theorem zeroLoop_decimalDigits (n : Nat) (hn : n ≠ 0) (rest : List Nat) (options : Nat) :
    zeroLoop (decimalDigits n ++ rest) options = .ok (decimalDigits n ++ rest, options) := by
  have h1 := decimalDigits_ne_nil n hn
  have h2 := decimalDigits_head n
  cases hd : decimalDigits n with
  | nil => exact absurd hd h1
  | cons c ds =>
    rw [hd] at h2
    have : ¬ c = 48 := by simpa using h2
    simp [zeroLoop, this]

theorem parseMinus_decimalDigits (n : Nat) (hn : n ≠ 0) (rest : List Nat) :
    parseMinus (decimalDigits n ++ rest) = .ok (decimalDigits n ++ rest, 0) := by
  have h1 := decimalDigits_ne_nil n hn
  have h4 := not_mem_decimalDigits 45 (by norm_num) n
  cases hd : decimalDigits n with
  | nil => exact absurd hd h1
  | cons c ds =>
    rw [hd] at h4
    have : ¬ c = 45 := by
      intro e; apply h4; simp [e]
    simp [parseMinus, this]

/-- The directive `%<w>d`, or `%0<w>d` when `zero` is set, with the width `w >= 1` written
in decimal and below `2 ^ 31`, calls the 32 bit signed base 10 conversion with that width and
with the zero-pad flag alone or no flag. -/
theorem TinyPrintf_width_d (cfg : Config) (zero : Bool) (w : Nat) (hw : w ≠ 0)
    (hw31 : w < 2 ^ 31) (v : Int) :
    TinyPrintf cfg logChar [] (37 :: ((if zero then [48] else []) ++ decimalDigits w ++ [100, 0]))
        [Arg.int v] =
      (integerOut 32 12 (toSigned 32 v) 10 1 w (if zero then FORMAT_PAD_ZERO else 0) 97).map
        fun out => (out, (out.length : Int)) := by
  have hdir : directive cfg logChar []
      ((if zero then [48] else []) ++ decimalDigits w ++ [100, 0]) [Arg.int v] =
      (integerOut 32 12 (toSigned 32 v) 10 1 w (if zero then FORMAT_PAD_ZERO else 0) 97).map
        fun out => ([100, 0], out, (out.length : Int), []) := by
    have hnum := numberLoop_decimalDigits w 100 [0] (by decide) hw31
    have hz := zeroLoop_decimalDigits w hw [100, 0]
    unfold directive
    cases zero
    · simp only [Bool.false_eq_true, if_false, List.nil_append]
      rw [parseMinus_decimalDigits w hw]
      simp [hz, hnum, parsePrecision, parseLength, dispatch, printIntArg, va_arg_int,
        FORMAT_LONG_LONG, TinyPrintInteger, TINY_PRINT_INTEGER_eq, map_map, emit_logChar]
    · have h24 : (2 : Nat) &&& 4 = 0 := by decide
      simp [h24, parseMinus, zeroLoop, hz, hnum, parsePrecision, parseLength, dispatch, printIntArg,
        va_arg_int, FORMAT_LONG_LONG, FORMAT_PAD_ZERO, TinyPrintInteger, TINY_PRINT_INTEGER_eq,
        map_map, emit_logChar]
  have hne : ∃ c1 format1, (if zero then [48] else []) ++ decimalDigits w ++ [100, 0]
      = c1 :: format1 ∧ c1 ≠ 0 ∧ c1 ≠ 37 := by
    cases zero
    · have h1 := decimalDigits_ne_nil w hw
      have h0 := not_mem_decimalDigits 0 (by norm_num) w
      have h37 := not_mem_decimalDigits 37 (by norm_num) w
      cases hd : decimalDigits w with
      | nil => exact absurd hd h1
      | cons c ds =>
        rw [hd] at h0 h37
        refine ⟨c, ds ++ [100, 0], by simp, ?_, ?_⟩
        · intro e; apply h0; simp [e]
        · intro e; apply h37; simp [e]
    · exact ⟨48, decimalDigits w ++ [100, 0], by simp, by norm_num, by norm_num⟩
  obtain ⟨c1, format1, hcf, hc0, hc37⟩ := hne
  unfold TinyPrintf
  rw [hcf] at hdir ⊢
  simp only [List.length_cons, TinyPrintfLoop, hc0, hc37, if_false, hdir]
  cases integerOut 32 12 (toSigned 32 v) 10 1 w (if zero then FORMAT_PAD_ZERO else 0) 97 with
  | error e => simp
  | ok out => simp [TinyPrintfLoop]

/-- C10, amended: for every negative 32 bit `v` with decimal digits `D` of its magnitude and
every width `w` with `1 <= w < 2 ^ 31` (a width that the `int` variable holds), written in
decimal in the directive: `%0<w>d` sends `'-'`, then `max 0 (w - 1 - length D)` bytes `'0'`,
then `D`; and `%<w>d` sends `max 0 (w - 1 - length D)` spaces, then `'-'`, then `D`. -/
theorem C10_negative_padding (cfg : Config) (v : Int) (w : Nat) (hv : v < 0)
    (hr : -(2 : Int) ^ 31 ≤ v) (hw : 1 ≤ w) (hw31 : w < 2 ^ 31) :
    (TinyPrintf cfg logChar [] (bytes "%0" ++ (decimalDigits w ++ cstr "d"))
        [Arg.int v]).map Prod.fst =
      .ok (45 :: (List.replicate (w - 1 - (decimalDigits v.natAbs).length) 48 ++
        decimalDigits v.natAbs)) ∧
    (TinyPrintf cfg logChar [] (bytes "%" ++ (decimalDigits w ++ cstr "d"))
        [Arg.int v]).map Prod.fst =
      .ok (List.replicate (w - 1 - (decimalDigits v.natAbs).length) 32 ++
        45 :: decimalDigits v.natAbs) := by
  have hs := toSigned_of_range 32 (by norm_num) v hr (by norm_num; omega)
  have hp := TinyPrintInteger_negative_padding v w
  have e : ((w : Int) - 1 - ((decimalDigits v.natAbs).length : Int)).toNat
      = w - 1 - (decimalDigits v.natAbs).length := by omega
  constructor
  · have h := TinyPrintf_width_d cfg true w (by omega) hw31 v
    have h2 := (hp FORMAT_PAD_ZERO hv hr (by omega) rfl).1 (by decide)
    simp only [if_true, hs, h2, map_ok, e] at h
    exact congrArg (Except.map Prod.fst) h
  · have h := TinyPrintf_width_d cfg false w (by omega) hw31 v
    have h2 := (hp 0 hv hr (by omega) rfl).2 rfl
    simp only [Bool.false_eq_true, if_false, hs, h2, map_ok, e] at h
    exact congrArg (Except.map Prod.fst) h

/-- The witness of C10, amended: `-42` in a field of 6. -/
theorem C10_negative_padding_witness :
    TinyPrintf cfg0 logChar [] (cstr "%06d|%6d") [Arg.int (-42), Arg.int (-42)] =
      .ok (bytes "-00042|   -42", 13) ∧
    (TinyPrintf cfg0 logChar [] (bytes "%0" ++ (decimalDigits 6 ++ cstr "d"))
        [Arg.int (-42)]).map Prod.fst =
      .ok (45 :: (List.replicate (6 - 1 - (decimalDigits (-42 : Int).natAbs).length) 48 ++
        decimalDigits (-42 : Int).natAbs)) ∧
    (TinyPrintf cfg0 logChar [] (bytes "%" ++ (decimalDigits 6 ++ cstr "d"))
        [Arg.int (-42)]).map Prod.fst =
      .ok (List.replicate (6 - 1 - (decimalDigits (-42 : Int).natAbs).length) 32 ++
        45 :: decimalDigits (-42 : Int).natAbs) :=
  ⟨rfl, C10_negative_padding cfg0 (-42) 6 (by decide) (by decide) (by decide) (by decide)⟩

/-- C10 as stated fails from the width `2 ^ 31` on, which the `int` variable `width` does not
hold: for `"%2147483648d"` the variable wraps to `-2147483648`, and `-42` is printed without
any padding, 3 bytes, where the claim has `2147483645` spaces before it. -/
theorem C10_counterexample :
    bytes "%" ++ (decimalDigits 2147483648 ++ cstr "d") = cstr "%2147483648d" ∧
    TinyPrintf cfg0 logChar [] (cstr "%2147483648d") [Arg.int (-42)] = .ok (bytes "-42", 3) ∧
    decimalValue (bytes "2147483648") = -2147483648 ∧
    (TinyPrintf cfg0 logChar [] (bytes "%" ++ (decimalDigits 2147483648 ++ cstr "d"))
        [Arg.int (-42)]).map Prod.fst ≠
      .ok (List.replicate (2147483648 - 1 - (decimalDigits (-42 : Int).natAbs).length) 32 ++
        45 :: decimalDigits (-42 : Int).natAbs) := by
  have e1 : bytes "%" ++ (decimalDigits 2147483648 ++ cstr "d") = cstr "%2147483648d" := by
    simp [decimalDigits, bytes, cstr]
  have e2 : TinyPrintf cfg0 logChar [] (cstr "%2147483648d") [Arg.int (-42)] =
      .ok (bytes "-42", 3) := by decide!
  refine ⟨e1, e2, by decide!, ?_⟩
  rw [e1, e2, map_ok]
  intro h
  have h2 := congrArg List.length (Except.ok.inj h)
  rw [List.length_append, List.length_replicate, List.length_cons] at h2
  have h3 : (bytes "-42").length = 3 := rfl
  rw [h3] at h2
  omega

/-! ### Conversions, directive syntax and composition of scans -/

theorem toUnsigned_toSigned (bits : Nat) (x : Int) :
    toUnsigned bits (toSigned bits x) = toUnsigned bits x := by
  unfold toUnsigned toSigned
  split
  · rw [Int.emod_emod_of_dvd _ (dvd_refl _)]
  · rw [Int.sub_emod, Int.emod_self, sub_zero, Int.emod_emod_of_dvd _ (dvd_refl _),
      Int.emod_emod_of_dvd _ (dvd_refl _)]

theorem toSigned_eq_zero_iff (bits : Nat) (hb : 0 < bits) (x : Int) :
    toSigned bits x = 0 ↔ toUnsigned bits x = 0 := by
  have hp : (2 : Int) ^ bits = 2 * 2 ^ (bits - 1) := by
    conv_lhs => rw [show bits = (bits - 1) + 1 by omega]
    rw [pow_succ]; ring
  have hpos : (0 : Int) < 2 ^ (bits - 1) := by positivity
  have h1 := Int.emod_nonneg x (show (2 : Int) ^ bits ≠ 0 by positivity)
  have h2 := Int.emod_lt_of_pos x (show (0 : Int) < 2 ^ bits by positivity)
  unfold toUnsigned toSigned
  rw [hp] at *
  generalize (2 : Int) ^ (bits - 1) = P at *
  generalize x % (2 * P) = y at *
  split <;> omega

theorem digitChar_hex (letbase : Nat) (hl : letbase + 5 < 256) (hl2 : 10 ≤ letbase) (d : Nat)
    (hd : d < 16) :
    digitChar letbase d = if d < 10 then d + 48 else d - 10 + letbase := by
  by_cases h10 : d < 10
  · rw [digitChar_of_lt_ten _ _ h10, if_pos h10]
  · have h1 : toSigned 32 (d : Int) = d := by
      rw [toSigned_of_range 32 (by norm_num) _ (by norm_num; omega) (by norm_num; omega)]
    unfold digitChar
    simp only [h1]
    have h2 : ((d : Int) ≥ 10) := by omega
    simp only [h2, if_true, if_neg h10]
    rw [toUnsigned_of_lt _ _ (by omega) (by norm_num; omega)]
    omega

theorem integerOut_zero (bits PRINT_BUF_SIZE : Nat) (hs : 2 ≤ PRINT_BUF_SIZE) (b : Int)
    (sg : Int) (width : Int) (options : Nat) (letbase : Int) :
    integerOut bits PRINT_BUF_SIZE 0 b sg width options letbase =
      .ok (paddedText [48] width options) := by
  have hs3 : ¬ PRINT_BUF_SIZE < 2 := by omega
  simp only [integerOut, TINY_PRINT_INTEGER, if_true, hs3, if_false, TinyPrintString_eq]
  rw [show ([48, 0] : List Nat) = [48] ++ 0 :: [] from rfl, stringOut_text _ _ (by simp)]
  simp [emit_logChar]

theorem digitsText_hex (b letbase : Nat) (hb : b = 10 ∨ b = 16) (hl : letbase + 5 < 256)
    (hl2 : 10 ≤ letbase) (u : Nat) :
    digitsText b letbase u =
      (Nat.digits b u).reverse.map fun d => if d < 10 then d + 48 else d - 10 + letbase := by
  unfold digitsText
  apply List.map_congr_left
  intro d hd
  have hlt : d < b := Nat.digits_lt_base (by omega) (List.mem_reverse.mp hd)
  exact digitChar_hex letbase hl hl2 d (by omega)

/-- The output of the unsigned conversion of the `int` argument `a` in base 10 or 16: the
text of `a mod 2 ^ 32`, padded. -/
theorem integerOut_unsigned (a : Int) (b letbase : Nat) (hb : b = 10 ∨ b = 16)
    (hl : letbase + 5 < 256) (hl2 : 10 ≤ letbase) (width : Int) (options : Nat) :
    integerOut 32 12 (toSigned 32 a) b 0 width options letbase =
      .ok (paddedText (unsignedText b letbase (toUnsigned 32 a)) width options) := by
  by_cases h0 : toUnsigned 32 a = 0
  · rw [(toSigned_eq_zero_iff 32 (by norm_num) a).mpr h0, integerOut_zero 32 12 (by norm_num)]
    simp [unsignedText, h0]
  · have hi : toSigned 32 a ≠ 0 := fun h => h0 ((toSigned_eq_zero_iff 32 (by norm_num) a).mp h)
    have hub : toUnsigned 32 (b : Int) = b := by
      rcases hb with rfl | rfl <;> decide
    have hlt := toUnsigned_lt 32 a
    have hlen : (Nat.digits b (toUnsigned 32 a)).length ≤ 10 := by
      rcases hb with rfl | rfl
      · exact digits_length_le 10 (by norm_num) 10 _ (lt_of_lt_of_le hlt (by norm_num))
      · exact le_trans (digits_length_le 16 (by norm_num) 8 _
          (lt_of_lt_of_le hlt (by norm_num))) (by norm_num)
    have htext := digitsText_hex b letbase hb hl hl2 (toUnsigned 32 a)
    have hmem : 0 ∉ digitsText b (letbase : Int) (toUnsigned 32 a) := by
      rw [htext]
      simp only [List.mem_map, List.mem_reverse, not_exists, not_and]
      intro d _ h
      split at h <;> omega
    have h := integerOut_eq 32 12 (toSigned 32 a) b 0 width options letbase false
      (toUnsigned 32 a) hi (by rw [hub]; omega) (by simp)
      (by simp [toUnsigned_toSigned 32]) (by rw [hub]; omega)
      (by rw [hub]; exact hmem)
    rw [h, hub, htext]
    simp [unsignedText, h0]

theorem digitValue_char (letbase : Nat) (hl : 57 < letbase) (d : Nat) (hd : d < 16) :
    digitValue letbase (if d < 10 then d + 48 else d - 10 + letbase) = some d := by
  unfold digitValue
  by_cases h : d < 10
  · have : 48 ≤ d + 48 ∧ d + 48 ≤ 57 := by omega
    simp [h, this]
  · have h1 : ¬ (48 ≤ d - 10 + letbase ∧ d - 10 + letbase ≤ 57) := by omega
    have h2 : letbase ≤ d - 10 + letbase ∧ d - 10 + letbase < letbase + 6 := by omega
    simp only [h, if_false, h1, h2, and_self, if_true]
    congr 1
    omega

theorem foldl_parseBase (b letbase : Nat) (hb : b ≤ 16) (hl : 57 < letbase) (L : List Nat)
    (hL : ∀ d ∈ L, d < b) :
    (L.reverse.map fun d => if d < 10 then d + 48 else d - 10 + letbase).foldl
      (fun acc c =>
        match acc, digitValue letbase c with
        | some n, some d => if d < b then some (n * b + d) else none
        | _, _ => none)
      (some 0) = some (Nat.ofDigits b L) := by
  induction L with
  | nil => simp [Nat.ofDigits]
  | cons d L ih =>
    have hd : d < b := hL d (by simp)
    rw [List.reverse_cons, List.map_append, List.foldl_append,
      ih (fun x hx => hL x (by simp [hx]))]
    simp only [List.map_cons, List.map_nil, List.foldl_cons, List.foldl_nil,
      digitValue_char letbase hl d (by omega), hd, if_true, Nat.ofDigits_cons]
    congr 1
    ring

theorem parseBase_unsignedText (b letbase : Nat) (hb1 : 2 ≤ b) (hb : b ≤ 16) (hl : 57 < letbase)
    (n : Nat) : parseBase b letbase (unsignedText b letbase n) = some n := by
  unfold unsignedText
  by_cases h0 : n = 0
  · have : (0 : Nat) < b := by omega
    simp [h0, parseBase, digitValue, this]
  · rw [if_neg h0]
    have hne : (Nat.digits b n).reverse.map
        (fun d => if d < 10 then d + 48 else d - 10 + letbase) ≠ [] := by
      simp [Nat.digits_ne_nil_iff_ne_zero, h0]
    have hf := foldl_parseBase b letbase hb hl (Nat.digits b n)
      (fun d hd => Nat.digits_lt_base (by omega) hd)
    rw [Nat.ofDigits_digits] at hf
    cases hc : (Nat.digits b n).reverse.map
        (fun d => if d < 10 then d + 48 else d - 10 + letbase) with
    | nil => exact absurd hc hne
    | cons c cs =>
      rw [hc] at hf
      exact hf

theorem noLeadingZero_unsignedText (b letbase : Nat) (hl : 57 < letbase) (n : Nat) :
    noLeadingZero (unsignedText b letbase n) := by
  unfold unsignedText noLeadingZero
  by_cases h0 : n = 0
  · simp [h0]
  · right
    rw [if_neg h0]
    have h1 := Nat.getLast_digit_ne_zero b h0
    have h2 : Nat.digits b n ≠ [] := Nat.digits_ne_nil_iff_ne_zero.mpr h0
    simp only [List.head?_map, List.head?_reverse]
    rw [List.getLast?_eq_getLast _ h2]
    simp only [Option.map_some', ne_eq, Option.some.injEq]
    split <;> omega

theorem TinyPrintf_percent_int (cfg : Config) (c : Nat) (b sg letbase : Int) (a : Int)
    (hc : (c = 100 ∧ b = 10 ∧ sg = 1 ∧ letbase = 97) ∨ (c = 117 ∧ b = 10 ∧ sg = 0 ∧ letbase = 97) ∨
      (c = 120 ∧ b = 16 ∧ sg = 0 ∧ letbase = 97) ∨ (c = 88 ∧ b = 16 ∧ sg = 0 ∧ letbase = 65)) :
    TinyPrintf cfg logChar [] [37, c, 0] [Arg.int a] =
      (integerOut 32 12 (toSigned 32 a) b sg 0 0 letbase).map
        fun out => (out, (out.length : Int)) := by
  rcases hc with ⟨rfl, rfl, rfl, rfl⟩ | ⟨rfl, rfl, rfl, rfl⟩ | ⟨rfl, rfl, rfl, rfl⟩ |
    ⟨rfl, rfl, rfl, rfl⟩ <;>
  · simp [TinyPrintf, TinyPrintfLoop, directive, parseMinus, zeroLoop, numberLoop,
      parsePrecision, parseLength, dispatch, printIntArg, va_arg_int,
      FORMAT_LONG_LONG, TinyPrintInteger, TINY_PRINT_INTEGER_eq, map_map, bind_map]
    generalize integerOut 32 12 (toSigned 32 a) _ _ 0 0 _ = r
    cases r <;> simp [emit_logChar, TinyPrintfLoop]

/-- C11: for every 32 bit argument `a`, with no flags and no width, `"%u"` emits the decimal
digits of `a mod 2 ^ 32`, `"%x"` its base 16 digits with `'a'`..`'f'` and `"%X"` the same
digits with `'A'`..`'F'`; each text has no sign and no leading zero and reads back, in its
base, as `a mod 2 ^ 32`. -/
theorem C11_unsigned_conversions (cfg : Config) (a : Int) :
    (TinyPrintf cfg logChar [] (cstr "%u") [Arg.int a] =
        .ok (unsignedText 10 97 (a % 2 ^ 32).toNat,
          ((unsignedText 10 97 (a % 2 ^ 32).toNat).length : Int)) ∧
      parseBase 10 97 (unsignedText 10 97 (a % 2 ^ 32).toNat) = some (a % 2 ^ 32).toNat ∧
      noLeadingZero (unsignedText 10 97 (a % 2 ^ 32).toNat)) ∧
    (TinyPrintf cfg logChar [] (cstr "%x") [Arg.int a] =
        .ok (unsignedText 16 97 (a % 2 ^ 32).toNat,
          ((unsignedText 16 97 (a % 2 ^ 32).toNat).length : Int)) ∧
      parseBase 16 97 (unsignedText 16 97 (a % 2 ^ 32).toNat) = some (a % 2 ^ 32).toNat ∧
      noLeadingZero (unsignedText 16 97 (a % 2 ^ 32).toNat)) ∧
    (TinyPrintf cfg logChar [] (cstr "%X") [Arg.int a] =
        .ok (unsignedText 16 65 (a % 2 ^ 32).toNat,
          ((unsignedText 16 65 (a % 2 ^ 32).toNat).length : Int)) ∧
      parseBase 16 65 (unsignedText 16 65 (a % 2 ^ 32).toNat) = some (a % 2 ^ 32).toNat ∧
      noLeadingZero (unsignedText 16 65 (a % 2 ^ 32).toNat)) := by
  have hu : (a % 2 ^ 32).toNat = toUnsigned 32 a := rfl
  have key : ∀ (c b letbase : Nat), (c = 117 ∧ b = 10 ∧ letbase = 97) ∨
      (c = 120 ∧ b = 16 ∧ letbase = 97) ∨ (c = 88 ∧ b = 16 ∧ letbase = 65) →
      TinyPrintf cfg logChar [] [37, c, 0] [Arg.int a] =
        .ok (unsignedText b letbase (a % 2 ^ 32).toNat,
          ((unsignedText b letbase (a % 2 ^ 32).toNat).length : Int)) := by
    intro c b letbase h
    rw [TinyPrintf_percent_int cfg c b 0 letbase a (by
        rcases h with ⟨rfl, rfl, rfl⟩ | ⟨rfl, rfl, rfl⟩ | ⟨rfl, rfl, rfl⟩ <;> simp),
      integerOut_unsigned a b letbase (by omega) (by omega) (by omega), map_ok,
      paddedText_of_le _ _ _ (by positivity), hu]
  exact ⟨⟨key 117 10 97 (by simp), parseBase_unsignedText 10 97 (by norm_num) (by norm_num)
      (by norm_num) _, noLeadingZero_unsignedText 10 97 (by norm_num) _⟩,
    ⟨key 120 16 97 (by simp), parseBase_unsignedText 16 97 (by norm_num) (by norm_num)
      (by norm_num) _, noLeadingZero_unsignedText 16 97 (by norm_num) _⟩,
    ⟨key 88 16 65 (by simp), parseBase_unsignedText 16 65 (by norm_num) (by norm_num)
      (by norm_num) _, noLeadingZero_unsignedText 16 65 (by norm_num) _⟩⟩

/-- Examples for C11: the argument `-1` and the argument `48879`. -/
theorem unsigned_conversions_examples :
    TinyPrintf cfg0 logChar [] (cstr "%u|%x|%X") [Arg.int (-1), Arg.int (-1), Arg.int 48879] =
      .ok (bytes "4294967295|ffffffff|BEEF", 24) := rfl

theorem not_mem_paddedText (c : Nat) (t : List Nat) (width : Int) (options : Nat)
    (h1 : c ∉ t) (h2 : c ≠ 48) (h3 : c ≠ 32) : c ∉ paddedText t width options := by
  unfold paddedText
  generalize hp : (if width > 0 ∧ options &&& FORMAT_PAD_ZERO ≠ 0 then 48 else 32) = padchar
  have hpc : c ≠ padchar := by
    rw [← hp]; split <;> omega
  have : ∀ n, c ∉ List.replicate n padchar := fun n hm => hpc (List.eq_of_mem_replicate hm)
  by_cases hr : options &&& FORMAT_PAD_RIGHT = 0
  · simp only [hr, if_true, List.mem_append, not_or]
    exact ⟨this _, h1⟩
  · simp only [hr, if_false, List.mem_append, not_or]
    exact ⟨h1, this _⟩

/-- C12: for the value 0, every base, signed or unsigned, every width, flag set and letter
base, both instantiations of the Integer Renderer do what `TinyPrintString` does for the text
`"0"` with that width and those flags; the bytes sent are `'0'` and its padding, and no `'-'`
is among them. -/
theorem C12_zero_value {σ : Type} (printchar : σ → Nat → σ) (ctx : σ) (b : Int) (sg : Int)
    (width : Int) (options : Nat) (letbase : Int) :
    TinyPrintInteger printchar ctx 0 b sg width options letbase =
      TinyPrintString printchar ctx (cstr "0") width options ∧
    TinyPrintIntegerLongLong printchar ctx 0 b sg width options letbase =
      TinyPrintString printchar ctx (cstr "0") width options ∧
    TinyPrintString printchar ctx (cstr "0") width options =
      .ok (emit printchar ctx (paddedText (bytes "0") width options)) ∧
    45 ∉ paddedText (bytes "0") width options := by
  refine ⟨rfl, rfl, ?_, ?_⟩
  · rw [TinyPrintString_eq, show cstr "0" = [48] ++ 0 :: [] from rfl,
      stringOut_text _ _ (by simp)]
    rfl
  · exact not_mem_paddedText 45 _ _ _ (by decide) (by norm_num) (by norm_num)

/-- Examples for C12: the value 0 through `"%5d"`, `"%-5u"`, `"%05x"`, `"%X"` and `"%lld"`. -/
theorem zero_value_examples :
    TinyPrintf cfg0 logChar [] (cstr "%5d|%-5u|%05x|%X|%lld")
        [Arg.int 0, Arg.int 0, Arg.int 0, Arg.int 0, Arg.longlong 0] =
      .ok (bytes "    0|0    |00000|0|0", 21) := rfl

theorem TinyPrintfLoop_fuel_irrel {σ : Type} (cfg : Config) (printchar : σ → Nat → σ)
    (fuel1 : Nat) :
    ∀ (fuel2 : Nat) (format : List Nat) (args : List Arg) (ctx : σ) (pc : Int),
      format.length < fuel1 → format.length < fuel2 →
      TinyPrintfLoop cfg printchar fuel1 format args ctx pc =
        TinyPrintfLoop cfg printchar fuel2 format args ctx pc := by
  induction fuel1 with
  | zero => intro fuel2 format args ctx pc h; omega
  | succ fuel1 ih =>
    intro fuel2 format args ctx pc h1 h2
    cases fuel2 with
    | zero => omega
    | succ fuel2 =>
      cases format with
      | nil => simp [TinyPrintfLoop]
      | cons c format =>
        simp only [List.length_cons] at h1 h2
        simp only [TinyPrintfLoop]
        split
        · rfl
        split
        · cases format with
          | nil => rfl
          | cons c1 format1 =>
            simp only [List.length_cons] at h1 h2
            simp only []
            split
            · rfl
            split
            · exact ih _ _ _ _ _ (by omega) (by omega)
            · cases hd : directive cfg printchar ctx (c1 :: format1) args with
              | error e => rfl
              | ok r =>
                have := directive_length _ _ _ _ _ _ hd
                simp only [List.length_cons] at this
                simp only []
                refine ih _ _ _ _ _ ?_ ?_ <;> rw [List.length_tail] <;> omega
        · exact ih _ _ _ _ _ (by omega) (by omega)

theorem TinyPrintfLoop_eq_scan {σ : Type} (cfg : Config) (printchar : σ → Nat → σ)
    (fuel : Nat) (format : List Nat) (args : List Arg) (ctx : σ) (pc : Int)
    (h : format.length < fuel) :
    TinyPrintfLoop cfg printchar fuel format args ctx pc =
      scan cfg printchar format args ctx pc :=
  TinyPrintfLoop_fuel_irrel cfg printchar fuel _ format args ctx pc h (Nat.lt_succ_self _)

theorem TinyPrintf_eq_scan {σ : Type} (cfg : Config) (printchar : σ → Nat → σ) (ctx : σ)
    (format : List Nat) (args : List Arg) :
    TinyPrintf cfg printchar ctx format args =
      (scan cfg printchar format args ctx 0).map fun r => (r.1, r.2.1) := rfl

theorem scan_nil {σ : Type} (cfg : Config) (printchar : σ → Nat → σ) (args : List Arg)
    (ctx : σ) (pc : Int) : scan cfg printchar [] args ctx pc = .error .readPastEnd := rfl

theorem scan_zero {σ : Type} (cfg : Config) (printchar : σ → Nat → σ) (format : List Nat)
    (args : List Arg) (ctx : σ) (pc : Int) :
    scan cfg printchar (0 :: format) args ctx pc = .ok (ctx, pc, args) := by
  simp [scan, TinyPrintfLoop]

theorem scan_literal {σ : Type} (cfg : Config) (printchar : σ → Nat → σ) (c : Nat)
    (format : List Nat) (args : List Arg) (ctx : σ) (pc : Int) (h0 : c ≠ 0) (h37 : c ≠ 37) :
    scan cfg printchar (c :: format) args ctx pc =
      scan cfg printchar format args (printchar ctx c) (pc + 1) := by
  simp only [scan, List.length_cons, TinyPrintfLoop, h0, h37, if_false]

theorem scan_percent_nil {σ : Type} (cfg : Config) (printchar : σ → Nat → σ)
    (args : List Arg) (ctx : σ) (pc : Int) :
    scan cfg printchar [37] args ctx pc = .error .readPastEnd := by
  simp [scan, TinyPrintfLoop]

theorem scan_percent_zero {σ : Type} (cfg : Config) (printchar : σ → Nat → σ)
    (format : List Nat) (args : List Arg) (ctx : σ) (pc : Int) :
    scan cfg printchar (37 :: 0 :: format) args ctx pc = .ok (ctx, pc, args) := by
  simp [scan, TinyPrintfLoop]

theorem scan_percent_percent {σ : Type} (cfg : Config) (printchar : σ → Nat → σ)
    (format : List Nat) (args : List Arg) (ctx : σ) (pc : Int) :
    scan cfg printchar (37 :: 37 :: format) args ctx pc =
      scan cfg printchar format args (printchar ctx 37) (pc + 1) := by
  simp only [scan, List.length_cons, TinyPrintfLoop]
  simp only [Nat.reduceEqDiff, if_false, if_true]
  exact TinyPrintfLoop_eq_scan cfg printchar _ _ _ _ _ (by omega)

theorem directive_eq_parse {σ : Type} (cfg : Config) (printchar : σ → Nat → σ) (ctx : σ)
    (format : List Nat) (args : List Arg) :
    directive cfg printchar ctx format args =
      parseDirective format >>= fun d =>
        (dispatch cfg printchar ctx args d.1.headI d.2.1 d.2.2.1 d.2.2.2).map
          fun r => (d.1, r.1, r.2.1, r.2.2) := by
  unfold directive parseDirective
  cases parseMinus format with
  | error e => rfl
  | ok p1 =>
    simp only [ok_bind]
    cases zeroLoop p1.1 p1.2 with
    | error e => rfl
    | ok p2 =>
      simp only [ok_bind]
      cases numberLoop p2.1 0 with
      | error e => rfl
      | ok p3 =>
        simp only [ok_bind]
        cases parsePrecision p3.1 4 with
        | error e => rfl
        | ok p4 =>
          simp only [ok_bind]
          cases parseLength p4.1 p2.2 with
          | error e => rfl
          | ok p5 =>
            simp only [ok_bind]
            cases p5.1 with
            | nil => rfl
            | cons c rest => rfl

/-- One step of the scan at a directive other than `"%%"`: the flags, width, precision and
length modifier are read, the conversion selected by the next character runs, and the scan
goes on behind that character. -/
theorem scan_directive {σ : Type} (cfg : Config) (printchar : σ → Nat → σ) (c1 : Nat)
    (format1 : List Nat) (args : List Arg) (ctx : σ) (pc : Int) (h0 : c1 ≠ 0) (h37 : c1 ≠ 37)
    (c : Nat) (rest : List Nat) (width : Int) (options : Nat) (precision : Int)
    (hp : parseDirective (c1 :: format1) = .ok (c :: rest, width, options, precision)) :
    scan cfg printchar (37 :: c1 :: format1) args ctx pc =
      dispatch cfg printchar ctx args c width options precision >>= fun r =>
        scan cfg printchar rest r.2.2 r.1 (pc + r.2.1) := by
  simp only [scan, List.length_cons, TinyPrintfLoop]
  simp only [Nat.reduceEqDiff, if_false, if_true, h0, h37]
  have hd := directive_eq_parse cfg printchar ctx (c1 :: format1) args
  rw [hp] at hd
  simp only [ok_bind, List.headI_cons] at hd
  rw [hd]
  cases hdis : dispatch cfg printchar ctx args c width options precision with
  | error e => rfl
  | ok r =>
    simp only [map_ok, ok_bind, List.tail_cons]
    refine TinyPrintfLoop_eq_scan cfg printchar _ _ _ _ _ ?_
    have hl : (c :: rest).length ≤ (c1 :: format1).length := by
      have := directive_length cfg printchar ctx (c1 :: format1) args
        (c :: rest, r.1, r.2.1, r.2.2) (by rw [hd, hdis]; rfl)
      exact this.2
    simp only [List.length_cons] at hl
    omega

theorem parseDirective_eq_parseFlags (format : List Nat) :
    parseDirective format =
      parseFlags format >>= fun f =>
      parseLength f.1 f.2.2.1 >>= fun p5 =>
      match p5.1 with
      | [] => .error .readPastEnd
      | c :: rest => .ok (c :: rest, f.2.1, p5.2, f.2.2.2) := by
  unfold parseDirective parseFlags
  cases parseMinus format with
  | error e => rfl
  | ok p1 =>
    simp only [ok_bind]
    cases zeroLoop p1.1 p1.2 with
    | error e => rfl
    | ok p2 =>
      simp only [ok_bind]
      cases numberLoop p2.1 0 with
      | error e => rfl
      | ok p3 =>
        simp only [ok_bind]
        cases parsePrecision p3.1 4 with
        | error e => rfl
        | ok p4 => rfl

theorem zeroLoop_replicate (zeros : Nat) (l : List Nat) (options : Nat) (hne : l ≠ [])
    (hl : l.head? ≠ some 48) :
    zeroLoop (List.replicate zeros 48 ++ l) options =
      .ok (l, if zeros = 0 then options else options ||| FORMAT_PAD_ZERO) := by
  induction zeros generalizing options with
  | zero =>
    cases l with
    | nil => exact absurd rfl hne
    | cons c l =>
      have : ¬ c = 48 := by simpa using hl
      simp [zeroLoop, this]
  | succ z ih =>
    rw [List.replicate_succ, List.cons_append]
    simp only [zeroLoop, if_true]
    rw [ih]
    by_cases hz : z = 0
    · simp [hz]
    · simp [hz, Nat.or_assoc]

theorem parseFlags_flagsText (minus : Bool) (zeros : Nat) (width : List Nat)
    (precision : Option (List Nat)) (x : Nat) (rest : List Nat)
    (hwf : flagsWellFormed width precision) (hx : endsFlags x) :
    parseFlags (flagsText minus zeros width precision ++ x :: rest) =
      .ok (x :: rest, decimalValue width, flagsOptions minus zeros, flagsPrecision precision) := by
  obtain ⟨hw1, hw2, hp⟩ := hwf
  obtain ⟨hx45, hx46, hxd⟩ := hx
  -- the text behind the '-' flag
  have htail : ∀ o : Nat,
      (zeroLoop (List.replicate zeros 48 ++ (width ++ (precisionText precision ++ x :: rest))) o
        >>= fun p2 =>
        numberLoop p2.1 0 >>= fun p3 =>
        parsePrecision p3.1 4 >>= fun p4 =>
        (Except.ok (p4.1, p3.2, p2.2, p4.2) : Except Fault (List Nat × Int × Nat × Int))) =
      .ok (x :: rest, decimalValue width,
        (if zeros = 0 then o else o ||| FORMAT_PAD_ZERO), flagsPrecision precision) := by
    intro o
    have hne : width ++ (precisionText precision ++ x :: rest) ≠ [] := by
      cases width <;> cases precision <;> simp [precisionText]
    have hhead : (width ++ (precisionText precision ++ x :: rest)).head? ≠ some 48 := by
      cases width with
      | nil =>
        cases precision with
        | none =>
          simp only [precisionText, List.nil_append, List.head?_cons, ne_eq, Option.some.injEq]
          intro h; rw [h] at hxd; simp [isDigit] at hxd
        | some p => simp [precisionText]
      | cons c w => simpa using hw2
    rw [zeroLoop_replicate zeros _ o hne hhead]
    simp only [ok_bind]
    cases precision with
    | none =>
      simp only [precisionText, List.nil_append]
      rw [numberLoop_digits width x rest 0 hw1 hxd]
      simp [parsePrecision, hx46, decimalValue, flagsPrecision]
    | some p =>
      simp only [precisionText, List.cons_append]
      rw [numberLoop_digits width 46 (p ++ x :: rest) 0 hw1 (by decide)]
      simp only [ok_bind, parsePrecision, if_true]
      rw [numberLoop_digits p x rest 0 (hp p rfl) hxd]
      simp [decimalValue, flagsPrecision]
  unfold parseFlags flagsText
  cases minus
  · have h1 : parseMinus (([] : List Nat) ++ (List.replicate zeros 48 ++ (width ++
        precisionText precision)) ++ x :: rest) =
        .ok (List.replicate zeros 48 ++ (width ++ (precisionText precision ++ x :: rest)), 0) := by
      simp only [List.nil_append, List.append_assoc]
      cases hc : List.replicate zeros 48 ++ (width ++ (precisionText precision ++ x :: rest)) with
      | nil => simp at hc
      | cons c l =>
        have hc45 : c ≠ 45 := by
          cases zeros with
          | succ z => simp [List.replicate_succ] at hc; omega
          | zero =>
            cases width with
            | cons d w =>
              simp at hc hw1
              have := hw1.1
              simp [isDigit] at this
              omega
            | nil =>
              cases precision with
              | none => simp [precisionText] at hc; omega
              | some p => simp [precisionText] at hc; omega
        simp [parseMinus, hc45]
    simp only [Bool.false_eq_true, if_false]
    rw [h1]
    simp only [ok_bind, htail, flagsOptions, Bool.false_eq_true, if_false]
  · have h1 : parseMinus (([45] : List Nat) ++ (List.replicate zeros 48 ++ (width ++
        precisionText precision)) ++ x :: rest) =
        .ok (List.replicate zeros 48 ++ (width ++ (precisionText precision ++ x :: rest)),
          FORMAT_PAD_RIGHT) := by
      simp [parseMinus]
    simp only [if_true]
    rw [h1]
    simp only [ok_bind, htail, flagsOptions, if_true]

theorem parseDirective_flagsText (minus : Bool) (zeros : Nat) (width : List Nat)
    (precision : Option (List Nat)) (c : Nat) (rest : List Nat)
    (hwf : flagsWellFormed width precision) (hc : endsFlags c) (hl : c ≠ 108) :
    parseDirective (flagsText minus zeros width precision ++ c :: rest) =
      .ok (c :: rest, decimalValue width, flagsOptions minus zeros, flagsPrecision precision) := by
  rw [parseDirective_eq_parseFlags, parseFlags_flagsText _ _ _ _ _ _ hwf hc]
  simp [parseLength, hl]

theorem parseDirective_flagsText_l (minus : Bool) (zeros : Nat) (width : List Nat)
    (precision : Option (List Nat)) (c : Nat) (rest : List Nat)
    (hwf : flagsWellFormed width precision) (hl : c ≠ 108) :
    parseDirective (flagsText minus zeros width precision ++ 108 :: c :: rest) =
      .ok (c :: rest, decimalValue width, flagsOptions minus zeros, flagsPrecision precision) := by
  rw [parseDirective_eq_parseFlags,
    parseFlags_flagsText _ _ _ _ _ _ hwf ⟨by norm_num, by norm_num, by decide⟩]
  simp [parseLength, hl]

theorem parseDirective_flagsText_ll (minus : Bool) (zeros : Nat) (width : List Nat)
    (precision : Option (List Nat)) (c : Nat) (rest : List Nat)
    (hwf : flagsWellFormed width precision) :
    parseDirective (flagsText minus zeros width precision ++ 108 :: 108 :: c :: rest) =
      .ok (c :: rest, decimalValue width, flagsOptions minus zeros ||| FORMAT_LONG_LONG,
        flagsPrecision precision) := by
  rw [parseDirective_eq_parseFlags,
    parseFlags_flagsText _ _ _ _ _ _ hwf ⟨by norm_num, by norm_num, by decide⟩]
  simp [parseLength]

theorem flagsText_head (minus : Bool) (zeros : Nat) (width : List Nat)
    (precision : Option (List Nat)) (x : Nat) (rest : List Nat)
    (hwf : flagsWellFormed width precision) (hx0 : x ≠ 0) (hx37 : x ≠ 37) :
    ∃ c1 format1, flagsText minus zeros width precision ++ x :: rest = c1 :: format1 ∧
      c1 ≠ 0 ∧ c1 ≠ 37 := by
  unfold flagsText
  cases minus
  · cases zeros with
    | succ z =>
      exact ⟨48, List.replicate z 48 ++ (width ++ (precisionText precision ++ x :: rest)),
        by simp [List.replicate_succ], by norm_num, by norm_num⟩
    | zero =>
      cases width with
      | cons d w =>
        have hd : isDigit d = true := by
          have := hwf.1; simp at this; exact this.1
        simp [isDigit] at hd
        exact ⟨d, w ++ (precisionText precision ++ x :: rest), by simp, by omega, by omega⟩
      | nil =>
        cases precision with
        | none => exact ⟨x, rest, by simp [precisionText], hx0, hx37⟩
        | some p =>
          exact ⟨46, p ++ x :: rest, by simp [precisionText], by norm_num, by norm_num⟩
  · exact ⟨45, List.replicate zeros 48 ++ (width ++ (precisionText precision ++ x :: rest)),
      by simp, by norm_num, by norm_num⟩

/-- The scan step at a directive given by its text: flags, width and precision, then the
conversion character `c`, which is not `'l'`. -/
theorem scan_flagsText {σ : Type} (cfg : Config) (printchar : σ → Nat → σ) (minus : Bool)
    (zeros : Nat) (width : List Nat) (precision : Option (List Nat)) (c : Nat) (rest : List Nat)
    (args : List Arg) (ctx : σ) (pc : Int)
    (hwf : flagsWellFormed width precision) (hc : endsFlags c) (hl : c ≠ 108) (hc0 : c ≠ 0)
    (hc37 : c ≠ 37) :
    scan cfg printchar (37 :: (flagsText minus zeros width precision ++ c :: rest)) args ctx pc =
      dispatch cfg printchar ctx args c (decimalValue width) (flagsOptions minus zeros)
          (flagsPrecision precision) >>= fun r =>
        scan cfg printchar rest r.2.2 r.1 (pc + r.2.1) := by
  obtain ⟨c1, format1, he, h0, h37⟩ := flagsText_head minus zeros width precision c rest hwf hc0 hc37
  have hp := parseDirective_flagsText minus zeros width precision c rest hwf hc hl
  rw [he] at hp ⊢
  exact scan_directive cfg printchar c1 format1 args ctx pc h0 h37 c rest _ _ _ hp

/-- The scan step at a directive with a single `'l'` before the conversion character. -/
theorem scan_flagsText_l {σ : Type} (cfg : Config) (printchar : σ → Nat → σ) (minus : Bool)
    (zeros : Nat) (width : List Nat) (precision : Option (List Nat)) (c : Nat) (rest : List Nat)
    (args : List Arg) (ctx : σ) (pc : Int)
    (hwf : flagsWellFormed width precision) (hl : c ≠ 108) :
    scan cfg printchar (37 :: (flagsText minus zeros width precision ++ 108 :: c :: rest))
        args ctx pc =
      dispatch cfg printchar ctx args c (decimalValue width) (flagsOptions minus zeros)
          (flagsPrecision precision) >>= fun r =>
        scan cfg printchar rest r.2.2 r.1 (pc + r.2.1) := by
  obtain ⟨c1, format1, he, h0, h37⟩ := flagsText_head minus zeros width precision 108
    (c :: rest) hwf (by norm_num) (by norm_num)
  have hp := parseDirective_flagsText_l minus zeros width precision c rest hwf hl
  rw [he] at hp ⊢
  exact scan_directive cfg printchar c1 format1 args ctx pc h0 h37 c rest _ _ _ hp

theorem dispatch_s_null {σ : Type} (cfg : Config) (printchar : σ → Nat → σ) (ctx : σ)
    (args : List Arg) (width : Int) (options : Nat) (precision : Int) :
    dispatch cfg printchar ctx (Arg.str none :: args) 115 width options precision =
      (TinyPrintString printchar ctx nullText width options).map
        fun r => (r.1, r.2, args) := by
  simp [dispatch, va_arg_str]

theorem dispatch_s_text {σ : Type} (cfg : Config) (printchar : σ → Nat → σ) (ctx : σ)
    (s : List Nat) (args : List Arg) (width : Int) (options : Nat) (precision : Int)
    (hptr : cfg.sizeofVoidPtr ≤ 4) :
    dispatch cfg printchar ctx (Arg.str (some s) :: args) 115 width options precision =
      (TinyPrintString printchar ctx s width options).map
        fun r => (r.1, r.2, args) := by
  simp [dispatch, va_arg_str, hptr]

/-- C13, amended: for every flags, width and precision written in the directive, `%s` with
a null text argument sends the six characters `"(null)"` with the padding of the directive,
counts them and takes the one argument; and on a build whose pointers are no wider than
`int` it does what it does with a pointer to the text `"(null)"`. -/
theorem C13_null_text {σ : Type} (cfg : Config) (printchar : σ → Nat → σ) (minus : Bool)
    (zeros : Nat) (width : List Nat) (precision : Option (List Nat)) (rest : List Nat)
    (args : List Arg) (ctx : σ) (pc : Int) (hwf : flagsWellFormed width precision) :
    scan cfg printchar (37 :: (flagsText minus zeros width precision ++ 115 :: rest))
        (Arg.str none :: args) ctx pc =
      scan cfg printchar rest args
        (List.foldl printchar ctx
          (paddedText (bytes "(null)") (decimalValue width) (flagsOptions minus zeros)))
        (pc + ((paddedText (bytes "(null)") (decimalValue width)
          (flagsOptions minus zeros)).length : Int)) ∧
    (cfg.sizeofVoidPtr ≤ 4 →
      scan cfg printchar (37 :: (flagsText minus zeros width precision ++ 115 :: rest))
          (Arg.str none :: args) ctx pc =
        scan cfg printchar (37 :: (flagsText minus zeros width precision ++ 115 :: rest))
          (Arg.str (some (cstr "(null)")) :: args) ctx pc) := by
  have hnull : scan cfg printchar (37 :: (flagsText minus zeros width precision ++ 115 :: rest))
        (Arg.str none :: args) ctx pc =
      scan cfg printchar rest args
        (List.foldl printchar ctx
          (paddedText (bytes "(null)") (decimalValue width) (flagsOptions minus zeros)))
        (pc + ((paddedText (bytes "(null)") (decimalValue width)
          (flagsOptions minus zeros)).length : Int)) := by
    rw [scan_flagsText cfg printchar minus zeros width precision 115 rest _ ctx pc hwf
      ⟨by norm_num, by norm_num, by decide⟩ (by norm_num) (by norm_num) (by norm_num),
      dispatch_s_null, TinyPrintString_eq,
      show nullText = bytes "(null)" ++ 0 :: [] from rfl, stringOut_text _ _ (by decide)]
    rfl
  refine ⟨hnull, fun hptr => ?_⟩
  rw [hnull, scan_flagsText cfg printchar minus zeros width precision 115 rest _ ctx pc hwf
      ⟨by norm_num, by norm_num, by decide⟩ (by norm_num) (by norm_num) (by norm_num),
      dispatch_s_text cfg printchar ctx _ args _ _ _ hptr, TinyPrintString_eq,
      show cstr "(null)" = bytes "(null)" ++ 0 :: [] from rfl, stringOut_text _ _ (by decide)]
  rfl

/-- The witness of C13, amended: `"%-8s|%08s|%s"` with three null arguments; a width that
the `int` variable does not hold gives no padding. -/
theorem C13_null_text_witness :
    TinyPrintf cfg0 logChar [] (cstr "%-8s|%08s|%s") [Arg.str none, Arg.str none, Arg.str none] =
      .ok (bytes "(null)  |00(null)|(null)", 24) ∧
    TinyPrintf cfg0 logChar [] (cstr "%2147483648s") [Arg.str none] = .ok (bytes "(null)", 6) ∧
    flagsText true 0 (bytes "8") none = bytes "-8" ∧
    cfg0.sizeofVoidPtr ≤ 4 ∧
    scan cfg0 logChar (37 :: (flagsText true 0 (bytes "8") none ++ 115 :: [0]))
        (Arg.str none :: []) [] 0 =
      scan cfg0 logChar [0] []
        (List.foldl logChar []
          (paddedText (bytes "(null)") (decimalValue (bytes "8")) (flagsOptions true 0)))
        (0 + ((paddedText (bytes "(null)") (decimalValue (bytes "8"))
          (flagsOptions true 0)).length : Int)) ∧
    scan cfg0 logChar (37 :: (flagsText true 0 (bytes "8") none ++ 115 :: [0]))
        (Arg.str none :: []) [] 0 =
      scan cfg0 logChar (37 :: (flagsText true 0 (bytes "8") none ++ 115 :: [0]))
        (Arg.str (some (cstr "(null)")) :: []) [] 0 :=
  ⟨by decide!, by decide!, by decide!, by decide,
    (C13_null_text cfg0 logChar true 0 (bytes "8") none [0] [] [] 0
      ⟨by decide, by decide, by simp⟩).1,
    (C13_null_text cfg0 logChar true 0 (bytes "8") none [0] [] [] 0
      ⟨by decide, by decide, by simp⟩).2 (by decide)⟩

/-- C13 as stated fails on a build whose pointers are wider than `int`: with 8 byte
pointers `%s` with a null argument sends `"(null)"`, and `%s` with a pointer to the text
`"(null)"` reads only 32 bits of that pointer. -/
theorem C13_counterexample :
    TinyPrintf { cfg0 with sizeofVoidPtr := 8 } logChar [] (cstr "%s") [Arg.str none] =
      .ok (bytes "(null)", 6) ∧
    TinyPrintf { cfg0 with sizeofVoidPtr := 8 } logChar [] (cstr "%s")
      [Arg.str (some (cstr "(null)"))] = .error .pointerThroughInt ∧
    TinyPrintf { cfg0 with sizeofVoidPtr := 8 } logChar [] (cstr "%s") [Arg.str none] ≠
      TinyPrintf { cfg0 with sizeofVoidPtr := 8 } logChar [] (cstr "%s")
        [Arg.str (some (cstr "(null)"))] := by
  decide!

theorem parseDirective_zero (format : List Nat) :
    parseDirective (0 :: format) = .ok (0 :: format, 0, 0, 4) := by
  simp [parseDirective, parseMinus, zeroLoop, numberLoop, parsePrecision, parseLength]

theorem dispatch_unknown {σ : Type} (cfg : Config) (printchar : σ → Nat → σ) (ctx : σ)
    (args : List Arg) (c : Nat) (width : Int) (options : Nat) (precision : Int)
    (hc : c ≠ 115 ∧ c ≠ 100 ∧ c ≠ 120 ∧ c ≠ 88 ∧ c ≠ 112 ∧ c ≠ 117 ∧ c ≠ 99)
    (hf : cfg.TINY_PRINTF_FLOAT = true → c ≠ 102) :
    dispatch cfg printchar ctx args c width options precision = .ok (ctx, 0, args) := by
  obtain ⟨h1, h2, h3, h4, h5, h6, h7⟩ := hc
  have h8 : ¬ (cfg.TINY_PRINTF_FLOAT = true ∧ c = 102) := fun h => hf h.1 h.2
  simp only [dispatch, h1, h2, h3, h4, h5, h6, h7, h8, if_false]

/-- C16, amended: for every directive other than `"%%"` whose character `c` behind the
flags, width, precision and length modifier read by `TinyPrintf` is none of `s`, `d`, `x`,
`X`, `p`, `u`, `c` (nor `f` with `TINY_PRINTF_FLOAT`) and is not the terminator, the scan goes
on behind `c` with the same sink context, the same count and the same arguments. -/
theorem C16_unknown_conversion {σ : Type} (cfg : Config) (printchar : σ → Nat → σ) (c1 : Nat)
    (format1 : List Nat) (args : List Arg) (ctx : σ) (pc : Int) (c : Nat) (rest : List Nat)
    (width : Int) (options : Nat) (precision : Int)
    (h37 : c1 ≠ 37)
    (hp : parseDirective (c1 :: format1) = .ok (c :: rest, width, options, precision))
    (hc : c ≠ 115 ∧ c ≠ 100 ∧ c ≠ 120 ∧ c ≠ 88 ∧ c ≠ 112 ∧ c ≠ 117 ∧ c ≠ 99)
    (hf : cfg.TINY_PRINTF_FLOAT = true → c ≠ 102) (hc0 : c ≠ 0) :
    scan cfg printchar (37 :: c1 :: format1) args ctx pc = scan cfg printchar rest args ctx pc := by
  have h0 : c1 ≠ 0 := by
    intro h
    rw [h, parseDirective_zero] at hp
    simp only [Except.ok.injEq, Prod.mk.injEq, List.cons.injEq] at hp
    exact hc0 hp.1.1.symm
  rw [scan_directive cfg printchar c1 format1 args ctx pc h0 h37 c rest _ _ _ hp,
    dispatch_unknown cfg printchar ctx args c _ _ _ hc hf]
  simp

/-- The witness of C16, amended: `"%-05.2lk"` and, without float support, `"%f"`. -/
theorem C16_unknown_conversion_witness :
    TinyPrintf cfg0 logChar [] (cstr "a%-05.2lkb%5-c%.|d") [] = .ok (bytes "abcd", 4) ∧
    scan cfg0 logChar (37 :: 45 :: (bytes "05.2lkb" ++ [0])) [Arg.int 7] [] 0 =
      scan cfg0 logChar (bytes "b" ++ [0]) [Arg.int 7] [] 0 ∧
    scan { cfg0 with TINY_PRINTF_FLOAT := false } logChar (37 :: 102 :: (bytes "b" ++ [0]))
        [Arg.double 1] [] 0 =
      scan { cfg0 with TINY_PRINTF_FLOAT := false } logChar (bytes "b" ++ [0])
        [Arg.double 1] [] 0 :=
  ⟨rfl,
    C16_unknown_conversion cfg0 logChar 45 (bytes "05.2lkb" ++ [0]) [Arg.int 7] [] 0 107
      (bytes "b" ++ [0]) 5 3 2 (by decide) (by rfl) (by decide) (by decide) (by decide),
    C16_unknown_conversion { cfg0 with TINY_PRINTF_FLOAT := false } logChar 102
      (bytes "b" ++ [0]) [Arg.double 1] [] 0 102 (bytes "b" ++ [0]) 0 0 4 (by decide) (by rfl)
      (by decide) (by decide) (by decide)⟩

/-- C16 as stated fails for the directive `"%%"`: the character behind the (empty) flags,
width, precision and length modifier is `'%'`, which is none of the conversion characters
and not the terminator, and `TinyPrintf` sends a `'%'` and counts it. -/
theorem C16_counterexample :
    ¬ ∀ (c1 : Nat) (format1 : List Nat) (c : Nat) (rest : List Nat) (width : Int)
        (options : Nat) (precision : Int),
        parseDirective (c1 :: format1) = .ok (c :: rest, width, options, precision) →
        (c ≠ 115 ∧ c ≠ 100 ∧ c ≠ 120 ∧ c ≠ 88 ∧ c ≠ 112 ∧ c ≠ 117 ∧ c ≠ 99) →
        c ≠ 102 → c ≠ 0 →
        scan cfg0 logChar (37 :: c1 :: format1) [] [] 0 = scan cfg0 logChar rest [] [] 0 := by
  intro h
  have h1 := h 37 [0] 37 [0] 0 0 4 (by rfl) (by decide) (by decide) (by decide)
  have e1 : scan cfg0 logChar (37 :: 37 :: [0]) [] [] 0 = .ok ([37], 1, []) := rfl
  have e2 : scan cfg0 logChar [0] [] [] 0 = .ok ([], 0, []) := rfl
  rw [e1, e2] at h1
  simp at h1

theorem flagsOptions_and_long (minus : Bool) (zeros : Nat) :
    flagsOptions minus zeros &&& FORMAT_LONG_LONG = 0 := by
  unfold flagsOptions
  cases minus <;> by_cases hz : zeros = 0 <;> simp [hz] <;> decide

/-- C17: for every flags, width and precision written in the directive and every argument
list, a directive with a single `'l'` before `d`, `u`, `x` or `X` does what the directive
without it does: same calls of the sink, same count, same arguments left.  The single `'l'`
leaves the options as they are, without the wide-integer flag; `"ll"` sets it. -/
theorem C17_single_l {σ : Type} (cfg : Config) (printchar : σ → Nat → σ) (minus : Bool)
    (zeros : Nat) (width : List Nat) (precision : Option (List Nat)) (c : Nat)
    (rest : List Nat) (args : List Arg) (ctx : σ) (pc : Int)
    (hwf : flagsWellFormed width precision) (hc : c = 100 ∨ c = 117 ∨ c = 120 ∨ c = 88) :
    scan cfg printchar (37 :: (flagsText minus zeros width precision ++ 108 :: c :: rest))
        args ctx pc =
      scan cfg printchar (37 :: (flagsText minus zeros width precision ++ c :: rest))
        args ctx pc ∧
    parseDirective (flagsText minus zeros width precision ++ c :: rest) =
      .ok (c :: rest, decimalValue width, flagsOptions minus zeros, flagsPrecision precision) ∧
    parseDirective (flagsText minus zeros width precision ++ 108 :: c :: rest) =
      .ok (c :: rest, decimalValue width, flagsOptions minus zeros, flagsPrecision precision) ∧
    flagsOptions minus zeros &&& FORMAT_LONG_LONG = 0 ∧
    parseDirective (flagsText minus zeros width precision ++ 108 :: 108 :: c :: rest) =
      .ok (c :: rest, decimalValue width, flagsOptions minus zeros ||| FORMAT_LONG_LONG,
        flagsPrecision precision) ∧
    (flagsOptions minus zeros ||| FORMAT_LONG_LONG) &&& FORMAT_LONG_LONG ≠ 0 := by
  have hl : c ≠ 108 := by omega
  have he : endsFlags c := by
    rcases hc with rfl | rfl | rfl | rfl <;> exact ⟨by norm_num, by norm_num, by decide⟩
  refine ⟨?_, parseDirective_flagsText _ _ _ _ _ _ hwf he hl,
    parseDirective_flagsText_l _ _ _ _ _ _ hwf hl, flagsOptions_and_long _ _,
    parseDirective_flagsText_ll _ _ _ _ _ _ hwf, ?_⟩
  · rw [scan_flagsText_l cfg printchar minus zeros width precision c rest args ctx pc hwf hl,
      scan_flagsText cfg printchar minus zeros width precision c rest args ctx pc hwf he hl
        (by omega) (by omega)]
  · unfold flagsOptions
    cases minus <;> by_cases hz : zeros = 0 <;> simp [hz] <;> decide

/-- The witness of C17: `"%-6ld|%lu|%lx|%lX"` against `"%-6d|%u|%x|%X"`, and `"%lld"`. -/
theorem C17_single_l_witness :
    TinyPrintf cfg0 logChar [] (cstr "%-6ld|%lu|%lx|%lX|%lld")
        [Arg.int (-5), Arg.int (-5), Arg.int 255, Arg.int 255, Arg.longlong (-5)] =
      .ok (bytes "-5    |4294967291|ff|FF|-5", 26) ∧
    TinyPrintf cfg0 logChar [] (cstr "%-6d|%u|%x|%X")
        [Arg.int (-5), Arg.int (-5), Arg.int 255, Arg.int 255] =
      .ok (bytes "-5    |4294967291|ff|FF", 23) ∧
    flagsText true 0 (bytes "6") none ++ 108 :: 100 :: [0] = bytes "-6ld" ++ [0] ∧
    (scan cfg0 logChar (37 :: (flagsText true 0 (bytes "6") none ++ 108 :: 100 :: [0]))
        [Arg.int (-5)] [] 0 =
      scan cfg0 logChar (37 :: (flagsText true 0 (bytes "6") none ++ 100 :: [0]))
        [Arg.int (-5)] [] 0 ∧
    parseDirective (flagsText true 0 (bytes "6") none ++ 100 :: [0]) =
      .ok (100 :: [0], decimalValue (bytes "6"), flagsOptions true 0, flagsPrecision none) ∧
    parseDirective (flagsText true 0 (bytes "6") none ++ 108 :: 100 :: [0]) =
      .ok (100 :: [0], decimalValue (bytes "6"), flagsOptions true 0, flagsPrecision none) ∧
    flagsOptions true 0 &&& FORMAT_LONG_LONG = 0 ∧
    parseDirective (flagsText true 0 (bytes "6") none ++ 108 :: 108 :: 100 :: [0]) =
      .ok (100 :: [0], decimalValue (bytes "6"), flagsOptions true 0 ||| FORMAT_LONG_LONG,
        flagsPrecision none) ∧
    (flagsOptions true 0 ||| FORMAT_LONG_LONG) &&& FORMAT_LONG_LONG ≠ 0) :=
  ⟨rfl, rfl, rfl, C17_single_l cfg0 logChar true 0 (bytes "6") none 100 [0] [Arg.int (-5)] [] 0
    ⟨by decide, by decide, by simp⟩ (Or.inl rfl)⟩

theorem dispatch_c {σ : Type} (cfg : Config) (printchar : σ → Nat → σ) (ctx : σ) (v : Int)
    (args : List Arg) (width : Int) (options : Nat) (precision : Int) :
    dispatch cfg printchar ctx (Arg.int v :: args) 99 width options precision =
      .ok (printchar ctx (toUnsigned 8 (toSigned 32 v)), 1, args) := by
  simp [dispatch, va_arg_int]

/-- C18: for every character `c` passed as the argument and every `'-'` flag, `'0'` flags,
width and precision written in the directive, `%c` calls the sink once, with `c`, adds 1 to
the count, takes the one argument and sends no padding. -/
theorem C18_char {σ : Type} (cfg : Config) (printchar : σ → Nat → σ) (minus : Bool)
    (zeros : Nat) (width : List Nat) (precision : Option (List Nat)) (c : Nat)
    (rest : List Nat) (args : List Arg) (ctx : σ) (pc : Int)
    (hwf : flagsWellFormed width precision) (hc : c < 256) :
    scan cfg printchar (37 :: (flagsText minus zeros width precision ++ 99 :: rest))
        (Arg.int (c : Int) :: args) ctx pc =
      scan cfg printchar rest args (printchar ctx c) (pc + 1) := by
  have h1 : toSigned 32 (c : Int) = c :=
    toSigned_of_range 32 (by norm_num) _ (by norm_num; omega) (by norm_num; omega)
  have h2 : toUnsigned 8 (c : Int) = c := by
    rw [toUnsigned_of_lt _ _ (by omega) (by norm_num; omega)]
    omega
  rw [scan_flagsText cfg printchar minus zeros width precision 99 rest _ ctx pc hwf
    ⟨by norm_num, by norm_num, by decide⟩ (by norm_num) (by norm_num) (by norm_num),
    dispatch_c, h1, h2]
  rfl

/-- The witness of C18: `"%-05c"`, `"%5c"` and `"%c"` with the argument `'A'`. -/
theorem C18_char_witness :
    TinyPrintf cfg0 logChar [] (cstr "%-05c|%5c|%c") [Arg.int 65, Arg.int 65, Arg.int 65] =
      .ok (bytes "A|A|A", 5) ∧
    flagsText true 1 (bytes "5") none = bytes "-05" ∧
    scan cfg0 logChar (37 :: (flagsText true 1 (bytes "5") none ++ 99 :: [0]))
        (Arg.int ((65 : Nat) : Int) :: []) [] 0 =
      scan cfg0 logChar [0] [] (logChar [] 65) (0 + 1) :=
  ⟨rfl, rfl, C18_char cfg0 logChar true 1 (bytes "5") none 65 [0] [] [] 0
    ⟨by decide, by decide, by simp⟩ (by decide)⟩

theorem scan_literals {σ : Type} (cfg : Config) (printchar : σ → Nat → σ) (f rest : List Nat)
    (args : List Arg) (ctx : σ) (pc : Int) (h0 : 0 ∉ f) (h37 : 37 ∉ f) :
    scan cfg printchar (f ++ rest) args ctx pc =
      scan cfg printchar rest args (List.foldl printchar ctx f) (pc + (f.length : Int)) := by
  induction f generalizing ctx pc with
  | nil => simp
  | cons c f ih =>
    simp only [List.mem_cons, not_or] at h0 h37
    rw [List.cons_append, scan_literal cfg printchar c _ args ctx pc (fun h => h0.1 h.symm)
      (fun h => h37.1 h.symm), ih _ _ h0.2 h37.2]
    simp only [List.foldl_cons, List.length_cons]
    congr 1
    push_cast
    ring

/-- C19: for every format string `f` without a `'%'`, `TinyPrintf` sends the characters of
`f` to the sink, in order, and returns the length of `f`; the scan leaves the argument list
as it was. -/
theorem C19_literal_format {σ : Type} (cfg : Config) (printchar : σ → Nat → σ) (f : List Nat)
    (args : List Arg) (ctx : σ) (h0 : 0 ∉ f) (h37 : 37 ∉ f) :
    TinyPrintf cfg printchar ctx (f ++ [0]) args =
      .ok (List.foldl printchar ctx f, (f.length : Int)) ∧
    scan cfg printchar (f ++ [0]) args ctx 0 =
      .ok (List.foldl printchar ctx f, (f.length : Int), args) := by
  have h := scan_literals cfg printchar f [0] args ctx 0 h0 h37
  rw [scan_zero, zero_add] at h
  exact ⟨by rw [TinyPrintf_eq_scan, h]; rfl, h⟩

/-- The witness of C19: the format `"hello world"` with an argument that is not used. -/
theorem C19_literal_format_witness :
    TinyPrintf cfg0 logChar [] (bytes "hello world" ++ [0]) [Arg.int 7] =
      .ok (List.foldl logChar [] (bytes "hello world"), ((bytes "hello world").length : Int)) ∧
    scan cfg0 logChar (bytes "hello world" ++ [0]) [Arg.int 7] [] 0 =
      .ok (List.foldl logChar [] (bytes "hello world"), ((bytes "hello world").length : Int),
        [Arg.int 7]) :=
  C19_literal_format cfg0 logChar (bytes "hello world") [Arg.int 7] [] (by decide) (by decide)

theorem parseMinus_append (l r : List Nat) (res : List Nat × Nat)
    (h : parseMinus l = .ok res) : parseMinus (l ++ r) = .ok (res.1 ++ r, res.2) := by
  cases l with
  | nil => simp [parseMinus] at h
  | cons c l =>
    simp only [parseMinus, List.cons_append] at h ⊢
    split at h <;> rename_i hc <;> simp only [Except.ok.injEq] at h <;> subst h <;> simp [hc]

theorem zeroLoop_append (l r : List Nat) (o : Nat) (res : List Nat × Nat)
    (h : zeroLoop l o = .ok res) : zeroLoop (l ++ r) o = .ok (res.1 ++ r, res.2) := by
  induction l generalizing o with
  | nil => simp [zeroLoop] at h
  | cons c l ih =>
    simp only [zeroLoop, List.cons_append] at h ⊢
    split at h <;> rename_i hc
    · simp only [hc, if_true]; exact ih _ h
    · simp only [Except.ok.injEq] at h; subst h; simp [hc]

theorem numberLoop_append (l r : List Nat) (w : Int) (res : List Nat × Int)
    (h : numberLoop l w = .ok res) : numberLoop (l ++ r) w = .ok (res.1 ++ r, res.2) := by
  induction l generalizing w with
  | nil => simp [numberLoop] at h
  | cons c l ih =>
    simp only [numberLoop, List.cons_append] at h ⊢
    split at h <;> rename_i hc
    · simp only [hc, and_self, if_true]; exact ih _ h
    · simp only [Except.ok.injEq] at h; subst h; simp [hc]

theorem parsePrecision_append (l r : List Nat) (p : Int) (res : List Nat × Int)
    (h : parsePrecision l p = .ok res) :
    parsePrecision (l ++ r) p = .ok (res.1 ++ r, res.2) := by
  cases l with
  | nil => simp [parsePrecision] at h
  | cons c l =>
    simp only [parsePrecision, List.cons_append] at h ⊢
    split at h <;> rename_i hc
    · simp only [hc, if_true]; exact numberLoop_append _ _ _ _ h
    · simp only [Except.ok.injEq] at h; subst h; simp [hc]

theorem parseLength_append (l r : List Nat) (o : Nat) (res : List Nat × Nat)
    (h : parseLength l o = .ok res) : parseLength (l ++ r) o = .ok (res.1 ++ r, res.2) := by
  cases l with
  | nil => simp [parseLength] at h
  | cons c l =>
    simp only [parseLength, List.cons_append] at h ⊢
    split at h <;> rename_i hc
    · cases l with
      | nil => simp at h
      | cons c2 l2 =>
        simp only [List.cons_append] at h ⊢
        simp only [hc, if_true]
        split at h <;> rename_i hc2 <;> simp only [Except.ok.injEq] at h <;> subst h <;>
          simp [hc2]
    · simp only [Except.ok.injEq] at h; subst h; simp [hc]

theorem parseDirective_append (l r : List Nat) (c : Nat) (rest : List Nat) (width : Int)
    (options : Nat) (precision : Int)
    (h : parseDirective l = .ok (c :: rest, width, options, precision)) :
    parseDirective (l ++ r) = .ok (c :: (rest ++ r), width, options, precision) := by
  unfold parseDirective at h ⊢
  cases h1 : parseMinus l with
  | error e => simp [h1] at h
  | ok p1 =>
    rw [h1] at h
    rw [parseMinus_append l r p1 h1]
    simp only [ok_bind] at h ⊢
    cases h2 : zeroLoop p1.1 p1.2 with
    | error e => simp [h2] at h
    | ok p2 =>
      rw [h2] at h
      rw [zeroLoop_append _ r _ p2 h2]
      simp only [ok_bind] at h ⊢
      cases h3 : numberLoop p2.1 0 with
      | error e => simp [h3] at h
      | ok p3 =>
        rw [h3] at h
        rw [numberLoop_append _ r _ p3 h3]
        simp only [ok_bind] at h ⊢
        cases h4 : parsePrecision p3.1 4 with
        | error e => simp [h4] at h
        | ok p4 =>
          rw [h4] at h
          rw [parsePrecision_append _ r _ p4 h4]
          simp only [ok_bind] at h ⊢
          cases h5 : parseLength p4.1 p2.2 with
          | error e => simp [h5] at h
          | ok p5 =>
            rw [h5] at h
            rw [parseLength_append _ r _ p5 h5]
            simp only [ok_bind] at h ⊢
            cases h6 : p5.1 with
            | nil => simp [h6] at h
            | cons c' rest' =>
              simp only [h6, Except.ok.injEq, Prod.mk.injEq, List.cons.injEq] at h
              obtain ⟨⟨rfl, rfl⟩, rfl, rfl, rfl⟩ := h
              simp

theorem except_bind_assoc {α β γ : Type} (x : Except Fault α) (f : α → Except Fault β)
    (g : β → Except Fault γ) : (x >>= f) >>= g = x >>= fun a => f a >>= g := by
  cases x <;> rfl

/-- The scan of a format that starts with a text `p` which does not end inside a directive
is the scan of `p` alone, followed by the scan of the rest from the state reached. -/
theorem scan_append {σ : Type} (cfg : Config) (printchar : σ → Nat → σ) (rest : List Nat)
    (fuel : Nat) :
    ∀ (p : List Nat) (args : List Arg) (ctx : σ) (pc : Int), endsAtBoundary fuel p = true →
      scan cfg printchar (p ++ rest) args ctx pc =
        scan cfg printchar (p ++ [0]) args ctx pc >>= fun r =>
          scan cfg printchar rest r.2.2 r.1 r.2.1 := by
  induction fuel with
  | zero => intro p args ctx pc h; simp [endsAtBoundary] at h
  | succ fuel ih =>
    intro p args ctx pc h
    cases p with
    | nil => simp [scan_zero]
    | cons c f =>
      simp only [endsAtBoundary] at h
      by_cases h0 : c = 0
      · simp [h0] at h
      · simp only [h0, if_false] at h
        by_cases h37 : c = 37
        · subst h37
          simp only [if_true] at h
          cases f with
          | nil => simp at h
          | cons c1 f1 =>
            simp only [] at h
            by_cases h10 : c1 = 0
            · simp [h10] at h
            · simp only [h10, if_false] at h
              by_cases h137 : c1 = 37
              · subst h137
                simp only [if_true] at h
                simp only [List.cons_append]
                rw [scan_percent_percent, scan_percent_percent]
                exact ih f1 _ _ _ h
              · simp only [h137, if_false] at h
                unfold skipDirective at h
                cases hp : parseDirective (c1 :: f1) with
                | error e => simp [hp] at h
                | ok d =>
                  obtain ⟨fmt, width, options, precision⟩ := d
                  cases fmt with
                  | nil => simp [hp] at h
                  | cons cc r' =>
                    simp only [hp] at h
                    by_cases hcc : cc = 0
                    · simp [hcc] at h
                    · simp only [hcc, if_false] at h
                      have hp1 := parseDirective_append (c1 :: f1) rest cc r' _ _ _ hp
                      have hp2 := parseDirective_append (c1 :: f1) [0] cc r' _ _ _ hp
                      simp only [List.cons_append] at hp1 hp2 ⊢
                      rw [scan_directive cfg printchar c1 _ args ctx pc h10 h137 cc _ _ _ _ hp1,
                        scan_directive cfg printchar c1 _ args ctx pc h10 h137 cc _ _ _ _ hp2,
                        except_bind_assoc]
                      congr 1
                      funext r
                      exact ih r' _ _ _ h
        · simp only [h37, if_false] at h
          simp only [List.cons_append]
          rw [scan_literal cfg printchar c _ args ctx pc h0 h37,
            scan_literal cfg printchar c _ args ctx pc h0 h37]
          exact ih f _ _ _ h

/-- C15, amended: for every format of the form `p ++ "%%" ++ q` where `p` does not end
inside a directive, the `"%%"` makes one call of the sink, with `'%'`, adds 1 to the count
and takes no argument: the scan of `q` starts from the sink context, count and arguments
that the scan of `p` alone ends with, after that one call. -/
theorem C15_percent_percent {σ : Type} (cfg : Config) (printchar : σ → Nat → σ) (p q : List Nat)
    (args : List Arg) (ctx : σ) (pc : Int) (hp : completeFormat p) :
    scan cfg printchar (p ++ (bytes "%%" ++ q)) args ctx pc =
      scan cfg printchar (p ++ [0]) args ctx pc >>= fun r =>
        scan cfg printchar q r.2.2 (printchar r.1 37) (r.2.1 + 1) := by
  rw [scan_append cfg printchar _ _ p args ctx pc hp]
  congr 1
  funext r
  exact scan_percent_percent cfg printchar q _ _ _

/-- The witness of C15, amended: `p = "a%5d"`, `q = "%d"`. -/
theorem C15_percent_percent_witness :
    completeFormat (bytes "a%5d") ∧
    TinyPrintf cfg0 logChar [] (cstr "a%5d%%%d") [Arg.int 1, Arg.int 2] =
      .ok (bytes "a    1%2", 8) ∧
    scan cfg0 logChar (bytes "a%5d" ++ (bytes "%%" ++ cstr "%d")) [Arg.int 1, Arg.int 2] [] 0 =
      scan cfg0 logChar (bytes "a%5d" ++ [0]) [Arg.int 1, Arg.int 2] [] 0 >>= fun r =>
        scan cfg0 logChar (cstr "%d") r.2.2 (logChar r.1 37) (r.2.1 + 1) :=
  ⟨by rfl, by rfl,
    C15_percent_percent cfg0 logChar (bytes "a%5d") (cstr "%d") [Arg.int 1, Arg.int 2] [] 0
      (by rfl)⟩

/-- C15 as stated fails when `p` ends inside a directive: with `p = "%"` and `q = "q"` the
format is `"%%%q"`; its first two characters are read as `"%%"` and the third starts a
directive that swallows the `q`, so that the output is `"%"` and not `"%q"`. -/
theorem C15_counterexample :
    ¬ ∀ (p q : List Nat),
        scan cfg0 logChar (p ++ (bytes "%%" ++ q)) [] [] 0 =
          scan cfg0 logChar (p ++ [0]) [] [] 0 >>= fun r =>
            scan cfg0 logChar q r.2.2 (logChar r.1 37) (r.2.1 + 1) := by
  intro h
  have h1 := h (bytes "%") (cstr "q")
  have e1 : scan cfg0 logChar (bytes "%" ++ (bytes "%%" ++ cstr "q")) [] [] 0 =
      .ok (bytes "%", 1, []) := rfl
  have e2 : (scan cfg0 logChar (bytes "%" ++ [0]) [] [] 0 >>= fun r =>
      scan cfg0 logChar (cstr "q") r.2.2 (logChar r.1 37) (r.2.1 + 1)) =
      .ok (bytes "%q", 2, []) := rfl
  rw [e1, e2] at h1
  simp [bytes] at h1

theorem multiplierLoop_pow (p : Nat) (hp : p ≤ 9) : multiplierLoop p 1 = 10 ^ p := by
  interval_cases p <;> rfl

theorem toUInt_lt (x : ℚ) (n : Nat) (h : toUInt x = .ok n) : n < 2 ^ 32 := by
  unfold toUInt at h
  by_cases hc : x ≥ (2 : ℚ) ^ 32 ∨ x ≤ -1
  · rw [if_pos hc] at h
    exact absurd h (by simp)
  · rw [if_neg hc] at h
    simp only [Except.ok.injEq] at h
    have hx : x < (2 : ℚ) ^ 32 := lt_of_not_ge fun hge => hc (Or.inl hge)
    have h1 : Int.floor x < 2 ^ 32 := by
      rw [Int.floor_lt]
      exact_mod_cast hx
    omega

theorem unsignedText_length_le (n k : Nat) (hk : 0 < k) (h : n < 10 ^ k) :
    (unsignedText 10 97 n).length ≤ k := by
  unfold unsignedText
  split
  · simpa using hk
  · simpa using digits_length_le 10 (by norm_num) k n h

theorem paddedText_zero (t : List Nat) (p : Nat) (hp : 0 < p) :
    paddedText t p FORMAT_PAD_ZERO = List.replicate (p - t.length) 48 ++ t := by
  unfold paddedText
  have h1 : ((p : Int) - (t.length : Int)).toNat = p - t.length := by omega
  have h2 : FORMAT_PAD_ZERO &&& FORMAT_PAD_RIGHT = 0 := by decide
  have h3 : FORMAT_PAD_ZERO &&& FORMAT_PAD_ZERO ≠ 0 := by decide
  have h4 : (p : Int) > 0 := by omega
  simp only [h1, h2, h3, h4, ne_eq, not_false_eq_true, and_self, if_true]

theorem floatOut_closed (fmt : FloatFormat) (v : ℚ) (p : Nat) (hp : p ≤ 9) :
    floatOut fmt v p = (floatParts fmt v p).map fun q => floatText q.1 q.2.1 q.2.2 p := by
  have hm : multiplierLoop p 1 = 10 ^ p := multiplierLoop_pow p hp
  have hm0 : (10 ^ p : Nat) ≠ 0 := by positivity
  have hpS : toSigned 32 (p : Int) = p :=
    toSigned_of_range 32 (by norm_num) _ (by norm_num; omega) (by norm_num; omega)
  unfold floatOut TinyPrintFloat floatParts TinyPrintInteger
  simp only [TINY_PRINT_INTEGER_eq]
  rw [hm]
  cases roundFloat fmt v with
  | error e => simp only [error_bind, map_error]
  | ok v1 =>
    rw [ok_bind, ok_bind]
    simp only [hm0, if_false]
    cases roundFloat fmt ((10 ^ p : Nat) : ℚ) with
    | error e => simp only [error_bind, map_error]
    | ok mf =>
      rw [ok_bind, ok_bind]
      cases roundFloat fmt (1 / 2 : ℚ) with
      | error e => simp only [error_bind, map_error]
      | ok half =>
        rw [ok_bind, ok_bind]
        cases roundFloat fmt (half / mf) with
        | error e => simp only [error_bind, map_error]
        | ok h =>
          rw [ok_bind, ok_bind]
          have habs : (if v1 < 0 then (-v1, logChar [] 45, 1) else (v1, ([] : List Nat), 0)).1
              = |v1| := by
            split
            · rename_i hneg; exact (abs_of_neg hneg).symm
            · rename_i hneg; exact (abs_of_nonneg (not_lt.mp hneg)).symm
          rw [habs]
          cases roundFloat fmt (|v1| + h) with
          | error e => simp only [error_bind, map_error]
          | ok r =>
            rw [ok_bind, ok_bind]
            cases hi : toUInt r with
            | error e => simp only [error_bind, map_error]
            | ok i =>
              rw [ok_bind, ok_bind]
              have hi32 := toUInt_lt r i hi
              have hIU : toUnsigned 32 ((i : Nat) : Int) = i := by
                rw [toUnsigned_of_lt _ _ (by omega) (by norm_num; omega)]; omega
              have o1 := integerOut_unsigned (i : Int) 10 97 (Or.inl rfl) (by norm_num)
                (by norm_num) 0 0
              rw [hIU, paddedText_of_le _ _ _ (by omega)] at o1
              simp only [Nat.cast_ofNat] at o1
              rw [o1, map_ok, ok_bind]
              by_cases hp0 : p = 0
              · subst hp0
                by_cases hneg : v1 < 0 <;>
                  simp [hneg, floatText, emit, foldl_logChar, logChar]
              · rw [if_pos hp0, if_neg hp0]
                unfold fracPart
                cases roundFloat fmt (i : ℚ) with
                | error e => simp only [error_bind, map_error]
                | ok ip =>
                  rw [ok_bind, ok_bind]
                  cases roundFloat fmt (r - ip) with
                  | error e => simp only [error_bind, map_error]
                  | ok d =>
                    rw [ok_bind, ok_bind]
                    cases roundFloat fmt (d * mf) with
                    | error e => simp only [error_bind, map_error]
                    | ok x =>
                      rw [ok_bind, ok_bind]
                      cases hf : toUInt x with
                      | error e => simp only [error_bind, map_error]
                      | ok f =>
                        rw [ok_bind, ok_bind]
                        have hf32 := toUInt_lt x f hf
                        have hFU : toUnsigned 32 ((f : Nat) : Int) = f := by
                          rw [toUnsigned_of_lt _ _ (by omega) (by norm_num; omega)]; omega
                        have o2 := integerOut_unsigned (f : Int) 10 97 (Or.inl rfl)
                          (by norm_num) (by norm_num) p FORMAT_PAD_ZERO
                        rw [hFU, paddedText_zero _ p (by omega)] at o2
                        simp only [Nat.cast_ofNat] at o2
                        rw [hpS, o2]
                        by_cases hneg : v1 < 0 <;>
                          simp [hneg, hp0, floatText, fractionText, emit, foldl_logChar, logChar]

theorem parseBase_zeros (k : Nat) (t : List Nat) (ht : t ≠ []) :
    parseBase 10 97 (List.replicate k 48 ++ t) = parseBase 10 97 t := by
  have hf : ∀ k : Nat, (List.replicate k 48 ++ t).foldl
      (fun acc c =>
        match acc, digitValue 97 c with
        | some n, some d => if d < 10 then some (n * 10 + d) else none
        | _, _ => none)
      (some 0) =
      t.foldl
      (fun acc c =>
        match acc, digitValue 97 c with
        | some n, some d => if d < 10 then some (n * 10 + d) else none
        | _, _ => none)
      (some 0) := by
    intro k
    induction k with
    | zero => simp
    | succ k ih =>
      rw [List.replicate_succ, List.cons_append, List.foldl_cons]
      simpa [digitValue] using ih
  cases t with
  | nil => exact absurd rfl ht
  | cons c cs =>
    cases k with
    | zero => simp
    | succ k =>
      have := hf (k + 1)
      rw [List.replicate_succ, List.cons_append] at this ⊢
      exact this

theorem unsignedText_ne_nil (n : Nat) : unsignedText 10 97 n ≠ [] := by
  unfold unsignedText
  split
  · simp
  · rename_i h
    simp [Nat.digits_ne_nil_iff_ne_zero, h]

theorem not_mem_unsignedText (n : Nat) : 45 ∉ unsignedText 10 97 n := by
  unfold unsignedText
  split
  · simp
  · simp only [List.mem_map, List.mem_reverse, not_exists, not_and]
    intro d hd
    have := Nat.digits_lt_base (by norm_num : 1 < 10) hd
    split <;> omega

theorem dispatch_f {σ : Type} (cfg : Config) (printchar : σ → Nat → σ) (ctx : σ) (v : ℚ)
    (args : List Arg) (width : Int) (options : Nat) (precision : Int)
    (hcfg : cfg.TINY_PRINTF_FLOAT = true) :
    dispatch cfg printchar ctx (Arg.double v :: args) 102 width options precision =
      roundFloat binary64 v >>= fun d =>
        (TinyPrintFloat cfg.FLOAT_TYPE printchar ctx d (toUnsigned 32 precision)).map
          fun r => (r.1, (r.2 : Int), args) := by
  simp only [dispatch, va_arg_double, hcfg]
  cases roundFloat binary64 v <;> simp

theorem fractionText_length (f p : Nat) :
    p ≤ (fractionText f p).length ∧ (0 < p → f < 10 ^ p → (fractionText f p).length = p) := by
  unfold fractionText
  rw [List.length_append, List.length_replicate]
  refine ⟨by omega, fun hp hf => ?_⟩
  have := unsignedText_length_le f p hp hf
  omega

theorem float_examples :
    TinyPrintFloat binary64 logChar [] (123456 / 100000) 2 = .ok (bytes "1.23", 4) ∧
    TinyPrintFloat binary64 logChar [] (1005 / 1000) 2 = .ok (bytes "1.00", 4) ∧
    TinyPrintFloat binary64 logChar [] (145 / 1000) 2 = .ok (bytes "0.15", 4) ∧
    TinyPrintFloat binary32 logChar [] (1005 / 1000) 2 = .ok (bytes "1.00", 4) := by
  decide!

/-- C20, amended: in the arithmetic of `FLOAT_TYPE`, where every operation is rounded to the
nearest value of the format, for every value `v` and every precision `p ≤ 9`, with
`m = 10 ^ p`, `r = fl (|fl v| + fl (0.5 / m)) < 2 ^ 32`, the integer part `i = floor r` and the
fractional part `f = floor (fl (fl (r - i) * m))` (the sign, `i` and `f` of `floatParts`):
`TinyPrintFloat` sends a `'-'` exactly when `fl v < 0`, then the decimal digits of `i` without
a leading zero, then, if `p > 0`, a `'.'` and the decimal text of `f` left-padded with `'0'`
to `p` digits, and nothing more if `p = 0`; with `FLOAT_TYPE` `float` or `double`, `f` is
below `10 ^ p` and the digits behind the `'.'` are exactly `p`; where `floatParts` is a fault,
so is `TinyPrintFloat`.  A `%f` directive written without a precision prints its argument
with `p = 4`.  With `FLOAT_TYPE` `double`, 1.23456 with precision 2 gives `"1.23"` and 1.005
with precision 2 gives `"1.00"`. -/
theorem C20_float {σ : Type} (cfg : Config) (printchar : σ → Nat → σ) (ctx : σ) (v : ℚ)
    (p : Nat) (minus : Bool) (zeros : Nat) (width : List Nat) (rest : List Nat)
    (args : List Arg) (pc : Int) (hcfg : cfg.TINY_PRINTF_FLOAT = true) (hp : p ≤ 9)
    (hwf : flagsWellFormed width none) :
    TinyPrintFloat cfg.FLOAT_TYPE printchar ctx v p =
      (floatParts cfg.FLOAT_TYPE v p).map (fun q =>
        (((if q.1 then [45] else []) ++ (unsignedText 10 97 q.2.1 ++
            (if p = 0 then []
             else 46 :: (List.replicate (p - (unsignedText 10 97 q.2.2).length) 48 ++
               unsignedText 10 97 q.2.2)))).foldl printchar ctx,
          (floatText q.1 q.2.1 q.2.2 p).length)) ∧
    (∀ (neg : Bool) (i f : Nat),
      (45 ∈ floatText neg i f p ↔ neg = true) ∧
      parseBase 10 97 (unsignedText 10 97 i) = some i ∧
      noLeadingZero (unsignedText 10 97 i) ∧
      p ≤ (fractionText f p).length ∧
      (0 < p → f < 10 ^ p → (fractionText f p).length = p) ∧
      parseBase 10 97 (fractionText f p) = some f) ∧
    ((cfg.FLOAT_TYPE = binary32 ∨ cfg.FLOAT_TYPE = binary64) → ∀ (neg : Bool) (i f : Nat),
      floatParts cfg.FLOAT_TYPE v p = .ok (neg, i, f) →
        f < 10 ^ p ∧ (0 < p → (fractionText f p).length = p)) ∧
    (scan cfg printchar (37 :: (flagsText minus zeros width none ++ 102 :: rest))
        (Arg.double v :: args) ctx pc =
      roundFloat binary64 v >>= fun d =>
        TinyPrintFloat cfg.FLOAT_TYPE printchar ctx d 4 >>= fun r =>
          scan cfg printchar rest args r.1 (pc + (r.2 : Int))) ∧
    TinyPrintFloat binary64 logChar [] (123456 / 100000) 2 = .ok (bytes "1.23", 4) ∧
    TinyPrintFloat binary64 logChar [] (1005 / 1000) 2 = .ok (bytes "1.00", 4) := by
  refine ⟨?_, ?_, ?_, ?_, float_examples.1, float_examples.2.1⟩
  · rw [TinyPrintFloat_eq, floatOut_closed _ v p hp]
    cases floatParts cfg.FLOAT_TYPE v p with
    | error e => simp only [map_error]
    | ok q => rfl
  · intro neg i f
    refine ⟨?_, parseBase_unsignedText 10 97 (by norm_num) (by norm_num) (by norm_num) _,
      noLeadingZero_unsignedText 10 97 (by norm_num) _, (fractionText_length f p).1,
      (fractionText_length f p).2, ?_⟩
    · unfold floatText fractionText
      have h1 := not_mem_unsignedText i
      have h2 := not_mem_unsignedText f
      cases neg
      · by_cases hp0 : p = 0
        · simp [hp0, h1]
        · simp [hp0, h1, h2]
      · simp
    · unfold fractionText
      rw [parseBase_zeros _ _ (unsignedText_ne_nil _)]
      exact parseBase_unsignedText 10 97 (by norm_num) (by norm_num) (by norm_num) _
  · intro hfmt neg i f hq
    have hP : 1 ≤ cfg.FLOAT_TYPE.precision := by rcases hfmt with h | h <;> rw [h] <;> decide
    have hemin : cfg.FLOAT_TYPE.emin ≤ -1 := by rcases hfmt with h | h <;> rw [h] <;> decide
    have hf := floatParts_frac_lt cfg.FLOAT_TYPE v p neg i f hP hemin hp
      (roundFloat_pow10 _ hfmt p hp) hq
    exact ⟨hf, fun hp0 => (fractionText_length f p).2 hp0 hf⟩
  · rw [scan_flagsText cfg printchar minus zeros width none 102 rest _ ctx pc hwf
      ⟨by norm_num, by norm_num, by decide⟩ (by norm_num) (by norm_num) (by norm_num),
      dispatch_f cfg printchar ctx v args _ _ _ hcfg]
    have h4 : toUnsigned 32 (flagsPrecision none) = 4 := by decide
    rw [h4]
    cases roundFloat binary64 v with
    | error e => simp only [error_bind]
    | ok d =>
      rw [ok_bind, ok_bind]
      cases TinyPrintFloat cfg.FLOAT_TYPE printchar ctx d 4 <;> rfl

/-- The witness of C20, amended: 1.23456 with precision 2 in `double` arithmetic has the
integer part 1 and the fractional part 23, which has the 2 digits of the precision, and
`"%f"` prints one third as `"0.3333"`. -/
theorem C20_float_witness :
    cfg0.TINY_PRINTF_FLOAT = true ∧ flagsWellFormed [] none ∧
    floatParts cfg0.FLOAT_TYPE (123456 / 100000) 2 = .ok (false, 1, 23) ∧
    TinyPrintf cfg0 logChar [] (cstr "%f") [Arg.double (1 / 3)] = .ok (bytes "0.3333", 6) ∧
    (23 < 10 ^ 2 ∧ (0 < 2 → (fractionText 23 2).length = 2)) ∧
    TinyPrintFloat cfg0.FLOAT_TYPE logChar [] (123456 / 100000) 2 =
      (floatParts cfg0.FLOAT_TYPE (123456 / 100000) 2).map (fun q =>
        (((if q.1 then [45] else []) ++ (unsignedText 10 97 q.2.1 ++
            (if 2 = 0 then []
             else 46 :: (List.replicate (2 - (unsignedText 10 97 q.2.2).length) 48 ++
               unsignedText 10 97 q.2.2)))).foldl logChar [],
          (floatText q.1 q.2.1 q.2.2 2).length)) :=
  ⟨rfl, ⟨by decide, by decide, by simp⟩, by decide!, by decide!,
    (C20_float cfg0 logChar [] (123456 / 100000) 2 false 0 [] [0] [] 0 rfl (by decide)
      ⟨by decide, by decide, by simp⟩).2.2.1 (Or.inr rfl) false 1 23 (by decide!),
    (C20_float cfg0 logChar [] (123456 / 100000) 2 false 0 [] [0] [] 0 rfl (by decide)
      ⟨by decide, by decide, by simp⟩).1⟩

/-- C20 as stated fails on the code, whose arithmetic is that of `FLOAT_TYPE`: in `double`
(and in `float`) arithmetic 1.005 with precision 2 gives `"1.00"`, where the claim, with exact
arithmetic, has `"1.01"` (`floor ((1.005 + 0.005 - 1) * 100) = 1`). -/
theorem C20_counterexample :
    TinyPrintFloat binary64 logChar [] (1005 / 1000) 2 = .ok (bytes "1.00", 4) ∧
    TinyPrintFloat binary32 logChar [] (1005 / 1000) 2 = .ok (bytes "1.00", 4) ∧
    TinyPrintf cfg0 logChar [] (cstr "%.2f") [Arg.double (1005 / 1000)] = .ok (bytes "1.00", 4) ∧
    floatParts binary64 (1005 / 1000) 2 = .ok (false, 1, 0) ∧
    Int.floor (((1005 / 1000 : ℚ) + (1 / 2) / 100 - 1) * 100) = 1 ∧
    bytes "1.00" ≠ bytes "1.01" := by
  decide!

/-! ### Padding and round trip, the buffer counter, the multiplier and composition -/

theorem dropWhile_spaces_append (k : Nat) (l : List Nat) :
    (List.replicate k 32 ++ l).dropWhile (· == 32) = l.dropWhile (· == 32) := by
  induction k with
  | zero => simp
  | succ k ih =>
    rw [List.replicate_succ, List.cons_append, List.dropWhile_cons_of_pos (by simp)]
    exact ih

theorem dropWhile_spaces_of_head (c : Nat) (l : List Nat) (hc : c ≠ 32) :
    (c :: l).dropWhile (· == 32) = c :: l :=
  List.dropWhile_cons_of_neg (by simpa using hc)

theorem stripSpaces_pad (a b : Nat) (t : List Nat) (ht : 32 ∉ t) (hne : t ≠ []) :
    stripSpaces (List.replicate a 32 ++ (t ++ List.replicate b 32)) = t := by
  unfold stripSpaces
  rw [dropWhile_spaces_append]
  cases t with
  | nil => exact absurd rfl hne
  | cons c t =>
    have hc : c ≠ 32 := fun e => ht (by simp [e])
    rw [List.cons_append, dropWhile_spaces_of_head c _ hc, ← List.cons_append,
      List.reverse_append, List.reverse_replicate, dropWhile_spaces_append]
    have hr : (c :: t).reverse ≠ [] := by simp
    cases hrev : (c :: t).reverse with
    | nil => exact absurd hrev hr
    | cons d r =>
      have hd : d ≠ 32 := by
        intro e
        apply ht
        have : d ∈ (c :: t).reverse := by rw [hrev]; simp
        rw [List.mem_reverse] at this
        rw [← e]; exact this
      rw [dropWhile_spaces_of_head d _ hd, ← hrev, List.reverse_reverse]

theorem stripSpaces_of_not_mem (t : List Nat) (ht : 32 ∉ t) : stripSpaces t = t := by
  cases t with
  | nil => rfl
  | cons c t =>
    have := stripSpaces_pad 0 0 (c :: t) ht (by simp)
    simpa using this

theorem parseDigits_zeros (k : Nat) (ds : List Nat) (hne : ds ≠ []) :
    parseDigits (List.replicate k 48 ++ ds) = parseDigits ds := by
  unfold parseDigits
  have h1 : (List.replicate k 48 ++ ds ≠ [] ∧ (List.replicate k 48 ++ ds).all isDigit = true) ↔
      (ds ≠ [] ∧ ds.all isDigit = true) := by
    constructor
    · rintro ⟨_, h⟩
      refine ⟨hne, ?_⟩
      rw [List.all_append] at h
      simp only [Bool.and_eq_true] at h
      exact h.2
    · rintro ⟨_, h⟩
      refine ⟨by simp [hne], ?_⟩
      rw [List.all_append, h]
      simp only [Bool.and_true, List.all_eq_true]
      intro x hx
      rw [List.eq_of_mem_replicate hx]
      rfl
  have h2 : ∀ j : Nat, (List.replicate j 48 ++ ds).foldl (fun acc c => acc * 10 + (c - 48)) 0 =
      ds.foldl (fun acc c => acc * 10 + (c - 48)) 0 := by
    intro j
    induction j with
    | zero => simp
    | succ j ih =>
      rw [List.replicate_succ, List.cons_append, List.foldl_cons]
      exact ih
  by_cases hc : ds ≠ [] ∧ ds.all isDigit = true
  · rw [if_pos hc, if_pos (h1.mpr hc), h2 k]
  · rw [if_neg hc, if_neg (fun h => hc (h1.mp h))]

theorem parseDigits_all_zeros (k : Nat) : parseDigits (List.replicate (k + 1) 48) = some 0 := by
  have h := parseDigits_zeros k [48] (by simp)
  have e : List.replicate k 48 ++ [48] = List.replicate (k + 1) 48 := by
    rw [List.replicate_succ']
  rw [e] at h
  rw [h]
  rfl

theorem parseSignedDecimal_of_parseDigits (t : List Nat) (n : Nat)
    (h : parseDigits t = some n) : parseSignedDecimal t = some (n : Int) := by
  have hd : t ≠ [] ∧ t.all isDigit = true := by
    unfold parseDigits at h
    by_contra hc
    rw [if_neg hc] at h
    exact absurd h (by simp)
  cases t with
  | nil => exact absurd rfl hd.1
  | cons c t =>
    have hc : c ≠ 45 := by
      intro e
      have := hd.2
      rw [e] at this
      simp [isDigit] at this
    unfold parseSignedDecimal
    split
    · rename_i heq
      simp at heq
      exact absurd heq.1 hc
    · rw [h]

theorem parseSignedDecimal_minus (ds : List Nat) (n : Nat) (h : parseDigits ds = some n) :
    parseSignedDecimal (45 :: ds) = some (-(n : Int)) := by
  simp only [parseSignedDecimal, h]

theorem not_mem_signedText (c : Nat) (hc : c < 45) (v : Int) : c ∉ signedText v := by
  unfold signedText
  have h := not_mem_decimalDigits c (by omega) v.natAbs
  split
  · simp; omega
  · split
    · simp only [List.mem_cons, not_or]
      exact ⟨by omega, h⟩
    · exact h

theorem signedText_ne_nil (v : Int) : signedText v ≠ [] := by
  unfold signedText
  split
  · simp
  · rename_i h0
    split
    · simp
    · exact decimalDigits_ne_nil _ (by omega)

theorem paddedText_spaces (t : List Nat) (width : Int) (options : Nat)
    (hz : options &&& FORMAT_PAD_ZERO = 0) :
    ∃ a b, paddedText t width options = List.replicate a 32 ++ (t ++ List.replicate b 32) := by
  unfold paddedText
  have hc : ¬ (width > 0 ∧ options &&& FORMAT_PAD_ZERO ≠ 0) := fun h => h.2 hz
  simp only [hc, if_false]
  by_cases hr : options &&& FORMAT_PAD_RIGHT = 0
  · exact ⟨(width - t.length).toNat, 0, by simp [hr]⟩
  · exact ⟨0, (width - t.length).toNat, by simp [hr]⟩

theorem paddedText_zeros (t : List Nat) (width : Int) (options : Nat)
    (hr : options &&& FORMAT_PAD_RIGHT = 0) (hz : options &&& FORMAT_PAD_ZERO ≠ 0) :
    ∃ k, paddedText t width options = List.replicate k 48 ++ t := by
  by_cases hw : width ≤ t.length
  · exact ⟨0, by rw [paddedText_of_le t width options hw]; rfl⟩
  · refine ⟨(width - t.length).toNat, ?_⟩
    unfold paddedText
    have hc : width > 0 ∧ options &&& FORMAT_PAD_ZERO ≠ 0 := ⟨by omega, hz⟩
    rw [if_pos hc, if_pos hr]

theorem padded_spaces_parse (t : List Nat) (v : Int) (hp : parseSignedDecimal t = some v)
    (h32 : 32 ∉ t) (hne : t ≠ []) (width : Int) (options : Nat)
    (hz : options &&& FORMAT_PAD_ZERO = 0) :
    parseSignedDecimal (stripSpaces (paddedText t width options)) = some v := by
  obtain ⟨a, b, e⟩ := paddedText_spaces t width options hz
  rw [e, stripSpaces_pad a b t h32 hne, hp]

theorem padded_zeros_parse (n : Nat) (hn : n ≠ 0) (width : Int) (options : Nat)
    (hr : options &&& FORMAT_PAD_RIGHT = 0) (hz : options &&& FORMAT_PAD_ZERO ≠ 0) :
    32 ∉ paddedText (decimalDigits n) width options ∧
      parseDigits (paddedText (decimalDigits n) width options) = some n := by
  obtain ⟨k, e⟩ := paddedText_zeros (decimalDigits n) width options hr hz
  rw [e, parseDigits_zeros k _ (decimalDigits_ne_nil n hn), parseDigits_decimalDigits n hn]
  refine ⟨?_, rfl⟩
  simp only [List.mem_append, not_or]
  exact ⟨fun h => by have := List.eq_of_mem_replicate h; omega,
    not_mem_decimalDigits 32 (by norm_num) n⟩

/-- The text sent by the signed base 10 conversion of a 32 bit value, read without its
leading and trailing spaces, is the value again, unless the pad-right and the zero-pad flag
are both set and the width exceeds the length of the text of a value other than 0. -/
theorem signedOut_roundtrip (v : Int) (w : Int) (options : Nat) (h1 : -(2 : Int) ^ 31 ≤ v)
    (h2 : v < (2 : Int) ^ 31)
    (h : options &&& FORMAT_PAD_RIGHT = 0 ∨ options &&& FORMAT_PAD_ZERO = 0 ∨
      w ≤ (signedText v).length ∨ v = 0) :
    ∃ out, integerOut 32 12 v 10 1 w options 97 = .ok out ∧
      parseSignedDecimal (stripSpaces out) = some v := by
  by_cases hz : options &&& FORMAT_PAD_ZERO = 0
  · -- the padding is made of spaces
    have e : integerOut 32 12 v 10 1 w options 97 = .ok (paddedText (signedText v) w options) := by
      by_cases h0 : v = 0
      · rw [h0, integerOut_zero 32 12 (by norm_num)]; rfl
      · rw [integerOut_signed_decimal 32 12 (by norm_num) (by norm_num) (by norm_num) v h0 h1 h2
          1 (by norm_num)]
        have hc : ¬ (w ≠ 0 ∧ options &&& FORMAT_PAD_ZERO ≠ 0) := fun hh => hh.2 hz
        simp only [hc, if_false, signedText, h0]
        split <;> rfl
    exact ⟨_, e, padded_spaces_parse _ v (signedText_parse v) (not_mem_signedText 32 (by norm_num) v)
      (signedText_ne_nil v) w options hz⟩
  · by_cases h0 : v = 0
    · -- zeros around the text "0"
      subst h0
      refine ⟨_, integerOut_zero 32 12 (by norm_num) _ _ _ _ _, ?_⟩
      have hk : ∃ k, paddedText [48] w options = List.replicate (k + 1) 48 := by
        by_cases hw : w ≤ 1
        · exact ⟨0, paddedText_of_le [48] w options (by simpa using hw)⟩
        · refine ⟨(w - 1).toNat, ?_⟩
          unfold paddedText
          have hc : w > 0 ∧ options &&& FORMAT_PAD_ZERO ≠ 0 := ⟨by omega, hz⟩
          rw [if_pos hc]
          split
          · rw [List.replicate_succ']; rfl
          · rw [List.replicate_succ]; rfl
      obtain ⟨k, e⟩ := hk
      rw [e, stripSpaces_of_not_mem _ (fun hm => by have := List.eq_of_mem_replicate hm; omega)]
      exact parseSignedDecimal_of_parseDigits _ 0 (parseDigits_all_zeros k)
    · have hn : v.natAbs ≠ 0 := by omega
      have e := integerOut_signed_decimal 32 12 (by norm_num) (by norm_num) (by norm_num) v h0
        h1 h2 1 (by norm_num) w options 97
      by_cases hr : options &&& FORMAT_PAD_RIGHT = 0
      · -- zeros before the digits
        obtain ⟨m1, m2⟩ := padded_zeros_parse v.natAbs hn w options hr hz
        obtain ⟨m3, m4⟩ := padded_zeros_parse v.natAbs hn (w - 1) options hr hz
        by_cases hneg : v < 0
        · by_cases hw : w = 0
          · refine ⟨_, e, ?_⟩
            have hc : ¬ (w ≠ 0 ∧ options &&& FORMAT_PAD_ZERO ≠ 0) := fun hh => hh.1 hw
            simp only [hneg, if_true, hc, if_false]
            rw [paddedText_of_le _ _ _ (by rw [hw]; exact Int.natCast_nonneg _)]
            have e2 : 45 :: decimalDigits v.natAbs = signedText v := by
              simp [signedText, h0, hneg]
            rw [e2, stripSpaces_of_not_mem _ (not_mem_signedText 32 (by norm_num) v)]
            exact signedText_parse v
          · refine ⟨_, e, ?_⟩
            have hc : w ≠ 0 ∧ options &&& FORMAT_PAD_ZERO ≠ 0 := ⟨hw, hz⟩
            simp only [hneg, if_true, hc, and_self, ne_eq, not_false_eq_true]
            rw [stripSpaces_of_not_mem _ (by
              simp only [List.mem_cons, not_or]
              exact ⟨by norm_num, m3⟩), parseSignedDecimal_minus _ _ m4]
            congr 1
            omega
        · refine ⟨_, e, ?_⟩
          simp only [hneg, if_false]
          rw [stripSpaces_of_not_mem _ m1, parseSignedDecimal_of_parseDigits _ _ m2]
          congr 1
          omega
      · -- both flags: the width does not exceed the text
        have hw : w ≤ (signedText v).length := by
          rcases h with h | h | h | h
          · exact absurd h hr
          · exact absurd h hz
          · exact h
          · exact absurd h h0
        refine ⟨_, e, ?_⟩
        by_cases hneg : v < 0
        · have e2 : 45 :: decimalDigits v.natAbs = signedText v := by
            simp [signedText, h0, hneg]
          have hl : (signedText v).length = (decimalDigits v.natAbs).length + 1 := by
            rw [← e2]; rfl
          simp only [hneg, if_true]
          have e3 : (if w ≠ 0 ∧ options &&& FORMAT_PAD_ZERO ≠ 0 then
                45 :: paddedText (decimalDigits v.natAbs) (w - 1) options
              else paddedText (45 :: decimalDigits v.natAbs) w options) = signedText v := by
            split
            · rw [paddedText_of_le _ _ _ (by omega), e2]
            · rw [e2, paddedText_of_le _ _ _ hw]
          rw [e3, stripSpaces_of_not_mem _ (not_mem_signedText 32 (by norm_num) v)]
          exact signedText_parse v
        · have e2 : decimalDigits v.natAbs = signedText v := by
            simp [signedText, h0, hneg]
          simp only [hneg, if_false]
          rw [e2, paddedText_of_le _ _ _ hw,
            stripSpaces_of_not_mem _ (not_mem_signedText 32 (by norm_num) v)]
          exact signedText_parse v

theorem dispatch_d {σ : Type} (cfg : Config) (printchar : σ → Nat → σ) (ctx : σ) (v : Int)
    (args : List Arg) (width : Int) (options : Nat) (precision : Int)
    (hl : options &&& FORMAT_LONG_LONG = 0) :
    dispatch cfg printchar ctx (Arg.int v :: args) 100 width options precision =
      (integerOut 32 12 (toSigned 32 v) 10 1 width options 97).map
        fun out => (out.foldl printchar ctx, (out.length : Int), args) := by
  simp only [dispatch, printIntArg, hl, va_arg_int, TinyPrintInteger, TINY_PRINT_INTEGER_eq]
  simp
  cases integerOut 32 12 (toSigned 32 v) 10 1 width options 97 <;> simp [emit]

theorem flagsOptions_right (minus : Bool) (zeros : Nat) :
    flagsOptions minus zeros &&& FORMAT_PAD_RIGHT = 0 ↔ minus = false := by
  unfold flagsOptions
  cases minus <;> by_cases hz : zeros = 0 <;> simp [hz] <;> decide

theorem flagsOptions_zero (minus : Bool) (zeros : Nat) :
    flagsOptions minus zeros &&& FORMAT_PAD_ZERO = 0 ↔ zeros = 0 := by
  unfold flagsOptions
  cases minus <;> by_cases hz : zeros = 0 <;> simp [hz] <;> decide

/-- C21, amended: for every signed 32 bit `v`, every width and every combination of the
pad-right and zero-pad flags in which the two flags are not both set (or the width does not
exceed the length of the text of `v`, or `v = 0`), the text sent by the signed base 10 Integer
Renderer, and by `%d` with those flags and that width written in the directive, read without
its leading and trailing spaces, is a signed decimal integer equal to `v`. -/
theorem C21_padding_roundtrip (cfg : Config) (v : Int) (w : Int) (options : Nat) (minus : Bool)
    (zeros : Nat) (width : List Nat) (precision : Option (List Nat))
    (h1 : -(2 : Int) ^ 31 ≤ v) (h2 : v < (2 : Int) ^ 31)
    (ho : options &&& FORMAT_PAD_RIGHT = 0 ∨ options &&& FORMAT_PAD_ZERO = 0 ∨
      w ≤ (signedText v).length ∨ v = 0)
    (hwf : flagsWellFormed width precision)
    (hf : minus = false ∨ zeros = 0 ∨ decimalValue width ≤ (signedText v).length ∨ v = 0) :
    (∃ out, TinyPrintInteger logChar [] v 10 1 w options 97 = .ok (out, (out.length : Int)) ∧
      parseSignedDecimal (stripSpaces out) = some v) ∧
    (∃ out, TinyPrintf cfg logChar [] (37 :: (flagsText minus zeros width precision ++ [100, 0]))
        [Arg.int v] = .ok (out, (out.length : Int)) ∧
      parseSignedDecimal (stripSpaces out) = some v) := by
  constructor
  · obtain ⟨out, e, hp⟩ := signedOut_roundtrip v w options h1 h2 ho
    refine ⟨out, ?_, hp⟩
    unfold TinyPrintInteger
    rw [TINY_PRINT_INTEGER_eq, e]
    simp [emit, foldl_logChar]
  · have ho2 : flagsOptions minus zeros &&& FORMAT_PAD_RIGHT = 0 ∨
        flagsOptions minus zeros &&& FORMAT_PAD_ZERO = 0 ∨
        decimalValue width ≤ (signedText v).length ∨ v = 0 := by
      rcases hf with h | h | h | h
      · exact Or.inl ((flagsOptions_right minus zeros).mpr h)
      · exact Or.inr (Or.inl ((flagsOptions_zero minus zeros).mpr h))
      · exact Or.inr (Or.inr (Or.inl h))
      · exact Or.inr (Or.inr (Or.inr h))
    obtain ⟨out, e, hp⟩ := signedOut_roundtrip v (decimalValue width) (flagsOptions minus zeros)
      h1 h2 ho2
    refine ⟨out, ?_, hp⟩
    rw [TinyPrintf_eq_scan, scan_flagsText cfg logChar minus zeros width precision 100 [0] _ [] 0
      hwf ⟨by norm_num, by norm_num, by decide⟩ (by norm_num) (by norm_num) (by norm_num),
      dispatch_d cfg logChar [] v [] _ _ _ (flagsOptions_and_long minus zeros),
      toSigned_of_range 32 (by norm_num) v h1 h2, e]
    simp [scan_zero, foldl_logChar]

/-- The witness of C21, amended: `-42` with `"%07d"`, `"%-7d"` and `"%7d"`. -/
theorem C21_padding_roundtrip_witness :
    TinyPrintf cfg0 logChar [] (cstr "%07d|%-7d|%7d") [Arg.int (-42), Arg.int (-42), Arg.int (-42)] =
      .ok (bytes "-000042|-42    |    -42", 23) ∧
    flagsText false 1 (bytes "7") none = bytes "07" ∧
    flagsWellFormed (bytes "7") none ∧
    (∃ out, TinyPrintInteger logChar [] (-42) 10 1 7 FORMAT_PAD_ZERO 97 =
        .ok (out, (out.length : Int)) ∧
      parseSignedDecimal (stripSpaces out) = some (-42)) ∧
    (∃ out, TinyPrintf cfg0 logChar [] (37 :: (flagsText false 1 (bytes "7") none ++ [100, 0]))
        [Arg.int (-42)] = .ok (out, (out.length : Int)) ∧
      parseSignedDecimal (stripSpaces out) = some (-42)) :=
  ⟨by rfl, by rfl, ⟨by decide, by decide, by simp⟩,
    C21_padding_roundtrip cfg0 (-42) 7 FORMAT_PAD_ZERO false 1 (bytes "7") none (by decide)
      (by decide) (Or.inl (by decide)) ⟨by decide, by decide, by simp⟩ (Or.inl rfl)⟩

/-- C21 as stated fails when the pad-right and the zero-pad flag are both set: `"%-05d"` with
the argument 3 sends `"30000"`, which reads as 30000. -/
theorem C21_counterexample :
    TinyPrintf cfg0 logChar [] (cstr "%-05d") [Arg.int 3] = .ok (bytes "30000", 5) ∧
    TinyPrintInteger logChar [] 3 10 1 5 (FORMAT_PAD_RIGHT ||| FORMAT_PAD_ZERO) 97 =
      .ok (bytes "30000", 5) ∧
    parseSignedDecimal (stripSpaces (bytes "30000")) = some 30000 ∧
    parseSignedDecimal (stripSpaces (bytes "30000")) ≠ some 3 :=
  ⟨by rfl, by rfl, by rfl, by decide⟩

/-- One call of `TinySNPrintChar` from a context whose counter is not negative: the counter
stays not negative; at 0 nothing changes; above 0 the byte is stored at the write pointer,
the pointer moves on by one and the counter goes down by one. -/
theorem TinySNPrintChar_step (st : SNState) (c : Nat) (h : 0 ≤ st.context.length) :
    0 ≤ (TinySNPrintChar st c).context.length ∧
    (st.context.length = 0 → TinySNPrintChar st c = st) ∧
    (0 < st.context.length →
      (TinySNPrintChar st c).mem = Function.update st.mem st.context.string c ∧
      (TinySNPrintChar st c).context.string = st.context.string + 1 ∧
      (TinySNPrintChar st c).context.length = st.context.length - 1) := by
  by_cases h0 : st.context.length = 0
  · have e : TinySNPrintChar st c = st := by simp [TinySNPrintChar, h0]
    rw [e]
    exact ⟨h, fun _ => rfl, fun hp => by omega⟩
  · have e : TinySNPrintChar st c =
        { mem := Function.update st.mem st.context.string c,
          context := { string := st.context.string + 1, length := st.context.length - 1 } } := by
      simp [TinySNPrintChar, h0]
    rw [e]
    exact ⟨by show 0 ≤ st.context.length - 1; omega, fun e0 => absurd e0 h0,
      fun _ => ⟨rfl, rfl, rfl⟩⟩

theorem foldl_traceChar (out : List Nat) :
    ∀ (st : SNState) (tr : List Int), 0 ≤ st.context.length → (∀ l ∈ tr, 0 ≤ l) →
      (out.foldl traceChar (st, tr)).1 = out.foldl TinySNPrintChar st ∧
      0 ≤ (out.foldl traceChar (st, tr)).1.context.length ∧
      ∀ l ∈ (out.foldl traceChar (st, tr)).2, 0 ≤ l := by
  induction out with
  | nil => intro st tr h ht; exact ⟨rfl, h, ht⟩
  | cons c out ih =>
    intro st tr h ht
    have hs := (TinySNPrintChar_step st c h).1
    simp only [List.foldl_cons, traceChar]
    refine ih _ _ hs ?_
    intro l hl
    rcases List.mem_append.mp hl with hl | hl
    · exact ht l hl
    · rw [List.mem_singleton.mp hl]; exact hs

/-- With a capacity of at least 1 the counter is not negative in any state of a
`TinySNprintf` call: at the start, after every call of the sink, after `context.length++`
and after the call that stores the terminator. -/
theorem TinySNprintf_counter_nonneg (cfg : Config) (buffer : Nat → Nat) (capacity : Int)
    (fmt : List Nat) (args : List Arg) (r : SNState × List Int) (n : Int) (hcap : 1 ≤ capacity)
    (h : TinyPrintf cfg traceChar
      ({ mem := buffer, context := { string := 0, length := capacity - 1 } }, [capacity - 1])
      fmt args = .ok (r, n)) :
    (∀ l ∈ r.2, 0 ≤ l) ∧ 0 ≤ r.1.context.length + 1 ∧
    0 ≤ (TinySNPrintChar
      { mem := r.1.mem,
        context := { string := r.1.context.string, length := r.1.context.length + 1 } }
      0).context.length ∧
    TinySNprintf cfg buffer capacity fmt args =
      .ok (TinySNPrintChar
        { mem := r.1.mem,
          context := { string := r.1.context.string, length := r.1.context.length + 1 } }
        0, n) := by
  rw [TinyPrintf_eq] at h
  unfold TinySNprintf
  simp only [TinyPrintf_eq cfg TinySNPrintChar]
  cases ho : TinyPrintf cfg logChar [] fmt args with
  | error e => rw [ho] at h; simp at h
  | ok o =>
    rw [ho] at h
    simp only [map_ok, emit, Except.ok.injEq, Prod.mk.injEq] at h
    obtain ⟨hr, hn⟩ := h
    obtain ⟨e1, e2, e3⟩ := foldl_traceChar o.1
      { mem := buffer, context := { string := 0, length := capacity - 1 } } [capacity - 1]
      (by simp; omega) (by simp; omega)
    rw [hr] at e1 e2 e3
    refine ⟨e3, by omega, (TinySNPrintChar_step _ 0 (by simp; omega)).1, ?_⟩
    simp only [map_ok, emit, ← e1, hn]

/-- C22: with capacity 0 the counter is negative in every state of the call.
`TinySNprintf(buffer, 0, "a")` starts the counter at `-1`; the call of `TinySNPrintChar` for
`'a'` finds it different from 0, stores the byte and leaves the counter at `-2`; the call
ends with the counter at `-2`. -/
theorem C22_counter_below_zero (cfg : Config) :
    (TinyPrintf cfg traceChar
        ({ mem := fun _ => 255, context := { string := 0, length := 0 - 1 } }, [0 - 1])
        (cstr "a") []).map (fun r => r.1.2) = .ok [-1, -2] ∧
    (TinySNPrintChar { mem := fun _ => 255, context := { string := 0, length := -1 } }
      97).context.length = -2 ∧
    (TinySNprintf cfg (fun _ => 255) 0 (cstr "a") []).map (fun r => r.1.context.length) =
      .ok (-2) :=
  ⟨rfl, rfl, rfl⟩

/-- With capacity 5 and `"hello world"` the counter goes from 4 down to 0 and stays there. -/
theorem counter_trace_example :
    (TinyPrintf cfg0 traceChar
        ({ mem := fun _ => 255, context := { string := 0, length := 5 - 1 } }, [5 - 1])
        (cstr "hello world") []).map (fun r => r.1.2) =
      .ok [4, 3, 2, 1, 0, 0, 0, 0, 0, 0, 0, 0] := rfl

theorem multiplierLoop_mod (p : Nat) :
    ∀ m : Nat, m < 2 ^ 32 → multiplierLoop p m = m * 10 ^ p % 2 ^ 32 := by
  induction p with
  | zero => intro m hm; simp only [multiplierLoop, pow_zero, mul_one]; exact (Nat.mod_eq_of_lt hm).symm
  | succ p ih =>
    intro m hm
    have h1 : m * 10 % 2 ^ 32 < 2 ^ 32 := Nat.mod_lt _ (by norm_num)
    rw [multiplierLoop, ih _ h1, Nat.mod_mul_mod, pow_succ]
    congr 1
    ring

/-- The scan step at an `f` directive with a precision written in it: the Float Renderer is
called with the `double` argument and the number that the digits of the precision write, as
an `unsigned int`. -/
theorem scan_float_precision {σ : Type} (cfg : Config) (printchar : σ → Nat → σ) (minus : Bool)
    (zeros : Nat) (width ds : List Nat) (rest : List Nat) (v : ℚ) (args : List Arg) (ctx : σ)
    (pc : Int) (hcfg : cfg.TINY_PRINTF_FLOAT = true) (hwf : flagsWellFormed width (some ds)) :
    scan cfg printchar (37 :: (flagsText minus zeros width (some ds) ++ 102 :: rest))
        (Arg.double v :: args) ctx pc =
      roundFloat binary64 v >>= fun d =>
        TinyPrintFloat cfg.FLOAT_TYPE printchar ctx d (toUnsigned 32 (decimalValue ds)) >>=
          fun r => scan cfg printchar rest args r.1 (pc + (r.2 : Int)) := by
  rw [scan_flagsText cfg printchar minus zeros width (some ds) 102 rest _ ctx pc hwf
    ⟨by norm_num, by norm_num, by decide⟩ (by norm_num) (by norm_num) (by norm_num),
    dispatch_f cfg printchar ctx v args _ _ _ hcfg]
  cases roundFloat binary64 v with
  | error e => simp only [error_bind]
  | ok d =>
    rw [ok_bind, ok_bind]
    have e : flagsPrecision (some ds) = decimalValue ds := rfl
    rw [e]
    cases TinyPrintFloat cfg.FLOAT_TYPE printchar ctx d (toUnsigned 32 (decimalValue ds))
      <;> rfl

/-- C23, amended: for every precision `p ≤ 9` written in a `%.<p>f` directive, whatever its
flags and width, the Float Renderer is called with `p` and the multiplier that its loop
computes in the 32 bit unsigned accumulator is `10 ^ p`; for every `p` the loop computes
`10 ^ p` modulo `2 ^ 32`. -/
theorem C23_multiplier {σ : Type} (cfg : Config) (printchar : σ → Nat → σ) (minus : Bool)
    (zeros : Nat) (width ds : List Nat) (rest : List Nat) (v : ℚ) (args : List Arg) (ctx : σ)
    (pc : Int) (p : Nat) (hcfg : cfg.TINY_PRINTF_FLOAT = true)
    (hwf : flagsWellFormed width (some ds)) (hds : decimalValue ds = (p : Int)) (hp : p ≤ 9) :
    (scan cfg printchar (37 :: (flagsText minus zeros width (some ds) ++ 102 :: rest))
        (Arg.double v :: args) ctx pc =
      roundFloat binary64 v >>= fun d =>
        TinyPrintFloat cfg.FLOAT_TYPE printchar ctx d p >>= fun r =>
          scan cfg printchar rest args r.1 (pc + (r.2 : Int))) ∧
    multiplierLoop p 1 = 10 ^ p ∧
    ∀ q : Nat, multiplierLoop q 1 = 10 ^ q % 2 ^ 32 := by
  refine ⟨?_, ?_, fun q => by rw [multiplierLoop_mod q 1 (by norm_num), one_mul]⟩
  · rw [scan_float_precision cfg printchar minus zeros width ds rest v args ctx pc hcfg hwf, hds]
    have e : toUnsigned 32 (p : Int) = p := by
      rw [toUnsigned_of_lt _ _ (by omega) (by norm_num; omega)]
      omega
    rw [e]
  · rw [multiplierLoop_mod p 1 (by norm_num), one_mul]
    exact Nat.mod_eq_of_lt
      (lt_of_le_of_lt (Nat.pow_le_pow_right (by norm_num) hp) (by norm_num))

/-- The witness of C23, amended: `"%-08.2f"`, with precision 2 and multiplier 100. -/
theorem C23_multiplier_witness :
    flagsText true 1 (bytes "8") (some (bytes "2")) = bytes "-08.2" ∧
    flagsWellFormed (bytes "8") (some (bytes "2")) ∧ decimalValue (bytes "2") = ((2 : Nat) : Int) ∧
    ((scan cfg0 logChar (37 :: (flagsText true 1 (bytes "8") (some (bytes "2")) ++ 102 :: [0]))
        (Arg.double (1 / 3) :: []) [] 0 =
      roundFloat binary64 (1 / 3) >>= fun d =>
        TinyPrintFloat cfg0.FLOAT_TYPE logChar [] d 2 >>= fun r =>
          scan cfg0 logChar [0] [] r.1 (0 + (r.2 : Int))) ∧
    multiplierLoop 2 1 = 10 ^ 2 ∧
    ∀ q : Nat, multiplierLoop q 1 = 10 ^ q % 2 ^ 32) :=
  ⟨by rfl, ⟨by decide, by decide, by simp [bytes, isDigit]⟩, by rfl,
    C23_multiplier cfg0 logChar true 1 (bytes "8") (bytes "2") [0] (1 / 3) [] [] 0 2 rfl
      ⟨by decide, by decide, by simp [bytes, isDigit]⟩ (by rfl) (by decide)⟩

theorem float_half_ten : TinyPrintFloat binary64 logChar [] (1 / 2 : ℚ) 10 =
    .ok (bytes "0.0705032704", 12) := by
  decide!

/-- C23 as stated fails from precision 10 on: for `"%.10f"` the Float Renderer is called with
precision 10 and its multiplier is `10 ^ 10` modulo `2 ^ 32`, 1410065408; the value 1/2 is
then printed as `"0.0705032704"`. -/
theorem C23_counterexample :
    (scan cfg0 logChar (37 :: (flagsText false 0 [] (some (bytes "10")) ++ 102 :: [0]))
        [Arg.double (1 / 2)] [] 0 =
      roundFloat binary64 (1 / 2) >>= fun d =>
        TinyPrintFloat cfg0.FLOAT_TYPE logChar [] d 10 >>= fun r =>
          scan cfg0 logChar [0] [] r.1 (0 + (r.2 : Int))) ∧
    37 :: (flagsText false 0 [] (some (bytes "10")) ++ 102 :: [0]) = cstr "%.10f" ∧
    multiplierLoop 10 1 = 1410065408 ∧ multiplierLoop 10 1 ≠ 10 ^ 10 ∧
    TinyPrintFloat binary64 logChar [] (1 / 2 : ℚ) 10 = .ok (bytes "0.0705032704", 12) :=
  ⟨scan_float_precision cfg0 logChar false 0 [] (bytes "10") [0] (1 / 2) [] [] 0 rfl
      ⟨by decide, by decide, by simp [bytes, isDigit]⟩,
    by rfl, by rfl, by decide, float_half_ten⟩

theorem scan_eq_log {σ : Type} (cfg : Config) (printchar : σ → Nat → σ) (format : List Nat)
    (args : List Arg) (ctx : σ) (pc : Int) :
    scan cfg printchar format args ctx pc =
      (scan cfg logChar format args [] 0).map
        fun r => (r.1.foldl printchar ctx, pc + (r.1.length : Int), r.2.2) :=
  TinyPrintfLoop_eq cfg _ printchar format args ctx pc

theorem scan_log_count (cfg : Config) (format : List Nat) (args : List Arg)
    (r : List Nat × Int × List Arg) (h : scan cfg logChar format args [] 0 = .ok r) :
    r.2.1 = (r.1.length : Int) := by
  have e := scan_eq_log cfg logChar format args [] 0
  rw [h] at e
  simp only [map_ok, Except.ok.injEq] at e
  have e2 := congrArg (fun x => x.2.1) e
  simp only [zero_add] at e2
  exact e2

/-- C24: for every format `f1` that does not end inside a directive, every format `f2` and
every argument list, `TinyPrintf` on `f1 ++ f2` sends what it sends on `f1`, followed by what
it sends on `f2` with the arguments that `f1` left, and returns the sum of the two counts;
with any sink, the scan of `f1 ++ f2` is the scan of `f1` followed by the scan of `f2` from
the sink context, count and arguments that the scan of `f1` ends with. -/
theorem C24_composition {σ : Type} (cfg : Config) (printchar : σ → Nat → σ) (ctx : σ)
    (pc : Int) (f1 f2 : List Nat) (args : List Arg) (hf1 : completeFormat f1) :
    (TinyPrintf cfg logChar [] (f1 ++ (f2 ++ [0])) args =
      scan cfg logChar (f1 ++ [0]) args [] 0 >>= fun r1 =>
        (TinyPrintf cfg logChar [] (f2 ++ [0]) r1.2.2).map fun r2 =>
          (r1.1 ++ r2.1, r1.2.1 + r2.2)) ∧
    (TinyPrintf cfg logChar [] (f1 ++ [0]) args =
      (scan cfg logChar (f1 ++ [0]) args [] 0).map fun r1 => (r1.1, r1.2.1)) ∧
    (scan cfg printchar (f1 ++ (f2 ++ [0])) args ctx pc =
      scan cfg printchar (f1 ++ [0]) args ctx pc >>= fun r1 =>
        scan cfg printchar (f2 ++ [0]) r1.2.2 r1.1 r1.2.1) := by
  refine ⟨?_, rfl, scan_append cfg printchar _ _ f1 args ctx pc hf1⟩
  rw [TinyPrintf_eq_scan, scan_append cfg logChar _ _ f1 args [] 0 hf1]
  cases h1 : scan cfg logChar (f1 ++ [0]) args [] 0 with
  | error e => rfl
  | ok r1 =>
    simp only [ok_bind]
    rw [scan_eq_log cfg logChar (f2 ++ [0]) r1.2.2 r1.1 r1.2.1, TinyPrintf_eq_scan]
    cases h2 : scan cfg logChar (f2 ++ [0]) r1.2.2 [] 0 with
    | error e => rfl
    | ok r2 =>
      have hc := scan_log_count cfg _ _ r2 h2
      simp only [map_ok, foldl_logChar, hc]

/-- The witness of C24: `f1 = "a%5d%%"`, `f2 = "%s|%d"`. -/
theorem C24_composition_witness :
    completeFormat (bytes "a%5d%%") ∧
    TinyPrintf cfg0 logChar [] (cstr "a%5d%%%s|%d") [Arg.int 1, Arg.str (some (cstr "xy")), Arg.int 2] =
      .ok (bytes "a    1%xy|2", 11) ∧
    scan cfg0 logChar (cstr "a%5d%%") [Arg.int 1, Arg.str (some (cstr "xy")), Arg.int 2] [] 0 =
      .ok (bytes "a    1%", 7, [Arg.str (some (cstr "xy")), Arg.int 2]) ∧
    TinyPrintf cfg0 logChar [] (cstr "%s|%d") [Arg.str (some (cstr "xy")), Arg.int 2] =
      .ok (bytes "xy|2", 4) ∧
    ((TinyPrintf cfg0 logChar [] (bytes "a%5d%%" ++ (bytes "%s|%d" ++ [0]))
        [Arg.int 1, Arg.str (some (cstr "xy")), Arg.int 2] =
      scan cfg0 logChar (bytes "a%5d%%" ++ [0])
          [Arg.int 1, Arg.str (some (cstr "xy")), Arg.int 2] [] 0 >>= fun r1 =>
        (TinyPrintf cfg0 logChar [] (bytes "%s|%d" ++ [0]) r1.2.2).map fun r2 =>
          (r1.1 ++ r2.1, r1.2.1 + r2.2)) ∧
    (TinyPrintf cfg0 logChar [] (bytes "a%5d%%" ++ [0])
        [Arg.int 1, Arg.str (some (cstr "xy")), Arg.int 2] =
      (scan cfg0 logChar (bytes "a%5d%%" ++ [0])
          [Arg.int 1, Arg.str (some (cstr "xy")), Arg.int 2] [] 0).map
        fun r1 => (r1.1, r1.2.1)) ∧
    (scan cfg0 logChar (bytes "a%5d%%" ++ (bytes "%s|%d" ++ [0]))
        [Arg.int 1, Arg.str (some (cstr "xy")), Arg.int 2] [] 0 =
      scan cfg0 logChar (bytes "a%5d%%" ++ [0])
          [Arg.int 1, Arg.str (some (cstr "xy")), Arg.int 2] [] 0 >>= fun r1 =>
        scan cfg0 logChar (bytes "%s|%d" ++ [0]) r1.2.2 r1.1 r1.2.1)) :=
  ⟨by rfl, by rfl, by rfl, by rfl,
    C24_composition cfg0 logChar [] 0 (bytes "a%5d%%") (bytes "%s|%d")
      [Arg.int 1, Arg.str (some (cstr "xy")), Arg.int 2] (by rfl)⟩

/-- Without the condition on `f1` the composition fails: with `f1 = "%"` and `f2 = "d"` the
format `"%d"` prints its argument, while `f1` alone prints nothing and `f2` alone prints
`"d"`. -/
theorem composition_needs_boundary :
    ¬ completeFormat (bytes "%") ∧
    TinyPrintf cfg0 logChar [] (bytes "%" ++ (bytes "d" ++ [0])) [Arg.int 7] = .ok (bytes "7", 1) ∧
    TinyPrintf cfg0 logChar [] (bytes "%" ++ [0]) [Arg.int 7] = .ok ([], 0) ∧
    TinyPrintf cfg0 logChar [] (bytes "d" ++ [0]) [Arg.int 7] = .ok (bytes "d", 1) :=
  ⟨by unfold completeFormat; decide, by rfl, by rfl, by rfl⟩

end Printf
